import Mathlib

/-!
Verification of the magicnews scraping pipeline (src/scrapers/*.py, src/app.py)
against its natural-language specification.

The development shallowly embeds the Python source:
* Python `str` values are Lean `String` / `List Char`; the Python string
  primitives used by the code (`strip`, `lower`, `replace`, `splitlines`,
  `in`, slicing) are modelled for the ASCII fragment the code manipulates.
* `datetime.date` is a record of numerals with the CPython validity check.
* Network and HTML parsing (requests + BeautifulSoup) are an oracle: a fetch
  environment maps a URL to either an error (a raised RequestException) or a
  pre-parsed page structure holding exactly the projections the adapters read
  (anchor hrefs, candidate titles, flattened text, paragraph texts, category
  metadata).  Everything the adapters do downstream of BeautifulSoup is
  embedded faithfully.
* Fallible Python code (functions that can raise) returns `Except String`.
-/

/-! ## Python string primitives -/

/-- Python `\s` / `str.strip` whitespace (ASCII fragment: space, TAB, LF, CR, VT, FF). -/
def pySpace (c : Char) : Bool :=
  c = ' ' || c = '\t' || c = '\n' || c = '\r' || c.toNat = 11 || c.toNat = 12

/-- Python `str.lower`, ASCII fragment. -/
def lowerChar (c : Char) : Char :=
  if 'A' ≤ c ∧ c ≤ 'Z' then Char.ofNat (c.toNat + 32) else c

def lowerL (cs : List Char) : List Char := cs.map lowerChar

def pyLower (s : String) : String := String.mk (lowerL s.data)

def upperChar (c : Char) : Char :=
  if 'a' ≤ c ∧ c ≤ 'z' then Char.ofNat (c.toNat - 32) else c

/-- Python `str.upper`, ASCII fragment. -/
def pyUpper (s : String) : String := String.mk (s.data.map upperChar)

/-- Python `str.lstrip()`. -/
def lstripL (cs : List Char) : List Char := cs.dropWhile pySpace

/-- Python `str.rstrip()`: drop the maximal all-whitespace suffix. -/
def rstripL : List Char → List Char
  | [] => []
  | c :: rest =>
    match rstripL rest with
    | [] => if pySpace c then [] else [c]
    | r => c :: r

/-- Python `str.strip()`. -/
def stripL (cs : List Char) : List Char := rstripL (lstripL cs)

def pyStrip (s : String) : String := String.mk (stripL s.data)

def pyRstrip (s : String) : String := String.mk (rstripL s.data)

/-- Boolean list-prefix test (used for Python `str.startswith` and substring scans). -/
def prefOf : List Char → List Char → Bool
  | [], _ => true
  | _ :: _, [] => false
  | a :: as, b :: bs => a = b && prefOf as bs

def pyStartswith (s pre : String) : Bool := prefOf pre.data s.data

/-- Python `needle in haystack` for strings. -/
def containsSub (hay pat : List Char) : Bool :=
  match hay with
  | [] => pat.isEmpty
  | _ :: rest => prefOf pat hay || containsSub rest pat

def pyIn (pat s : String) : Bool := containsSub s.data pat.data

/-- Python `str.replace(pat, repl)` (all non-overlapping occurrences, left to right).
`pat` is assumed nonempty (the source only replaces nonempty patterns). -/
def replaceLAux (pat repl : List Char) : Nat → List Char → List Char
  | 0, cs => cs
  | _ + 1, [] => []
  | fuel + 1, c :: rest =>
    if pat ≠ [] ∧ prefOf pat (c :: rest) then
      repl ++ replaceLAux pat repl fuel ((c :: rest).drop pat.length)
    else
      c :: replaceLAux pat repl fuel rest

def replaceL (pat repl cs : List Char) : List Char :=
  replaceLAux pat repl cs.length cs

def pyReplace (s pat repl : String) : String :=
  String.mk (replaceL pat.data repl.data s.data)

/-- Split a char list at every `'\n'` (the writer only ever emits `'\n'`). -/
def splitNlAux (cur : List Char) : List Char → List (List Char)
  | [] => [cur.reverse]
  | c :: rest =>
    if c = '\n' then cur.reverse :: splitNlAux [] rest else splitNlAux (c :: cur) rest

def splitNl (cs : List Char) : List (List Char) := splitNlAux [] cs

/-- Python `str.splitlines()`, for strings whose only line terminator is `'\n'`
(the article files written by this pipeline contain no other terminator). -/
def pySplitlines (s : String) : List String :=
  match s.data with
  | [] => []
  | cs =>
    let parts := splitNl cs
    let parts := if parts.getLast? = some [] then parts.dropLast else parts
    parts.map String.mk

/-- Python `s.split(sep, 1)[-1]` for a one-character separator: everything after
the first occurrence, or the whole string when the separator is absent. -/
def afterFirst (sep : Char) : List Char → Option (List Char)
  | [] => none
  | c :: rest => if c = sep then some rest else afterFirst sep rest

def pySplit1Last (s : String) (sep : Char) : String :=
  match afterFirst sep s.data with
  | some t => String.mk t
  | none => s

/-! ## Decimal numerals (`str(n)` / f-string rendering of a non-negative int) -/

def digitChar (n : Nat) : Char := Char.ofNat (48 + n % 10)

def natDigsAux : Nat → Nat → List Char
  | 0, _ => []
  | _ + 1, 0 => []
  | fuel + 1, n + 1 => natDigsAux fuel ((n + 1) / 10) ++ [digitChar ((n + 1) % 10)]

def natDigs (n : Nat) : List Char := natDigsAux n n

/-- Decimal rendering of a natural number, as Python `str(n)`. -/
def natRepr (n : Nat) : List Char := if n = 0 then ['0'] else natDigs n

def natReprS (n : Nat) : String := String.mk (natRepr n)

/-- Zero-padded decimal rendering of width `w` (`%02d` / `%04d`). -/
def padNum (w n : Nat) : List Char :=
  List.replicate (w - (natRepr n).length) '0' ++ natRepr n

/-! ## Calendar dates (`datetime.date`) -/

structure PyDate where
  year : Nat
  month : Nat
  day : Nat
  deriving DecidableEq, Repr

def isLeap (y : Nat) : Bool := y % 4 = 0 && (y % 100 ≠ 0 || y % 400 = 0)

def daysInMonth (y m : Nat) : Nat :=
  if m = 2 then (if isLeap y then 29 else 28)
  else if m = 4 || m = 6 || m = 9 || m = 11 then 30
  else 31

/-- The check performed by the `datetime.date(y, m, d)` constructor; a `False`
here is the `ValueError` the source catches. -/
def dateValid (y m d : Nat) : Bool :=
  1 ≤ y && y ≤ 9999 && 1 ≤ m && m ≤ 12 && 1 ≤ d && d ≤ daysInMonth y m

def mkPyDate (y m d : Nat) : Option PyDate :=
  if dateValid y m d then some ⟨y, m, d⟩ else none

/-- `date.isoformat()`. -/
def isoformat (d : PyDate) : String :=
  String.mk (padNum 4 d.year ++ ['-'] ++ padNum 2 d.month ++ ['-'] ++ padNum 2 d.day)

/-! ## Parsed integers (`int(s)`) -/

def isDigitC (c : Char) : Bool := '0' ≤ c && c ≤ '9'

def digitVal (c : Char) : Nat := c.toNat - 48

def digitsVal (cs : List Char) : Nat := cs.foldl (fun a c => a * 10 + digitVal c) 0

/-- Python `int(s)` for the shapes the source feeds it: optional surrounding
whitespace, optional sign, then a nonempty digit run.  `none` is the
`ValueError` the source catches. -/
def pyInt (s : String) : Option Int :=
  let cs := stripL s.data
  match cs with
  | '-' :: ds =>
    if ds ≠ [] ∧ ds.all isDigitC then some (-(digitsVal ds : Int)) else none
  | '+' :: ds =>
    if ds ≠ [] ∧ ds.all isDigitC then some (digitsVal ds : Int) else none
  | ds =>
    if ds ≠ [] ∧ ds.all isDigitC then some (digitsVal ds : Int) else none

/-! ## `parse_us_date_string` (src/scrapers/base.py, lines 58-66)

CPython `datetime.strptime` compiles the format into a regex (IGNORECASE,
matched against the whole string): `%b`/`%B` is an alternation of the English
month names, a literal space in the format is `\s+`, `%d` is
`3[01]|[12]\d|0[1-9]|[1-9]`, `%Y` is exactly four digits, and the resulting
numbers go through the `datetime` constructor whose `ValueError` the source
catches.  The two formats tried are `"%b %d, %Y"` and `"%B %d, %Y"`. -/

def monthAbbrevs : List String :=
  ["jan", "feb", "mar", "apr", "may", "jun", "jul", "aug", "sep", "oct", "nov", "dec"]

def monthFulls : List String :=
  ["january", "february", "march", "april", "may", "june", "july", "august",
   "september", "october", "november", "december"]

/-- Case-insensitive prefix match: consume `pat` (given lowercase) from `cs`. -/
def ciPref (pat : List Char) (cs : List Char) : Option (List Char) :=
  match pat, cs with
  | [], rest => some rest
  | _ :: _, [] => none
  | p :: ps, c :: rest => if lowerChar c = p then ciPref ps rest else none

/-- Match one month name out of `names` (1-based month number = list position). -/
def matchMonth (names : List String) (cs : List Char) : Option (Nat × List Char) :=
  go 1 names
where
  go (i : Nat) : List String → Option (Nat × List Char)
    | [] => none
    | n :: rest =>
      match ciPref n.data cs with
      | some r => some (i, r)
      | none => go (i + 1) rest

/-- `\s+` (greedy; every token following it in the format is a non-space). -/
def skipWs1 : List Char → Option (List Char)
  | [] => none
  | c :: rest => if pySpace c then some (rest.dropWhile pySpace) else none

/-- `%d`, i.e. `3[01]|[12]\d|0[1-9]|[1-9]` (backtracking is immaterial here:
a two-digit day is followed in the format by a literal `,`, which is not a
digit, so the shorter alternative can never rescue a failed longer one). -/
def parseDay : List Char → Option (Nat × List Char)
  | [] => none
  | c1 :: rest =>
    if c1 = '3' then
      match rest with
      | c2 :: r2 =>
        if c2 = '0' then some (30, r2)
        else if c2 = '1' then some (31, r2)
        else some (3, rest)
      | [] => some (3, rest)
    else if c1 = '1' ∨ c1 = '2' then
      match rest with
      | c2 :: r2 =>
        if isDigitC c2 then some (digitVal c1 * 10 + digitVal c2, r2)
        else some (digitVal c1, rest)
      | [] => some (digitVal c1, rest)
    else if c1 = '0' then
      match rest with
      | c2 :: r2 => if isDigitC c2 && c2 ≠ '0' then some (digitVal c2, r2) else none
      | [] => none
    else if isDigitC c1 then some (digitVal c1, rest)
    else none

/-- `%Y`: exactly four digits. -/
def parse4Digits : List Char → Option (Nat × List Char)
  | a :: b :: c :: d :: r =>
    if isDigitC a && isDigitC b && isDigitC c && isDigitC d then
      some (digitsVal [a, b, c, d], r)
    else none
  | _ => none

/-- One `strptime(s, "%? %d, %Y").date()` attempt over the month-name list
`names`; `none` is the `ValueError` the source catches. -/
def strptimeUS (names : List String) (cs : List Char) : Option PyDate :=
  match matchMonth names cs with
  | none => none
  | some (m, r1) =>
    match skipWs1 r1 with
    | none => none
    | some r2 =>
      match parseDay r2 with
      | none => none
      | some (d, r3) =>
        match r3 with
        | ',' :: r4 =>
          match skipWs1 r4 with
          | none => none
          | some r5 =>
            match parse4Digits r5 with
            | none => none
            | some (y, r6) =>
              if r6 = [] then mkPyDate y m d else none
        | _ => none

/-- `date_str.replace("Sept ", "Sep ").replace("SEPT ", "Sep ")`. -/
def septFix (s : String) : String :=
  pyReplace (pyReplace s "Sept " "Sep ") "SEPT " "Sep "

/-- `parse_us_date_string` (base.py): try `%b %d, %Y` then `%B %d, %Y` on the
Sept-normalized string; `None` when neither matches. -/
def parse_us_date_string (s : String) : Option PyDate :=
  let fixed := septFix s
  match strptimeUS monthAbbrevs fixed.data with
  | some d => some d
  | none => strptimeUS monthFulls fixed.data

/-! ## `DATE_PATTERN` (base.py, lines 27-31) and `re.search`

`\b(?:Jan(?:uary)?|...|Dec(?:ember)?)\s+\d{1,2},\s+\d{4}\b`, case sensitive.
`re.search` scans positions left to right; at a position the month
alternatives are tried in written order and each greedy optional suffix is
tried longest first; `\d{1,2}` tries two digits then one.  The `\s+` atoms
need no backtracking (the following atom is never a whitespace char). -/

def isWordChar (c : Char) : Bool :=
  ('a' ≤ c && c ≤ 'z') || ('A' ≤ c && c ≤ 'Z') || ('0' ≤ c && c ≤ '9') || c = '_'

/-- For each month alternative, the candidate literals in backtracking order. -/
def dpMonthAlts : List (List (List Char)) :=
  [["January".data, "Jan".data], ["February".data, "Feb".data],
   ["March".data, "Mar".data], ["April".data, "Apr".data], ["May".data],
   ["June".data, "Jun".data], ["July".data, "Jul".data],
   ["August".data, "Aug".data],
   ["September".data, "Sept".data, "Sep".data],
   ["October".data, "Oct".data], ["November".data, "Nov".data],
   ["December".data, "Dec".data]]

def litPref (lit cs : List Char) : Option (List Char) :=
  if prefOf lit cs then some (cs.drop lit.length) else none

/-- One-or-more whitespace chars, greedily; returns `(consumed, rest)`. -/
def skipWsCount (cs : List Char) : Option (List Char × List Char) :=
  match cs with
  | c :: rest =>
    if pySpace c then
      some (c :: rest.takeWhile pySpace, rest.dropWhile pySpace)
    else none
  | [] => none

/-- `,\s+\d{4}\b` after the day digits; returns `day ++ consumed`. -/
def dpAfterDay (day r2 : List Char) : Option (List Char) :=
  match r2 with
  | ',' :: r3 =>
    match skipWsCount r3 with
    | none => none
    | some (w2, r4) =>
      match r4 with
      | a :: b :: c :: d :: r5 =>
        if isDigitC a && isDigitC b && isDigitC c && isDigitC d then
          match r5 with
          | [] => some (day ++ [','] ++ w2 ++ [a, b, c, d])
          | e :: _ =>
            if isWordChar e then none
            else some (day ++ [','] ++ w2 ++ [a, b, c, d])
        else none
      | _ => none
  | _ => none

/-- `\s+\d{1,2},\s+\d{4}\b` after a month literal; returns the consumed chars
(the day digits try the two-digit alternative first, as the regex does). -/
def dpTail (cs : List Char) : Option (List Char) :=
  match skipWsCount cs with
  | none => none
  | some (w1, r1) =>
    match r1 with
    | c1 :: c2 :: r2 =>
      if isDigitC c1 then
        if isDigitC c2 then
          match dpAfterDay [c1, c2] r2 with
          | some res => some (w1 ++ res)
          | none => (dpAfterDay [c1] (c2 :: r2)).map (fun res => w1 ++ res)
        else (dpAfterDay [c1] (c2 :: r2)).map (fun res => w1 ++ res)
      else none
    | [c1] =>
      if isDigitC c1 then (dpAfterDay [c1] []).map (fun res => w1 ++ res) else none
    | [] => none

/-- Try the whole `DATE_PATTERN` at the current position (boundary already
checked by the caller); returns the matched substring. -/
def dpMatchHere (cs : List Char) : Option (List Char) :=
  go dpMonthAlts
where
  goCands : List (List Char) → Option (List Char)
    | [] => none
    | lit :: more =>
      match litPref lit cs with
      | some rest =>
        match dpTail rest with
        | some tail => some (lit ++ tail)
        | none => goCands more
      | none => goCands more
  go : List (List (List Char)) → Option (List Char)
    | [] => none
    | alt :: more =>
      match goCands alt with
      | some m => some m
      | none => go more

/-- `DATE_PATTERN.search(text)`: leftmost match, as the matched substring
(`match.group(0)`); `prevWord` tracks whether the previous char is a word char
(for the leading `\b`; every month literal starts with a word char). -/
def dpSearch (prevWord : Bool) : List Char → Option (List Char)
  | [] => none
  | c :: rest =>
    if prevWord then dpSearch (isWordChar c) rest
    else
      match dpMatchHere (c :: rest) with
      | some m => some m
      | none => dpSearch (isWordChar c) rest

def firstDateMatch (text : String) : Option String :=
  (dpSearch false text.data).map String.mk

/-! ## Article records

An adapter hands the Archive Writer plain dicts
`{"url": ..., "title": ..., "date": ..., "paragraphs": ...}`.  The writer
tolerates a missing/non-date `date` value, hence the `Option`. -/

structure Article where
  url : String
  title : String
  date : Option PyDate
  paragraphs : List String
  deriving DecidableEq, Repr

/-- `article.get("title") or "Untitled"` (both the writer and the save loop
apply this fallback). -/
def effTitle (a : Article) : String := if a.title = "" then "Untitled" else a.title

/-! ## `title_to_filename` (base.py, lines 68-85) -/

def illegalFilenameChar (c : Char) : Bool :=
  c = '\\' || c = '/' || c = '*' || c = '?' || c = ':' || c = '"' ||
  c = '<' || c = '>' || c = '|'

/-- `re.sub(r"\s+", " ", s)`: collapse every whitespace run to one space.
The flag records whether the previous input char was whitespace. -/
def collapseWsAux (prevWs : Bool) : List Char → List Char
  | [] => []
  | c :: rest =>
    if pySpace c then
      if prevWs then collapseWsAux true rest
      else ' ' :: collapseWsAux true rest
    else c :: collapseWsAux false rest

def collapseWs (cs : List Char) : List Char := collapseWsAux false cs

/-- The stem built by `title_to_filename` for a nonempty title: strip illegal
characters, collapse whitespace, strip, fall back to "untitled", cap at 150
chars (rstripping the cut). -/
def sanStem (title : String) : String :=
  let cleaned := title.data.filter (fun c => !illegalFilenameChar c)
  let cleaned := stripL (collapseWs cleaned)
  let cleaned := if cleaned = [] then "untitled".data else cleaned
  if cleaned.length > 150 then String.mk (rstripL (cleaned.take 150))
  else String.mk cleaned

def title_to_filename (title : String) : String :=
  if title = "" then "untitled.txt" else sanStem title ++ ".txt"

/-! ## `write_text_article` (base.py, lines 87-112) -/

/-- The `lines` list the writer joins. -/
def writeLines (a : Article) (site_slug : String) : List String :=
  let title := effTitle a
  let url := a.url
  let head := [title, "", "Site: " ++ pyUpper site_slug]
  let head :=
    head ++ (match a.date with
             | some d => ["Published: " ++ isoformat d]
             | none => [])
  let head := head ++ ["URL: " ++ url, ""]
  head ++ (a.paragraphs.foldr
    (fun p acc => let p := pyStrip p; if p = "" then acc else p :: "" :: acc) [])

/-- `"\n".join`. -/
def joinNlL : List (List Char) → List Char
  | [] => []
  | [l] => l
  | l :: l2 :: ls => l ++ '\n' :: joinNlL (l2 :: ls)

/-- The file content: `"\n".join(lines).rstrip() + "\n"`. -/
def write_text_article (a : Article) (site_slug : String) : String :=
  String.mk (rstripL (joinNlL ((writeLines a site_slug).map String.data)) ++ ['\n'])

/-! ## `save_articles` (base.py, lines 120-152)

The filesystem state of the output directory is the list of file names it
contains; a write adds a name.  `pathlib.Path.stem`/`.suffix` split at the
last dot (no split when the dot is the first or last character of the name). -/

/-- Split at the last `'.'`: `some (before, after)` with `after` dot-free. -/
def rsplitDot : List Char → Option (List Char × List Char)
  | [] => none
  | c :: rest =>
    match rsplitDot rest with
    | some (a, b) => some (c :: a, b)
    | none => if c = '.' then some ([], rest) else none

/-- `(Path(name).stem, Path(name).suffix)`. -/
def pathSplit (name : String) : String × String :=
  match rsplitDot name.data with
  | some (a, b) =>
    if a ≠ [] ∧ b ≠ [] then (String.mk a, String.mk ('.' :: b)) else (name, "")
  | none => (name, "")

/-- `f"{base} ({i}){ext}"`. -/
def nthCand (stem ext : String) (i : Nat) : String :=
  stem ++ " (" ++ natReprS i ++ ")" ++ ext

/-- The `while candidate.exists()` loop.  The Python loop is unbounded but
terminates at the first free name; `fuel := fs.length + 1` suffices because the
candidate names are pairwise distinct, so one of the first `fs.length + 1` is
not in `fs`. -/
def findFree (fs : List String) (stem ext : String) : Nat → Nat → String
  | 0, i => nthCand stem ext i
  | fuel + 1, i =>
    let c := nthCand stem ext i
    if c ∈ fs then findFree fs stem ext fuel (i + 1) else c

/-- Collision resolution for one article file name against directory state `fs`. -/
def resolveName (fs : List String) (fname : String) : String :=
  if fname ∈ fs then
    let p := pathSplit fname
    findFree fs p.1 p.2 (fs.length + 1) 2
  else fname

/-- The per-article save loop: returns the file names written, in order; each
written file becomes visible to the `candidate.exists()` checks that follow. -/
def saveLoop (fs : List String) : List Article → List String
  | [] => []
  | a :: rest =>
    let fname := title_to_filename (effTitle a)
    let final := resolveName fs fname
    final :: saveLoop (final :: fs) rest

def manifestName (site_slug : String) (target_date : PyDate) : String :=
  site_slug ++ "_urls_" ++ isoformat target_date ++ ".json"

/-- `save_articles`: no-op on an empty list, else write the URL-manifest JSON
then one text file per article (Article records model nonempty dicts, so the
`[a for a in articles if a]` filter keeps every element).  Result: the names
written into `<date>/<site>/Original`, manifest first. -/
def save_articles (site_slug : String) (target_date : PyDate) (fs : List String)
    (articles : List Article) : List String :=
  if articles = [] then []
  else
    let m := manifestName site_slug target_date
    m :: saveLoop (m :: fs) articles

/-! ## `parse_article_file` (src/Old Versions/summarize_archive copy 2.py, 28-51)

The rewrite-stage consumer of the writer's text format. -/

structure ParsedArticle where
  title : Option String
  url : Option String
  published : Option String
  siteName : Option String
  body : List String
  deriving DecidableEq, Repr

def parseLine (st : ParsedArticle) (line : String) : ParsedArticle :=
  let stripped := pyStrip line
  if stripped = "" then st
  else if st.title = none ∧ ¬ pyIn ":" stripped then { st with title := some stripped }
  else
    let lower := pyLower stripped
    if pyStartswith lower "site:" then
      { st with siteName := some (pyStrip (pySplit1Last stripped ':')) }
    else if pyStartswith lower "published:" then
      { st with published := some (pyStrip (pySplit1Last stripped ':')) }
    else if pyStartswith lower "url:" then
      { st with url := some (pyStrip (pySplit1Last stripped ':')) }
    else { st with body := st.body ++ [line] }

/-- `parse_article_file` on the file text (reading the file modelled away);
body is returned joined/stripped by the source, kept as lines here since the
round-trip claim only concerns title/url/published. -/
def parse_article_file (text : String) : ParsedArticle :=
  (pySplitlines text).foldl parseLine ⟨none, none, none, none, []⟩

/-! ## Fetch / parse oracle

`requests.get` + `BeautifulSoup` are external; a `Page` holds exactly the
projections of the parsed HTML that the adapters read:
* `anchors`: the `href` values of the `<a href=...>` tags the adapter
  iterates (for WMUR, of the anchors following the "local news" heading when
  present, else all anchors — the selection itself is BeautifulSoup's),
* `ogTitle`/`twTitle`: the `content` attribute of the `og:title` /
  `twitter:title` meta tag if that tag exists,
* `h1`: `soup.find("h1").get_text(strip=True)` if an `h1` exists,
* `text`: `soup.get_text(" ", strip=True)`,
* `paragraphs`: `p.get_text(" ", strip=True)` for each `<p>`, in order,
* `metaSection`: the `content` of the `article:section` meta tag,
* `catLink`: the text of the first category-classed link (WCAX fallback). -/

structure Page where
  anchors : List String
  ogTitle : Option String
  twTitle : Option String
  h1 : Option String
  text : String
  paragraphs : List String
  metaSection : Option String
  catLink : Option String

/-! JSON values, for the two BLOX-CMS API adapters. -/

inductive Json where
  | null : Json
  | bool : Bool → Json
  | num : Int → Json
  | str : String → Json
  | arr : List Json → Json
  | obj : List (String × Json) → Json

/-- `dict.get(key)` (first binding wins). -/
def jGet : List (String × Json) → String → Option Json
  | [], _ => none
  | (k, v) :: rest, key => if k = key then some v else jGet rest key

/-- Python truthiness of a JSON value. -/
def jTruthy : Json → Bool
  | .null => false
  | .bool b => b
  | .num n => n ≠ 0
  | .str s => s ≠ ""
  | .arr xs => !xs.isEmpty
  | .obj kvs => !kvs.isEmpty

/-- Python `a or b` where `a`, `b` are `dict.get` results (`None` or a value). -/
def jor (x y : Option Json) : Option Json :=
  match x with
  | some v => if jTruthy v then some v else y
  | none => y

/-- `str(x)` of a JSON fragment (the list-body concatenation only ever sees
strings in practice; the non-string renderings are CPython's reprs except for
containers, which are abbreviated — no theorem depends on them). -/
def pyStrJson : Json → String
  | .str s => s
  | .num n => toString n
  | .bool b => if b then "True" else "False"
  | .null => "None"
  | .arr _ => "[...]"
  | .obj _ => "<dict>"

/-- The scraping environment: a deterministic fetch oracle (one run of the
pipeline; `requests.get` of the same URL is modelled as returning the same
result), the `<p>`-extraction oracle for raw HTML bodies handed to
BeautifulSoup by the JSON adapters, and the two API responses (their query
parameters are fixed per run).  `.error` is a raised request exception. -/
structure Env where
  page : String → Except String Page
  htmlPs : String → List String
  keeneResp : Except String Json
  reformerResp : Except String Json

/-! ## Date-in-URL extraction, `re.search(r"/(\d{4})/(\d{2})/(\d{2})/", url)`
(wcax.py, vtdigger.py). -/

def urlDateAt : List Char → Option (Nat × Nat × Nat)
  | '/' :: a :: b :: c :: d :: '/' :: e :: f :: '/' :: g :: h :: '/' :: _ =>
    if [a, b, c, d, e, f, g, h].all isDigitC then
      some (digitsVal [a, b, c, d], digitsVal [e, f], digitsVal [g, h])
    else none
  | _ => none

def urlDateSearch : List Char → Option (Nat × Nat × Nat)
  | [] => none
  | c :: rest =>
    match urlDateAt (c :: rest) with
    | some g => some g
    | none => urlDateSearch rest

/-- Leftmost `/YYYY/MM/DD/` in the URL passed through `date(y, m, d)`;
`none` both when the pattern is absent and when the constructor raises the
`ValueError` the source catches (the two cases are handled identically at
every call site). -/
def urlDateMatch (url : String) : Option PyDate :=
  match urlDateSearch url.data with
  | some (y, m, d) => mkPyDate y m d
  | none => none

/-! ## WMUR adapter (src/scrapers/wmur.py) -/

namespace Wmur

def BASE_URL : String := "https://www.wmur.com"

def LOCAL_NEWS_URL : String := BASE_URL ++ "/local-news"

def MAX_ARTICLES : Nat := 60

def NON_NEWS_KEYWORDS : List String :=
  ["grow-it-green", "nh-chronicle", "forecast", "hour-by-hour"]

/-- Does `re.sub(r"\s*[-|]\s*WMUR.*$", ...)`'s pattern match starting here?
(`\s*` must consume exactly the whitespace run before the dash; `.*$` then
swallows the rest, so a match truncates the title at this position.) -/
def sufHere (cs : List Char) : Bool :=
  match cs.dropWhile pySpace with
  | d :: r => (d = '-' || d = '|') && prefOf "wmur".data (lowerL (r.dropWhile pySpace))
  | [] => false

/-- Truncate at the leftmost match of the WMUR-suffix pattern. -/
def sufCut : List Char → List Char
  | [] => []
  | c :: rest => if sufHere (c :: rest) then [] else c :: sufCut rest

/-- `extract_title` (wmur.py, lines 23-41): og:title → twitter:title → h1 →
"Untitled", then strip the " - WMUR ..." suffix and strip. -/
def extract_title (pg : Page) : String :=
  let t :=
    match pg.ogTitle with
    | some c =>
      if c ≠ "" then pyStrip c
      else
        match pg.twTitle with
        | some c2 => if c2 ≠ "" then pyStrip c2 else (pg.h1.getD "Untitled")
        | none => pg.h1.getD "Untitled"
    | none =>
      match pg.twTitle with
      | some c2 => if c2 ≠ "" then pyStrip c2 else (pg.h1.getD "Untitled")
      | none => pg.h1.getD "Untitled"
  pyStrip (String.mk (sufCut t.data))

def hardStopPhrases : List String :=
  ["subscribe to wmur's youtube channel", "hearst television participates"]

def skipPhrases : List String :=
  ["download the free wmur app", "get the wmur app", "copyright"]

/-- The `<p>` loop of `scrape_article`. -/
def paraLoop : List String → List String
  | [] => []
  | t :: rest =>
    if t = "" then paraLoop rest
    else
      let lower := pyLower t
      if hardStopPhrases.any (fun s => pyIn s lower) then []
      else if skipPhrases.any (fun s => pyIn s lower) && pyIn "wmur" lower then
        paraLoop rest
      else t :: paraLoop rest

/-- `scrape_article` (wmur.py, lines 81-129). -/
def scrape_article (env : Env) (url : String) (fallback_date : PyDate) :
    Except String (Option Article) :=
  match env.page url with
  | .error e => .error e
  | .ok pg =>
    let title := extract_title pg
    let title_lower := pyLower title
    if pyIn "wmur" title_lower || pyIn "hearst television news" title_lower then
      .ok none
    else
      let pub :=
        match firstDateMatch pg.text with
        | some m =>
          match parse_us_date_string m with
          | some d => d
          | none => fallback_date
        | none => fallback_date
      .ok (some ⟨url, title, some pub, paraLoop pg.paragraphs⟩)

/-- The anchor-filtering loop of `get_candidate_urls` (wmur.py, lines 57-79). -/
def candLoop (seen acc : List String) : List String → List String
  | [] => acc
  | href :: rest =>
    if href = "" then candLoop seen acc rest
    else
      let href := if pyStartswith href "/" then BASE_URL ++ href else href
      if ¬ pyStartswith href BASE_URL then candLoop seen acc rest
      else if ¬ pyIn "/article/" href then candLoop seen acc rest
      else if NON_NEWS_KEYWORDS.any (fun b => pyIn b (pyLower href)) then
        candLoop seen acc rest
      else if href ∈ seen then candLoop seen acc rest
      else
        let acc := acc ++ [href]
        if MAX_ARTICLES ≤ acc.length then acc
        else candLoop (href :: seen) acc rest

def get_candidate_urls (env : Env) : Except String (List String) :=
  match env.page LOCAL_NEWS_URL with
  | .error e => .error e
  | .ok pg => .ok (candLoop [] [] pg.anchors)

/-- The per-candidate loop of `scrape` (lines 140-148): a raised per-item
fetch error is caught and logged; an article is kept iff
`art and art['date'] == target_date`. -/
def scrapeLoop (env : Env) (target_date : PyDate) : List String → List Article
  | [] => []
  | url :: rest =>
    match scrape_article env url target_date with
    | .error _ => scrapeLoop env target_date rest
    | .ok none => scrapeLoop env target_date rest
    | .ok (some art) =>
      if art.date = some target_date then art :: scrapeLoop env target_date rest
      else scrapeLoop env target_date rest

/-- `scrape` (wmur.py, lines 131-150); a listing-page fetch error propagates. -/
def scrape (env : Env) (target_date : PyDate) : Except String (List Article) :=
  match get_candidate_urls env with
  | .error e => .error e
  | .ok candidates => .ok (scrapeLoop env target_date candidates)

end Wmur

/-! ## WCAX adapter (src/scrapers/wcax.py) -/

namespace Wcax

def BASE_URL : String := "https://www.wcax.com"

def NEWS_URL : String := BASE_URL ++ "/news/"

def MAX_ARTICLES : Nat := 60

def LOCAL_CATEGORIES : List String :=
  ["vermont", "new hampshire", "local", "vt", "nh",
   "news", "crime", "education", "health", "politics", "business"]

def EXCLUDE_TITLES : List String :=
  ["programming note", "this day in history", "history"]

/-- The anchor loop of `get_urls_for_date` (wcax.py, lines 33-56): root-relative
hrefs go through `urljoin(BASE_URL, href)` (= concatenation for a
root-relative path), then same-origin filter, `/YYYY/MM/DD/` date filter
against the target date, dedup, cap at 60. -/
def urlLoop (target_date : PyDate) (seen acc : List String) : List String → List String
  | [] => acc
  | href :: rest =>
    if href = "" then urlLoop target_date seen acc rest
    else
      let href := if pyStartswith href "/" then BASE_URL ++ href else href
      if ¬ pyStartswith href BASE_URL then urlLoop target_date seen acc rest
      else
        match urlDateMatch href with
        | none => urlLoop target_date seen acc rest
        | some url_date =>
          if url_date ≠ target_date then urlLoop target_date seen acc rest
          else if href ∈ seen then urlLoop target_date seen acc rest
          else
            let acc := acc ++ [href]
            if MAX_ARTICLES ≤ acc.length then acc
            else urlLoop target_date (href :: seen) acc rest

def get_urls_for_date (env : Env) (target_date : PyDate) : Except String (List String) :=
  match env.page NEWS_URL with
  | .error e => .error e
  | .ok pg => .ok (urlLoop target_date [] [] pg.anchors)

/-- `extract_category` (wcax.py, lines 60-70). -/
def extract_category (pg : Page) : String :=
  match pg.metaSection with
  | some c => if c ≠ "" then pyStrip c else (pg.catLink.getD "")
  | none => pg.catLink.getD ""

/-- `scrape_article` (wcax.py, lines 72-111). -/
def scrape_article (env : Env) (url : String) (fallback_date : PyDate) :
    Except String (Option Article) :=
  match env.page url with
  | .error e => .error e
  | .ok pg =>
    let title := pg.h1.getD "Untitled"
    if EXCLUDE_TITLES.any (fun bad => pyIn bad (pyLower title)) then .ok none
    else
      let category := pyLower (extract_category pg)
      if category ≠ "" && !(LOCAL_CATEGORIES.any (fun loc => pyIn loc category)) then
        .ok none
      else
        let pub := (urlDateMatch url).getD fallback_date
        let paragraphs := pg.paragraphs.foldr
          (fun t acc =>
            if t = "" then acc
            else if pyIn "copyright" (pyLower t) && pyIn "wcax" (pyLower t) then acc
            else t :: acc) []
        .ok (some ⟨url, title, some pub, paragraphs⟩)

/-- The per-URL loop of `scrape` (lines 121-128): per-item errors caught,
`if art: articles.append(art)`. -/
def scrapeLoop (env : Env) (target_date : PyDate) : List String → List Article
  | [] => []
  | url :: rest =>
    match scrape_article env url target_date with
    | .error _ => scrapeLoop env target_date rest
    | .ok none => scrapeLoop env target_date rest
    | .ok (some art) => art :: scrapeLoop env target_date rest

/-- `scrape` (wcax.py, lines 113-130). -/
def scrape (env : Env) (target_date : PyDate) : Except String (List Article) :=
  match get_urls_for_date env target_date with
  | .error e => .error e
  | .ok urls => .ok (scrapeLoop env target_date urls)

end Wcax

/-! ## VTDigger adapter (src/scrapers/vtdigger.py) -/

namespace Vtdigger

def BASE_URL : String := "https://vtdigger.org"

def MAX_ARTICLES : Nat := 60

/-- The anchor loop of `get_urls_for_date` (vtdigger.py, lines 25-47). -/
def urlLoop (target_date : PyDate) (seen acc : List String) : List String → List String
  | [] => acc
  | href :: rest =>
    if href = "" then urlLoop target_date seen acc rest
    else
      let href := if pyStartswith href "/" then BASE_URL ++ href else href
      if ¬ pyStartswith href BASE_URL then urlLoop target_date seen acc rest
      else
        match urlDateMatch href with
        | none => urlLoop target_date seen acc rest
        | some url_date =>
          if url_date ≠ target_date then urlLoop target_date seen acc rest
          else if href ∈ seen then urlLoop target_date seen acc rest
          else
            let acc := acc ++ [href]
            if MAX_ARTICLES ≤ acc.length then acc
            else urlLoop target_date (href :: seen) acc rest

def get_urls_for_date (env : Env) (target_date : PyDate) : Except String (List String) :=
  match env.page BASE_URL with
  | .error e => .error e
  | .ok pg => .ok (urlLoop target_date [] [] pg.anchors)

def hardStopPhrases : List String :=
  ["have something to say? submit a commentary here",
   "vermont's newsletter", "request a correction"]

def skipExactPhrases : List String := ["vtdigger", "news in pursuit of truth"]

/-- The `<p>` loop of `scrape_article` (vtdigger.py, lines 105-141): `none`
models the `return None` exits (commentary, obituary, blocked content);
a hard-stop phrase ends collection. -/
def paraLoop (firstChecked : Bool) : List String → Option (List String)
  | [] => some []
  | t :: rest =>
    if t = "" then paraLoop firstChecked rest
    else
      let lowered := pyLower t
      if ¬ firstChecked &&
          pyIn "commentaries are opinion pieces contributed by readers and newsmakers" lowered then
        none
      else if ¬ firstChecked && pyStartswith t "Born" then none
      else if pyIn "young writers project" lowered || pyIn "giving tuesday" lowered then
        none
      else if hardStopPhrases.any (fun s => pyIn s lowered) then some []
      else if skipExactPhrases.any (fun s => lowered = s) then paraLoop true rest
      else if pyIn "reader donations" lowered then paraLoop true rest
      else (paraLoop true rest).map (fun ps => t :: ps)

/-- `scrape_article` (vtdigger.py, lines 51-148). -/
def scrape_article (env : Env) (url : String) (fallback_date : PyDate) :
    Except String (Option Article) :=
  match env.page url with
  | .error e => .error e
  | .ok pg =>
    let title := pg.h1.getD "Untitled"
    let clean_title := pyStrip (pyLower title)
    if clean_title = "vtdigger" || clean_title = "vtdiggers" then .ok none
    else if pyIn "vtdigger announces" clean_title || pyIn "giving tuesday" clean_title then
      .ok none
    else
      let pub :=
        match urlDateMatch url with
        | some d => d
        | none =>
          match firstDateMatch pg.text with
          | some m =>
            match parse_us_date_string m with
            | some d => d
            | none => fallback_date
          | none => fallback_date
      match paraLoop false pg.paragraphs with
      | none => .ok none
      | some paragraphs => .ok (some ⟨url, title, some pub, paragraphs⟩)

/-- The per-URL loop of `scrape` (lines 158-165). -/
def scrapeLoop (env : Env) (target_date : PyDate) : List String → List Article
  | [] => []
  | url :: rest =>
    match scrape_article env url target_date with
    | .error _ => scrapeLoop env target_date rest
    | .ok none => scrapeLoop env target_date rest
    | .ok (some art) => art :: scrapeLoop env target_date rest

/-- `scrape` (vtdigger.py, lines 150-167). -/
def scrape (env : Env) (target_date : PyDate) : Except String (List Article) :=
  match get_urls_for_date env target_date with
  | .error e => .error e
  | .ok urls => .ok (scrapeLoop env target_date urls)

end Vtdigger

/-! ## MyKeeneNow adapter (src/scrapers/mykeenenow.py) -/

namespace Mykeenenow

def BASE_URL : String := "https://mykeenenow.com"

def NEWS_URL : String := BASE_URL ++ "/news/"

def MAX_ARTICLES : Nat := 60

/-- The anchor loop of `get_urls_for_date` (mykeenenow.py, lines 29-40):
note no cap — every `/news/` link becomes a candidate. -/
def candLoop (seen acc : List String) : List String → List String
  | [] => acc
  | href :: rest =>
    if href = "" then candLoop seen acc rest
    else
      let href := if pyStartswith href "/" then BASE_URL ++ href else href
      if ¬ pyStartswith href BASE_URL then candLoop seen acc rest
      else if ¬ pyIn "/news/" href then candLoop seen acc rest
      else if href ∈ seen then candLoop seen acc rest
      else candLoop (href :: seen) (acc ++ [href]) rest

/-- The date extracted by scanning a page's visible text: the first
`DATE_PATTERN` match passed through the date parser. -/
def textDate (pg : Page) : Option PyDate :=
  match firstDateMatch pg.text with
  | some m => parse_us_date_string m
  | none => none

/-- The date-check loop of `get_urls_for_date` (lines 45-64): stops once 60
candidates MATCH, but every candidate before that is fetched; besides the
accepted URLs, the number of candidates actually scanned is returned (the
fetches performed, whether they succeed or raise — a raised check is caught
and the loop continues). -/
def checkLoop (env : Env) (target_date : PyDate) (valid : List String) (scanned : Nat) :
    List String → List String × Nat
  | [] => (valid, scanned)
  | u :: rest =>
    if MAX_ARTICLES ≤ valid.length then (valid, scanned)
    else
      match env.page u with
      | .error _ => checkLoop env target_date valid (scanned + 1) rest
      | .ok pg =>
        if textDate pg = some target_date then
          checkLoop env target_date (valid ++ [u]) (scanned + 1) rest
        else checkLoop env target_date valid (scanned + 1) rest

/-- `get_urls_for_date` (lines 18-65), also exposing the scanned count. -/
def get_urls_for_date (env : Env) (target_date : PyDate) :
    Except String (List String × Nat) :=
  match env.page NEWS_URL with
  | .error e => .error e
  | .ok pg => .ok (checkLoop env target_date [] 0 (candLoop [] [] pg.anchors))

/-- `scrape_article` (mykeenenow.py, lines 67-98); it never returns `None`. -/
def scrape_article (env : Env) (url : String) (fallback_date : PyDate) :
    Except String Article :=
  match env.page url with
  | .error e => .error e
  | .ok pg =>
    let title := pg.h1.getD "Untitled"
    let pub :=
      match firstDateMatch pg.text with
      | some m =>
        match parse_us_date_string m with
        | some d => d
        | none => fallback_date
      | none => fallback_date
    let paragraphs := pg.paragraphs.foldr
      (fun t acc =>
        if t = "" then acc
        else if pyIn "story ©" (pyLower t) && pyIn "saga communications" (pyLower t) then acc
        else t :: acc) []
    .ok ⟨url, title, some pub, paragraphs⟩

/-- The per-URL loop of `scrape` (lines 108-114): per-item errors caught,
`if art: articles.append(art)` (the dict is always truthy). -/
def scrapeLoop (env : Env) (target_date : PyDate) : List String → List Article
  | [] => []
  | url :: rest =>
    match scrape_article env url target_date with
    | .error _ => scrapeLoop env target_date rest
    | .ok art => art :: scrapeLoop env target_date rest

/-- `scrape` (mykeenenow.py, lines 100-116). -/
def scrape (env : Env) (target_date : PyDate) : Except String (List Article) :=
  match get_urls_for_date env target_date with
  | .error e => .error e
  | .ok (urls, _) => .ok (scrapeLoop env target_date urls)

end Mykeenenow

/-! ## Shared pieces of the two BLOX-CMS JSON adapters -/

/-- `urljoin(base, raw)` for the shapes the API returns: an absolute URL, a
root-relative path, or an empty string. -/
def pyUrljoin (base raw : String) : String :=
  if raw = "" then base
  else if pyIn "://" raw then raw
  else if pyStartswith raw "/" then base ++ raw
  else base ++ "/" ++ raw

/-- `row.get(key, default)` for fields used as strings (`title`, `url`).
A non-string value here never comes out of the BLOX API; modelling it by the
default only widens the set of runs that succeed. -/
def getStrD (v : Option Json) (default : String) : String :=
  match v with
  | some (.str s) => s
  | _ => default

/-- Python `s.split(sep)` for a one-char separator. -/
def splitCharAux (sep : Char) (cur : List Char) : List Char → List (List Char)
  | [] => [cur.reverse]
  | c :: rest =>
    if c = sep then cur.reverse :: splitCharAux sep [] rest
    else splitCharAux sep (c :: cur) rest

def splitChar (sep : Char) (cs : List Char) : List (List Char) :=
  splitCharAux sep [] cs

/-- `dt_str = start_time_str.split("T")[0]; y, m, d = map(int, dt_str.split("-"));
date(y, m, d)` — `none` is the caught `ValueError` (wrong arity, non-int part,
or invalid date). -/
def parseIsoDatePre (s : String) : Option PyDate :=
  let dt := s.data.takeWhile (fun c => c ≠ 'T')
  match (splitChar '-' dt).map (fun p => pyInt (String.mk p)) with
  | [some y, some m, some d] => mkPyDate y.toNat m.toNat d.toNat
  | _ => none

/-- The paragraph loop shared by both `clean_html_text` functions,
parameterized by the site's stop-word list: drop empty texts and short
paragraphs containing a stop word. -/
def cleanParas (stops : List String) : List String → List String
  | [] => []
  | t :: rest =>
    if t = "" then cleanParas stops rest
    else
      let lowered := pyLower t
      if stops.any (fun s => pyIn s lowered) && lowered.length < 50 then
        cleanParas stops rest
      else t :: cleanParas stops rest

/-- `clean_html_text` (keenesentinel.py 32-54 / reformer.py 34-57): falsy body
→ no paragraphs; a list body is concatenated; the HTML blob goes through
BeautifulSoup (the `hp` oracle) and the stop-word filter.  A truthy body that
is neither a string nor a list would raise inside BeautifulSoup — that raise
is *not* caught by the adapter's try/except (which only wraps the request). -/
def clean_html_text (stops : List String) (hp : String → List String) (raw : Json) :
    Except String (List String) :=
  if ¬ jTruthy raw then .ok []
  else
    match raw with
    | .arr xs => .ok (cleanParas stops (hp (String.join (xs.map pyStrJson))))
    | .str s => .ok (cleanParas stops (hp s))
    | _ => .error "TypeError: object of non-markup type passed to BeautifulSoup"

/-- One row of the API result (keenesentinel.py lines 81-126; the reformer
variant differs only in the key chain and stop list, see below).
`.ok none` models every `continue`; `.error` a raise that escapes the adapter. -/
def bloxRow (iso3 : Bool) (stops : List String) (base : String)
    (hp : String → List String) (r : List (String × Json)) (target_date : PyDate) :
    Except String (Option Article) :=
  let sto := jGet r "starttime"
  let stv : Option Json :=
    match sto with
    | some (.obj o) =>
      if iso3 then jor (jGet o "iso8601") (jor (jGet o "value") (jGet o "iso"))
      else jor (jGet o "iso8601") (jGet o "value")
    | some (.str s) => some (.str s)
    | _ => none
  match stv with
  | some (.str s) =>
    if s = "" then .ok none
    else
      match parseIsoDatePre s with
      | none => .ok none
      | some pub_date =>
        if pub_date ≠ target_date then .ok none
        else
          let title := getStrD (jGet r "title") "Untitled"
          let url := pyUrljoin base (getStrD (jGet r "url") "")
          match jor (jGet r "content") (jGet r "body") with
          | none => .ok none
          | some raw_body =>
            if ¬ jTruthy raw_body then .ok none
            else
              match clean_html_text stops hp raw_body with
              | .error e => .error e
              | .ok paragraphs =>
                if paragraphs = [] then .ok none
                else .ok (some ⟨url, title, some pub_date, paragraphs⟩)
  | _ => .ok none

/-- The `for row in rows` loop: a non-dict row raises (`row.get`), a raise
aborts the site's scrape. -/
def bloxRows (iso3 : Bool) (stops : List String) (base : String)
    (hp : String → List String) (target_date : PyDate) :
    List Json → Except String (List Article)
  | [] => .ok []
  | row :: rest =>
    match row with
    | .obj r =>
      match bloxRow iso3 stops base hp r target_date with
      | .error e => .error e
      | .ok none => bloxRows iso3 stops base hp target_date rest
      | .ok (some a) =>
        match bloxRows iso3 stops base hp target_date rest with
        | .error e => .error e
        | .ok arts => .ok (a :: arts)
    | _ => .error "AttributeError: row has no attribute get"

/-- The post-request body shared by both JSON `scrape` functions:
`rows = data.get("rows", [])` raises on a non-dict response (outside the
try/except!), iterating a non-list `rows` value raises at or before `row.get`
(the empty-dict corner that would silently iterate zero keys also yields no
articles). -/
def bloxScrape (iso3 : Bool) (stops : List String) (base : String)
    (resp : Except String Json) (hp : String → List String) (target_date : PyDate) :
    Except String (List Article) :=
  match resp with
  | .error _ => .ok []
  | .ok data =>
    match data with
    | .obj kvs =>
      match (jGet kvs "rows").getD (Json.arr []) with
      | .arr rows => bloxRows iso3 stops base hp target_date rows
      | _ => .error "TypeError: rows value is not a list"
    | _ => .error "AttributeError: response JSON has no attribute get"

/-! ## Keene Sentinel adapter (src/scrapers/keenesentinel.py) -/

namespace Keenesentinel

def BASE_URL : String := "https://www.keenesentinel.com"

def stops : List String := ["copyright", "subscribe", "sign up", "print", "email"]

/-- `scrape` (keenesentinel.py, lines 56-128): the one API request is wrapped
in try/except returning `[]`; everything after is not. -/
def scrape (resp : Except String Json) (hp : String → List String)
    (target_date : PyDate) : Except String (List Article) :=
  bloxScrape true stops BASE_URL resp hp target_date

end Keenesentinel

/-! ## Brattleboro Reformer adapter (src/scrapers/reformer.py) -/

namespace Reformer

def BASE_URL : String := "https://www.reformer.com"

def stops : List String :=
  ["copyright", "subscribe", "sign up", "print", "email", "click here"]

/-- `"PASTE_YOUR" in USER_COOKIE` — the source embeds a concrete cookie that
does not contain the placeholder. -/
def cookieUnset : Bool := false

/-- `scrape` (reformer.py, lines 59-137); besides the placeholder guard it
differs from the Keene Sentinel only in the starttime key chain (no "iso")
and the stop list. -/
def scrape (resp : Except String Json) (hp : String → List String)
    (target_date : PyDate) : Except String (List Article) :=
  if cookieUnset then .ok []
  else bloxScrape false stops BASE_URL resp hp target_date

end Reformer

/-! ## The Pipeline Driver (src/app.py, lines 212-218)

```
for site_slug, scrape_func in AVAILABLE_SCRAPERS.items():
    try:
        articles = scrape_func(selected_date)
        save_articles(site_slug, selected_date, articles)
    except: pass
```
The registry order is that of scrapers/__init__.py.  `driverStep` returns the
site's outcome together with the log lines emitted *by the loop body itself*:
there are none — a failure is swallowed by the bare `except: pass` (lower
layers such as `fetch_html` do log, but the driver does not). -/

def AVAILABLE_SCRAPERS : List (String × (Env → PyDate → Except String (List Article))) :=
  [("wmur", Wmur.scrape), ("wcax", Wcax.scrape), ("vtdigger", Vtdigger.scrape),
   ("mykeenenow", Mykeenenow.scrape),
   ("keenesentinel", fun env d => Keenesentinel.scrape env.keeneResp env.htmlPs d),
   ("reformer", fun env d => Reformer.scrape env.reformerResp env.htmlPs d)]

def driverStep (env : Env) (selected_date : PyDate)
    (scrape_func : Env → PyDate → Except String (List Article)) :
    Except String (List Article) × List String :=
  match scrape_func env selected_date with
  | .ok articles => (.ok articles, [])
  | .error e => (.error e, [])

/-- One "Scrape Manually" run: every configured site is attempted in order and
the loop itself never raises (it is a total function of the environment). -/
def driverRun (env : Env) (selected_date : PyDate) :
    List (String × (Except String (List Article) × List String)) :=
  AVAILABLE_SCRAPERS.map (fun p => (p.1, driverStep env selected_date p.2))

/-! ## Support lemmas: strings -/

theorem stringDataEq {a b : String} (h : a.data = b.data) : a = b := by
  cases a; cases b; simp_all

theorem stringMkData (l : List Char) : (String.mk l).data = l := rfl

theorem stringAppData (a b : String) : (a ++ b).data = a.data ++ b.data :=
  String.data_append a b

theorem stringNeData {a b : String} (h : a.data ≠ b.data) : a ≠ b :=
  fun he => h (by rw [he])

theorem stringAppRightInj (s : String) {a b : String} (h : a ≠ b) :
    s ++ a ≠ s ++ b := by
  intro he
  exact h (stringDataEq (List.append_cancel_left
    (by rw [← stringAppData, ← stringAppData, he])))

theorem dataNeEmpty {a : String} (h : a ≠ "") : a.data ≠ [] := by
  intro hd; exact h (stringDataEq hd)

/-! ## Support lemmas: `rstripL` / `lstripL` / `stripL` -/

theorem rstripL_cons_nil {c : Char} {rest : List Char} (hr : rstripL rest = []) :
    rstripL (c :: rest) = if pySpace c then [] else [c] := by
  rw [rstripL, hr]

theorem rstripL_cons_cons {c x : Char} {rest xs : List Char}
    (hr : rstripL rest = x :: xs) : rstripL (c :: rest) = c :: x :: xs := by
  rw [rstripL, hr]

theorem rstripL_decomp (cs : List Char) :
    ∃ t, cs = rstripL cs ++ t ∧ ∀ x ∈ t, pySpace x := by
  induction cs with
  | nil => exact ⟨[], rfl, by simp⟩
  | cons c rest ih =>
    obtain ⟨t, ht, hall⟩ := ih
    cases hr : rstripL rest with
    | nil =>
      rw [hr] at ht; simp only [List.nil_append] at ht
      by_cases hc : pySpace c
      · refine ⟨c :: t, ?_, ?_⟩
        · rw [rstripL_cons_nil hr, if_pos hc, List.nil_append, ← ht]
        · intro x hx
          rcases List.mem_cons.mp hx with h | h
          · rw [h]; exact hc
          · exact hall x h
      · refine ⟨t, ?_, hall⟩
        rw [rstripL_cons_nil hr, if_neg hc, List.cons_append, List.nil_append, ← ht]
    | cons x xs =>
      refine ⟨t, ?_, hall⟩
      rw [rstripL_cons_cons hr, ← hr, List.cons_append, ← ht]

theorem rstripL_ws {cs : List Char} (h : ∀ x ∈ cs, pySpace x) : rstripL cs = [] := by
  induction cs with
  | nil => rfl
  | cons c rest ih =>
    have hr : rstripL rest = [] := ih (fun x hx => h x (List.mem_cons_of_mem _ hx))
    rw [rstripL_cons_nil hr, if_pos (h c (List.mem_cons_self _ _))]

theorem rstripL_snoc (l : List Char) (c : Char) (hc : ¬ pySpace c) :
    rstripL (l ++ [c]) = l ++ [c] := by
  induction l with
  | nil =>
    rw [List.nil_append, rstripL_cons_nil (show rstripL ([] : List Char) = [] from rfl),
      if_neg hc]
  | cons a l ih =>
    rw [List.cons_append]
    cases hr : rstripL (l ++ [c]) with
    | nil => rw [ih] at hr; simp at hr
    | cons x xs => rw [rstripL_cons_cons hr, ← hr, ih]

theorem rstripL_append_nil {l r : List Char} (hr : rstripL r = []) :
    rstripL (l ++ r) = rstripL l := by
  induction l with
  | nil => rw [List.nil_append, hr]; rfl
  | cons a l ih =>
    rw [List.cons_append]
    cases hl : rstripL l with
    | nil => rw [rstripL_cons_nil (ih.trans hl), rstripL_cons_nil hl]
    | cons y ys => rw [rstripL_cons_cons (ih.trans hl), rstripL_cons_cons hl]

theorem rstripL_append_cons {l r : List Char} {x : Char} {xs : List Char}
    (hr : rstripL r = x :: xs) : rstripL (l ++ r) = l ++ x :: xs := by
  induction l with
  | nil => rw [List.nil_append, hr]; rfl
  | cons a l ih =>
    rw [List.cons_append]
    have hyy : ∃ y ys, l ++ x :: xs = y :: ys := by
      cases l with
      | nil => exact ⟨x, xs, rfl⟩
      | cons b bs => exact ⟨b, bs ++ x :: xs, rfl⟩
    obtain ⟨y, ys, hyy⟩ := hyy
    rw [rstripL_cons_cons (ih.trans hyy), List.cons_append, hyy]

theorem rstripL_append_ws (l t : List Char) (ht : ∀ x ∈ t, pySpace x) :
    rstripL (l ++ t) = rstripL l :=
  rstripL_append_nil (rstripL_ws ht)

theorem getLastSnoc {α : Type} {l : List α} {c : α} (h : l.getLast? = some c) :
    ∃ l2, l = l2 ++ [c] := by
  induction l with
  | nil => simp at h
  | cons a rest ih =>
    cases rest with
    | nil =>
      simp [List.getLast?] at h
      exact ⟨[], by rw [h]; rfl⟩
    | cons b bs =>
      obtain ⟨l2, hl2⟩ := ih (by rw [← List.getLast?_cons_cons]; exact h)
      exact ⟨a :: l2, by rw [List.cons_append, ← hl2]⟩

theorem rstripL_eq_self {l : List Char} {c : Char}
    (h : l.getLast? = some c) (hc : ¬ pySpace c) : rstripL l = l := by
  obtain ⟨l2, rfl⟩ := getLastSnoc h
  exact rstripL_snoc _ _ hc

theorem rstripL_cons_ne {c : Char} {r : List Char} (hc : ¬ pySpace c) :
    rstripL (c :: r) ≠ [] := by
  cases hr : rstripL r with
  | nil => rw [rstripL_cons_nil hr, if_neg hc]; simp
  | cons x xs => rw [rstripL_cons_cons hr]; simp

theorem lstripL_head {cs : List Char} {c : Char} {r : List Char}
    (h : lstripL cs = c :: r) : ¬ pySpace c := by
  induction cs with
  | nil => simp [lstripL] at h
  | cons a rest ih =>
    by_cases ha : pySpace a
    · exact ih (by simpa [lstripL, ha] using h)
    · rw [lstripL, List.dropWhile_cons_of_neg (by simpa using ha)] at h
      injection h with h1 _
      rw [← h1]; exact ha

theorem rstripL_head {cs : List Char} {c : Char} {r : List Char}
    (h : rstripL cs = c :: r) : ∃ r2, cs = c :: r2 := by
  obtain ⟨t, ht, _⟩ := rstripL_decomp cs
  rw [h] at ht
  exact ⟨r ++ t, by simpa using ht⟩

theorem rstripL_last {cs : List Char} {c : Char}
    (h : (rstripL cs).getLast? = some c) : ¬ pySpace c := by
  induction cs with
  | nil => simp [rstripL] at h
  | cons a rest ih =>
    cases hr : rstripL rest with
    | nil =>
      rw [rstripL_cons_nil hr] at h
      by_cases ha : pySpace a
      · simp [ha] at h
      · simp [ha] at h; rw [← h]; exact ha
    | cons x xs =>
      rw [rstripL_cons_cons hr] at h
      exact ih (by rw [hr]; simpa using h)

theorem stripL_head {cs : List Char} {c : Char} {r : List Char}
    (h : stripL cs = c :: r) : ¬ pySpace c := by
  obtain ⟨r2, h2⟩ := rstripL_head h
  exact lstripL_head h2

theorem stripL_last {cs : List Char} {c : Char}
    (h : (stripL cs).getLast? = some c) : ¬ pySpace c :=
  rstripL_last h

/-! ## Support lemmas: whitespace collapsing -/

/-- No two adjacent whitespace characters. -/
def noAdjWs : List Char → Bool
  | a :: b :: r => !(pySpace a && pySpace b) && noAdjWs (b :: r)
  | _ => true

theorem noAdjWs_cons {c : Char} {l : List Char} (hc : ¬ pySpace c)
    (hl : noAdjWs l) : noAdjWs (c :: l) := by
  cases l with
  | nil => rfl
  | cons b r => simp [noAdjWs, hc, hl]

theorem noAdjWs_tail {a : Char} {l : List Char} (h : noAdjWs (a :: l)) :
    noAdjWs l := by
  cases l with
  | nil => rfl
  | cons b r => exact (Bool.and_eq_true _ _ |>.mp h).2

theorem noAdjWs_append_left {l r : List Char} (h : noAdjWs (l ++ r)) :
    noAdjWs l := by
  induction l with
  | nil => rfl
  | cons a l ih =>
    cases l with
    | nil =>
      cases r with
      | nil => rfl
      | cons b bs => rfl
    | cons b bs =>
      have h2 := (Bool.and_eq_true _ _ |>.mp h)
      simp only [noAdjWs, Bool.and_eq_true]
      exact ⟨h2.1, ih h2.2⟩

theorem noAdjWs_suffix {l r : List Char} (h : noAdjWs (l ++ r)) :
    noAdjWs r := by
  induction l with
  | nil => exact h
  | cons a l ih => exact ih (noAdjWs_tail h)

theorem noAdjWs_take {l : List Char} (h : noAdjWs l) (n : Nat) :
    noAdjWs (l.take n) := by
  have := List.take_append_drop n l
  exact noAdjWs_append_left (by rw [this]; exact h)

/-- The head of `collapseWsAux true cs` is never whitespace. -/
theorem collapse_true_head {cs : List Char} {c : Char} {r : List Char}
    (h : collapseWsAux true cs = c :: r) : ¬ pySpace c := by
  induction cs with
  | nil => simp [collapseWsAux] at h
  | cons a rest ih =>
    by_cases ha : pySpace a
    · exact ih (by simpa [collapseWsAux, ha] using h)
    · rw [collapseWsAux, if_neg (by simpa using ha)] at h
      injection h with h1 _
      rw [← h1]; exact ha

theorem collapse_noAdj (cs : List Char) (b : Bool) :
    noAdjWs (collapseWsAux b cs) := by
  induction cs generalizing b with
  | nil => rfl
  | cons c rest ih =>
    by_cases hc : pySpace c
    · cases b with
      | true =>
        have he : collapseWsAux true (c :: rest) = collapseWsAux true rest := by
          simp [collapseWsAux, hc]
        rw [he]; exact ih true
      | false =>
        have he : collapseWsAux false (c :: rest) = ' ' :: collapseWsAux true rest := by
          simp [collapseWsAux, hc]
        rw [he]
        cases hx : collapseWsAux true rest with
        | nil => rfl
        | cons y ys =>
          have hy := collapse_true_head hx
          simp only [noAdjWs, Bool.and_eq_true]
          refine ⟨by simp [hy], ?_⟩
          have h2 := ih true
          rw [hx] at h2; exact h2
    · have he : collapseWsAux b (c :: rest) = c :: collapseWsAux false rest := by
        simp [collapseWsAux, hc]
      rw [he]
      exact noAdjWs_cons hc (ih false)

theorem collapse_chars {cs : List Char} {b : Bool} {c : Char}
    (h : c ∈ collapseWsAux b cs) : c = ' ' ∨ (c ∈ cs ∧ ¬ pySpace c) := by
  induction cs generalizing b with
  | nil => simp [collapseWsAux] at h
  | cons a rest ih =>
    by_cases ha : pySpace a
    · cases b with
      | true =>
        rcases ih (by simpa [collapseWsAux, ha] using h) with h1 | h1
        · exact Or.inl h1
        · exact Or.inr ⟨List.mem_cons_of_mem _ h1.1, h1.2⟩
      | false =>
        rw [collapseWsAux, if_pos ha, if_neg (by simp)] at h
        rcases List.mem_cons.mp h with h1 | h1
        · exact Or.inl h1
        · rcases ih h1 with h2 | h2
          · exact Or.inl h2
          · exact Or.inr ⟨List.mem_cons_of_mem _ h2.1, h2.2⟩
    · rw [collapseWsAux, if_neg ha] at h
      rcases List.mem_cons.mp h with h1 | h1
      · exact Or.inr ⟨by rw [h1]; exact List.mem_cons_self _ _, by rw [h1]; exact ha⟩
      · rcases ih h1 with h2 | h2
        · exact Or.inl h2
        · exact Or.inr ⟨List.mem_cons_of_mem _ h2.1, h2.2⟩

/-! ## Support lemmas: membership through strip/take -/

theorem mem_rstripL {cs : List Char} {c : Char} (h : c ∈ rstripL cs) : c ∈ cs := by
  obtain ⟨t, ht, _⟩ := rstripL_decomp cs
  rw [ht]; exact List.mem_append_left _ h

theorem mem_lstripL {cs : List Char} {c : Char} (h : c ∈ lstripL cs) : c ∈ cs :=
  List.dropWhile_subset _ h

theorem mem_stripL {cs : List Char} {c : Char} (h : c ∈ stripL cs) : c ∈ cs :=
  mem_lstripL (mem_rstripL h)

theorem noAdjWs_rstripL {cs : List Char} (h : noAdjWs cs) : noAdjWs (rstripL cs) := by
  obtain ⟨t, ht, _⟩ := rstripL_decomp cs
  exact noAdjWs_append_left (by rw [← ht]; exact h)

theorem noAdjWs_lstripL {cs : List Char} (h : noAdjWs cs) : noAdjWs (lstripL cs) := by
  refine noAdjWs_suffix (l := cs.takeWhile pySpace) ?_
  have he : cs.takeWhile pySpace ++ lstripL cs = cs :=
    List.takeWhile_append_dropWhile (p := pySpace) (l := cs)
  rw [he]; exact h

theorem noAdjWs_stripL {cs : List Char} (h : noAdjWs cs) : noAdjWs (stripL cs) :=
  noAdjWs_rstripL (noAdjWs_lstripL h)

/-! ## Claim C6: the Filename Sanitizer -/

theorem rstripL_length (cs : List Char) : (rstripL cs).length ≤ cs.length := by
  obtain ⟨t, ht, _⟩ := rstripL_decomp cs
  conv_rhs => rw [ht]
  rw [List.length_append]
  omega

/-- Properties of `stripL (collapseWs cs)`. -/
theorem stripCollapse_props (cs : List Char) :
    (∀ c ∈ stripL (collapseWs cs), (pySpace c → c = ' ') ∧ (c ∈ cs ∨ c = ' ')) ∧
    noAdjWs (stripL (collapseWs cs)) ∧
    (∀ c r, stripL (collapseWs cs) = c :: r → ¬ pySpace c) ∧
    (∀ c, (stripL (collapseWs cs)).getLast? = some c → ¬ pySpace c) := by
  refine ⟨?_, noAdjWs_stripL (collapse_noAdj cs false), ?_, ?_⟩
  · intro c hc
    have hm := mem_stripL hc
    rcases collapse_chars hm with h | h
    · exact ⟨fun _ => h, Or.inr h⟩
    · exact ⟨fun hsp => absurd hsp h.2, Or.inl h.1⟩
  · intro c r h; exact stripL_head h
  · intro c h; exact stripL_last h

/-- Properties survive `rstripL (cs.take 150)`. -/
theorem truncate_props (cs : List Char) (c0 : Char) (r0 : List Char)
    (hcs : cs = c0 :: r0) (hc0 : ¬ pySpace c0) :
    rstripL (cs.take 150) ≠ [] ∧
    (∀ c r, rstripL (cs.take 150) = c :: r → c = c0) ∧
    (∀ c, c ∈ rstripL (cs.take 150) → c ∈ cs) ∧
    (noAdjWs cs → noAdjWs (rstripL (cs.take 150))) ∧
    (∀ c, (rstripL (cs.take 150)).getLast? = some c → ¬ pySpace c) ∧
    (rstripL (cs.take 150)).length ≤ 150 := by
  have htake : cs.take 150 = c0 :: r0.take 149 := by rw [hcs]; rfl
  refine ⟨?_, ?_, ?_, ?_, ?_, ?_⟩
  · rw [htake]; exact rstripL_cons_ne hc0
  · intro c r h
    obtain ⟨r2, h2⟩ := rstripL_head h
    rw [htake] at h2
    injection h2 with h3 _
    exact h3.symm
  · intro c h
    exact List.take_subset _ _ (mem_rstripL h)
  · intro h
    exact noAdjWs_rstripL (noAdjWs_take h 150)
  · intro c h; exact rstripL_last h
  · calc (rstripL (cs.take 150)).length ≤ (cs.take 150).length := rstripL_length _
      _ ≤ 150 := by rw [htake, List.length_cons]; have := List.length_take_le 149 r0; omega

/-- The stem actually used for the file name of a title. -/
def stemOfTitle (title : String) : String :=
  if title = "" then "untitled" else sanStem title

theorem sanStem_props (title : String) :
    (∀ c ∈ (sanStem title).data, ¬ illegalFilenameChar c) ∧
    (∀ c ∈ (sanStem title).data, pySpace c → c = ' ') ∧
    noAdjWs (sanStem title).data ∧
    (∀ c, (sanStem title).data.head? = some c → ¬ pySpace c) ∧
    (∀ c, (sanStem title).data.getLast? = some c → ¬ pySpace c) ∧
    (sanStem title).data.length ≤ 150 ∧
    sanStem title ≠ "" := by
  obtain ⟨hchars, hadj, hhead, hlast⟩ :=
    stripCollapse_props (title.data.filter (fun c => !illegalFilenameChar c))
  set c1 := stripL (collapseWs (title.data.filter (fun c => !illegalFilenameChar c)))
    with hc1
  have hfilter : ∀ c ∈ c1, ¬ illegalFilenameChar c := by
    intro c hc
    rcases (hchars c hc).2 with h | h
    · have := List.of_mem_filter h
      simpa using this
    · rw [h]; decide
  have hdef : sanStem title =
      (if (if c1 = [] then "untitled".data else c1).length > 150
       then String.mk (rstripL ((if c1 = [] then "untitled".data else c1).take 150))
       else String.mk (if c1 = [] then "untitled".data else c1)) := rfl
  by_cases h1 : c1 = []
  · have hs : sanStem title = "untitled" := by
      rw [hdef]
      simp only [if_pos h1]
      decide
    rw [hs]
    refine ⟨by decide, by decide, by decide, by decide, by decide, by decide, by decide⟩
  · obtain ⟨c0, r0, hc0r⟩ : ∃ c0 r0, c1 = c0 :: r0 := by
      cases hx : c1 with
      | nil => exact absurd hx h1
      | cons a b => exact ⟨a, b, rfl⟩
    have hc0 : ¬ pySpace c0 := hhead c0 r0 hc0r
    rw [if_neg h1] at hdef
    by_cases h2 : c1.length > 150
    · have hs : (sanStem title).data = rstripL (c1.take 150) := by
        rw [hdef, if_pos h2]
      obtain ⟨tne, thead, tmem, tadj, tlast, tlen⟩ := truncate_props c1 c0 r0 hc0r hc0
      rw [hs]
      refine ⟨?_, ?_, tadj hadj, ?_, tlast, tlen, ?_⟩
      · intro c hc; exact hfilter c (tmem c hc)
      · intro c hc hsp
        exact (hchars c (tmem c hc)).1 hsp
      · intro c hh
        cases hx : rstripL (c1.take 150) with
        | nil => rw [hx] at hh; simp at hh
        | cons a b =>
          rw [hx] at hh
          simp at hh
          have ha := thead a b hx
          rw [← hh, ha]; exact hc0
      · intro he
        apply tne
        have hd := congrArg String.data he
        rw [hs] at hd
        exact hd
    · have hs : (sanStem title).data = c1 := by
        rw [hdef, if_neg h2]
      rw [hs]
      refine ⟨hfilter, ?_, hadj, ?_, hlast, by omega, ?_⟩
      · intro c hc; exact (hchars c hc).1
      · intro c hh
        rw [hc0r] at hh
        simp at hh
        rw [← hh]; exact hc0
      · intro he
        apply h1
        have hd := congrArg String.data he
        rw [hs] at hd
        exact hd

/-- C6.  For every title, the Filename Sanitizer produces `<stem>.txt` where
the stem is free of the characters `\\ / * ? : " < > |`, every whitespace char
in it is a single plain space with no two adjacent and none leading or
trailing, its length is at most 150, and it is never empty (the stem is
"untitled" for an empty title and "untitled" when the title sanitizes to
nothing). -/
theorem c6_filename_sanitizer (title : String) :
    title_to_filename title = stemOfTitle title ++ ".txt" ∧
    (∀ c ∈ (stemOfTitle title).data, ¬ illegalFilenameChar c) ∧
    (∀ c ∈ (stemOfTitle title).data, pySpace c → c = ' ') ∧
    noAdjWs (stemOfTitle title).data ∧
    (∀ c, (stemOfTitle title).data.head? = some c → ¬ pySpace c) ∧
    (∀ c, (stemOfTitle title).data.getLast? = some c → ¬ pySpace c) ∧
    (stemOfTitle title).data.length ≤ 150 ∧
    stemOfTitle title ≠ "" := by
  by_cases ht : title = ""
  · subst ht
    exact ⟨rfl, by decide, by decide, by decide, by decide, by decide, by decide, by decide⟩
  · have h1 : title_to_filename title = sanStem title ++ ".txt" := by
      unfold title_to_filename
      rw [if_neg ht]
    have h2 : stemOfTitle title = sanStem title := by
      unfold stemOfTitle; rw [if_neg ht]
    obtain ⟨p1, p2, p3, p4, p5, p6, p7⟩ := sanStem_props title
    rw [h2, h1]
    exact ⟨rfl, p1, p2, p3, p4, p5, p6, p7⟩

/-- Witness for C6 at a concrete title. -/
theorem c6_filename_sanitizer_witness :
    title_to_filename "A  very/bad: title?" = "A verybad title.txt" ∧
    stemOfTitle "A  very/bad: title?" ++ ".txt" = "A verybad title.txt" := by
  constructor
  · decide
  · have := (c6_filename_sanitizer "A  very/bad: title?").1
    rw [← this]; decide

/-! ## Claim C5: filename collision policy of `save_articles` -/

theorem rsplitDot_no {cs : List Char} (h : '.' ∉ cs) : rsplitDot cs = none := by
  induction cs with
  | nil => rfl
  | cons c rest ih =>
    have hc : c ≠ '.' := fun he => h (he ▸ List.mem_cons_self _ _)
    have hr : '.' ∉ rest := fun hm => h (List.mem_cons_of_mem _ hm)
    rw [rsplitDot, ih hr]
    simp [hc]

theorem rsplitDot_last {t : List Char} (l : List Char) (ht : '.' ∉ t) :
    rsplitDot (l ++ '.' :: t) = some (l, t) := by
  induction l with
  | nil =>
    rw [List.nil_append, rsplitDot, rsplitDot_no ht]
    simp
  | cons c l ih =>
    rw [List.cons_append, rsplitDot, ih]

theorem pathSplit_txt (s : String) (hs : s ≠ "") :
    pathSplit (s ++ ".txt") = (s, ".txt") := by
  have hd : (s ++ ".txt").data = s.data ++ '.' :: "txt".data := by
    rw [stringAppData]
  unfold pathSplit
  rw [hd, rsplitDot_last s.data (by decide)]
  dsimp only
  rw [if_pos ⟨dataNeEmpty hs, by decide⟩]

theorem nthCand_two (s : String) : nthCand s ".txt" 2 = s ++ " (2).txt" := by
  apply stringDataEq
  show (s ++ " (" ++ natReprS 2 ++ ")" ++ ".txt").data = (s ++ " (2).txt").data
  simp only [stringAppData, List.append_assoc]
  rw [show (natReprS 2).data = ['2'] from by decide]
  simp

theorem nthCand_three (s : String) : nthCand s ".txt" 3 = s ++ " (3).txt" := by
  apply stringDataEq
  show (s ++ " (" ++ natReprS 3 ++ ")" ++ ".txt").data = (s ++ " (3).txt").data
  simp only [stringAppData, List.append_assoc]
  rw [show (natReprS 3).data = ['3'] from by decide]
  simp

theorem findFree_step (fs : List String) (stem ext : String) (fuel i : Nat) :
    findFree fs stem ext (fuel + 1) i =
      if nthCand stem ext i ∈ fs then findFree fs stem ext fuel (i + 1)
      else nthCand stem ext i := rfl

theorem effTitle_ne (a : Article) : effTitle a ≠ "" := by
  unfold effTitle
  by_cases h : a.title = ""
  · rw [if_pos h]; decide
  · rw [if_neg h]; exact h

theorem tf_effTitle (a : Article) :
    title_to_filename (effTitle a) = sanStem (effTitle a) ++ ".txt" := by
  unfold title_to_filename
  rw [if_neg (effTitle_ne a)]

/-- C5.  Against any pre-existing directory state not already holding the
three candidate names, three articles whose titles all sanitize to the same
stem are written to `<stem>.txt`, `<stem> (2).txt`, `<stem> (3).txt`, in input
order — the parenthesised counter increments past every taken name and the
resulting names are pairwise distinct.  (Determinism is immediate: `saveLoop`
is a function of the directory state and the input order.) -/
theorem c5_collision_policy (fs : List String) (a1 a2 a3 : Article) (s : String)
    (hs1 : sanStem (effTitle a1) = s) (hs2 : sanStem (effTitle a2) = s)
    (hs3 : sanStem (effTitle a3) = s)
    (hn1 : s ++ ".txt" ∉ fs) (hn2 : s ++ " (2).txt" ∉ fs)
    (hn3 : s ++ " (3).txt" ∉ fs) :
    saveLoop fs [a1, a2, a3] =
      [s ++ ".txt", s ++ " (2).txt", s ++ " (3).txt"] ∧
    s ++ ".txt" ≠ s ++ " (2).txt" ∧ s ++ " (2).txt" ≠ s ++ " (3).txt" ∧
    s ++ ".txt" ≠ s ++ " (3).txt" := by
  have hsne : s ≠ "" := hs1 ▸ (sanStem_props (effTitle a1)).2.2.2.2.2.2
  have htf1 : title_to_filename (effTitle a1) = s ++ ".txt" := by
    rw [tf_effTitle, hs1]
  have htf2 : title_to_filename (effTitle a2) = s ++ ".txt" := by
    rw [tf_effTitle, hs2]
  have htf3 : title_to_filename (effTitle a3) = s ++ ".txt" := by
    rw [tf_effTitle, hs3]
  have hps : pathSplit (s ++ ".txt") = (s, ".txt") := pathSplit_txt s hsne
  have neq12 : s ++ ".txt" ≠ s ++ " (2).txt" := stringAppRightInj s (by decide)
  have neq23 : s ++ " (2).txt" ≠ s ++ " (3).txt" := stringAppRightInj s (by decide)
  have neq13 : s ++ ".txt" ≠ s ++ " (3).txt" := stringAppRightInj s (by decide)
  have r1 : resolveName fs (s ++ ".txt") = s ++ ".txt" := by
    unfold resolveName; rw [if_neg hn1]
  have hnotin2 : s ++ " (2).txt" ∉ (s ++ ".txt") :: fs := by
    intro hmem
    rcases List.mem_cons.mp hmem with h | h
    · exact neq12 h.symm
    · exact hn2 h
  have r2 : resolveName ((s ++ ".txt") :: fs) (s ++ ".txt") = s ++ " (2).txt" := by
    unfold resolveName
    rw [if_pos (List.mem_cons_self _ _), hps]
    have hl : ((s ++ ".txt") :: fs).length + 1 = fs.length + 1 + 1 := by
      simp [List.length_cons]
    rw [hl, findFree_step, nthCand_two, if_neg hnotin2]
  have hnotin3 :
      s ++ " (3).txt" ∉ (s ++ " (2).txt") :: (s ++ ".txt") :: fs := by
    intro hmem
    rcases List.mem_cons.mp hmem with h | h
    · exact neq23 h.symm
    · rcases List.mem_cons.mp h with h2 | h2
      · exact neq13 h2.symm
      · exact hn3 h2
  have r3 : resolveName ((s ++ " (2).txt") :: (s ++ ".txt") :: fs) (s ++ ".txt") =
      s ++ " (3).txt" := by
    unfold resolveName
    rw [if_pos (List.mem_cons_of_mem _ (List.mem_cons_self _ _)), hps]
    have hl : ((s ++ " (2).txt") :: (s ++ ".txt") :: fs).length + 1 =
        fs.length + 2 + 1 := by
      simp [List.length_cons]
    rw [hl, findFree_step, nthCand_two, if_pos (List.mem_cons_self _ _)]
    have hl2 : fs.length + 2 = fs.length + 1 + 1 := by omega
    have h3 : (2 : Nat) + 1 = 3 := rfl
    rw [h3, hl2, findFree_step, nthCand_three, if_neg hnotin3]
  refine ⟨?_, neq12, neq23, neq13⟩
  show resolveName fs (title_to_filename (effTitle a1)) :: _ = _
  rw [htf1, r1]
  show _ :: resolveName _ (title_to_filename (effTitle a2)) :: _ = _
  rw [htf2, r2]
  show _ :: _ :: resolveName _ (title_to_filename (effTitle a3)) :: _ = _
  rw [htf3, r3]
  rfl

/-- Witness for C5: two (and a third) identically-titled articles in an empty
directory land in "Town Meeting Update.txt", "... (2).txt", "... (3).txt". -/
theorem c5_collision_policy_witness :
    saveLoop [] [⟨"u1", "Town Meeting Update", none, ["p"]⟩,
                 ⟨"u2", "Town Meeting Update", none, ["q"]⟩,
                 ⟨"u3", "Town  Meeting  Update", none, ["r"]⟩] =
      ["Town Meeting Update.txt", "Town Meeting Update (2).txt",
       "Town Meeting Update (3).txt"] := by
  have h := (c5_collision_policy [] ⟨"u1", "Town Meeting Update", none, ["p"]⟩
    ⟨"u2", "Town Meeting Update", none, ["q"]⟩
    ⟨"u3", "Town  Meeting  Update", none, ["r"]⟩ "Town Meeting Update"
    (by decide) (by decide) (by decide)
    (by simp) (by simp) (by simp)).1
  rw [h]
  decide

/-! ## Claim C3: the article text-file format -/

/-- The header lines the writer emits before the paragraphs. -/
def headerLines (a : Article) (site_slug : String) : List String :=
  [effTitle a, "", "Site: " ++ pyUpper site_slug] ++
  (match a.date with
   | some d => ["Published: " ++ isoformat d]
   | none => []) ++
  ["URL: " ++ a.url, ""]

/-- The paragraphs as the writer emits them: stripped, empties dropped. -/
def writeParas (a : Article) : List String :=
  (a.paragraphs.map pyStrip).filter (fun p => p ≠ "")

/-- Modelled from the claim's words, for comparison with the writer: the file
consists of the header lines and then *each paragraph followed by a blank
line* (so also a blank line after the last paragraph). -/
def claimedFileContent (a : Article) (site_slug : String) : String :=
  String.mk (joinNlL
    (((headerLines a site_slug) ++ a.paragraphs.flatMap (fun p => [p, ""])).map
      String.data) ++ ['\n'])

/-- Blank separator lines *between* consecutive paragraphs. -/
def sepBlank : List String → List String
  | [] => []
  | [p] => [p]
  | p :: p2 :: ps => p :: "" :: sepBlank (p2 :: ps)

theorem writeFold_eq (ps : List String) :
    ps.foldr (fun p acc => if pyStrip p = "" then acc else pyStrip p :: "" :: acc) []
      = ((ps.map pyStrip).filter (fun p => p ≠ "")).flatMap (fun p => [p, ""]) := by
  induction ps with
  | nil => rfl
  | cons p ps ih =>
    by_cases hp : pyStrip p = ""
    · simp only [List.foldr_cons, if_pos hp, List.map_cons, List.filter_cons]
      simp [hp, ih]
    · simp only [List.foldr_cons, if_neg hp, List.map_cons, List.filter_cons]
      simp [hp, ih]

theorem writeLines_eq (a : Article) (site_slug : String) :
    writeLines a site_slug =
      headerLines a site_slug ++ (writeParas a).flatMap (fun p => [p, ""]) := by
  show headerLines a site_slug ++
      a.paragraphs.foldr
        (fun p acc => if pyStrip p = "" then acc else pyStrip p :: "" :: acc) [] =
    headerLines a site_slug ++ (writeParas a).flatMap (fun p => [p, ""])
  rw [writeFold_eq]
  rfl

theorem bindBlank_eq_sepBlank {ps : List String} (h : ps ≠ []) :
    ps.flatMap (fun p => [p, ""]) = sepBlank ps ++ [""] := by
  induction ps with
  | nil => exact absurd rfl h
  | cons p ps ih =>
    cases ps with
    | nil => rfl
    | cons q qs =>
      have := ih (by simp)
      simp only [List.flatMap_cons] at this ⊢
      rw [this]
      rfl

theorem joinNlL_append_single {ls : List (List Char)} (x : List Char)
    (h : ls ≠ []) : joinNlL (ls ++ [x]) = joinNlL ls ++ '\n' :: x := by
  induction ls with
  | nil => exact absurd rfl h
  | cons a ls ih =>
    cases ls with
    | nil => rfl
    | cons b ls2 =>
      have h2 := ih (by simp)
      show joinNlL (a :: ((b :: ls2) ++ [x])) = _
      rw [show joinNlL (a :: ((b :: ls2) ++ [x])) =
          a ++ '\n' :: joinNlL ((b :: ls2) ++ [x]) from rfl, h2]
      simp [joinNlL]

theorem getLast_append_right {α : Type} (l : List α) {r : List α} (hr : r ≠ []) :
    (l ++ r).getLast? = r.getLast? :=
  List.getLast?_append_of_ne_nil l hr

theorem joinNlL_ne {ls : List (List Char)} {x : List Char} (hx : x ≠ []) :
    joinNlL (ls ++ [x]) ≠ [] := by
  induction ls with
  | nil => exact hx
  | cons a ls ih =>
    cases hl : ls ++ [x] with
    | nil => exact absurd (List.append_eq_nil.mp hl).2 (by simp)
    | cons y ys =>
      show joinNlL (a :: (ls ++ [x])) ≠ []
      rw [hl]
      show a ++ '\n' :: joinNlL (y :: ys) ≠ []
      simp

theorem joinNlL_getLast {ls : List (List Char)} {x : List Char} (hx : x ≠ []) :
    (joinNlL (ls ++ [x])).getLast? = x.getLast? := by
  induction ls with
  | nil => rfl
  | cons a ls ih =>
    cases hl : ls ++ [x] with
    | nil => exact absurd (List.append_eq_nil.mp hl).2 (by simp)
    | cons y ys =>
      show (joinNlL (a :: (ls ++ [x]))).getLast? = x.getLast?
      rw [hl]
      show (a ++ '\n' :: joinNlL (y :: ys)).getLast? = x.getLast?
      rw [getLast_append_right a (by simp)]
      have hne : joinNlL (y :: ys) ≠ [] := by
        rw [← hl]; exact joinNlL_ne hx
      rw [show ('\n' :: joinNlL (y :: ys)) = ['\n'] ++ joinNlL (y :: ys) from rfl,
        getLast_append_right ['\n'] hne, ← hl, ih]

theorem sepBlank_getLast {ps : List String} (h : ps ≠ []) :
    (sepBlank ps).getLast? = ps.getLast? := by
  induction ps with
  | nil => exact absurd rfl h
  | cons p ps ih =>
    cases ps with
    | nil => rfl
    | cons q qs =>
      show (p :: "" :: sepBlank (q :: qs)).getLast? = (p :: q :: qs).getLast?
      obtain ⟨y, ys, hyy⟩ : ∃ y ys, sepBlank (q :: qs) = y :: ys := by
        cases qs with
        | nil => exact ⟨q, [], rfl⟩
        | cons r rs => exact ⟨q, "" :: sepBlank (r :: rs), rfl⟩
      rw [List.getLast?_cons_cons, hyy, List.getLast?_cons_cons, ← hyy,
        ih (by simp), List.getLast?_cons_cons]

theorem writeParas_last_ok {a : Article} {p : String} (hp : p ∈ writeParas a) :
    p.data ≠ [] ∧ ∀ c, p.data.getLast? = some c → ¬ pySpace c := by
  unfold writeParas at hp
  have hne := List.of_mem_filter hp
  have hmem := List.mem_of_mem_filter hp
  obtain ⟨q, _, hq⟩ := List.mem_map.mp hmem
  have hdq : p.data = stripL q.data := by rw [← hq]; rfl
  constructor
  · exact dataNeEmpty (by simpa using hne)
  · intro c hc
    rw [hdq] at hc
    exact stripL_last hc

/-- The writer's output, in closed form: when at least one paragraph survives
stripping, the file is the header lines followed by the paragraphs separated
by blank lines and a single final newline. -/
theorem write_text_article_eq (a : Article) (site_slug : String)
    (hws : writeParas a ≠ []) :
    write_text_article a site_slug =
      String.mk (joinNlL
        ((headerLines a site_slug ++ sepBlank (writeParas a)).map String.data) ++
        ['\n']) := by
  unfold write_text_article
  rw [writeLines_eq, bindBlank_eq_sepBlank hws, ← List.append_assoc,
    List.map_append String.data
      (headerLines a site_slug ++ sepBlank (writeParas a)) [""]]
  rw [show (([""] : List String).map String.data) = [[]] from rfl]
  have hLne : (headerLines a site_slug ++ sepBlank (writeParas a)).map String.data ≠ [] := by
    simp [headerLines]
  rw [joinNlL_append_single [] hLne]
  -- rstripL ((joinNlL L) ++ '\n' :: []) = joinNlL L
  obtain ⟨pLast, hpl⟩ : ∃ pLast, (writeParas a).getLast? = some pLast := by
    cases hw : writeParas a with
    | nil => exact absurd hw hws
    | cons x xs => exact ⟨(x :: xs).getLast (by simp), List.getLast?_eq_getLast _ _⟩
  have hplmem : pLast ∈ writeParas a := by
    obtain ⟨l2, hl2⟩ := getLastSnoc hpl
    rw [hl2]; simp
  obtain ⟨hplne, hpllast⟩ := writeParas_last_ok hplmem
  have hLlast : ((headerLines a site_slug ++ sepBlank (writeParas a)).map
      String.data).getLast? = some pLast.data := by
    rw [List.getLast?_map]
    rw [getLast_append_right _ (by
      cases hw : writeParas a with
      | nil => exact absurd hw hws
      | cons x xs => cases xs <;> simp [sepBlank, hw])]
    rw [sepBlank_getLast hws, hpl]
    rfl
  obtain ⟨L2, hL2⟩ := getLastSnoc hLlast
  have hJlast : (joinNlL ((headerLines a site_slug ++ sepBlank (writeParas a)).map
      String.data)).getLast? = pLast.data.getLast? := by
    rw [hL2]; exact joinNlL_getLast hplne
  obtain ⟨cl, hcl⟩ : ∃ cl, pLast.data.getLast? = some cl := by
    cases hx : pLast.data with
    | nil => exact absurd hx hplne
    | cons x xs => exact ⟨(x :: xs).getLast (by simp), List.getLast?_eq_getLast _ _⟩
  have hrs : rstripL (joinNlL ((headerLines a site_slug ++ sepBlank (writeParas a)).map
      String.data) ++ '\n' :: []) = joinNlL ((headerLines a site_slug ++
      sepBlank (writeParas a)).map String.data) := by
    rw [rstripL_append_ws _ _ (by intro x hx; simp at hx; rw [hx]; decide)]
    exact rstripL_eq_self (hJlast.trans hcl) (hpllast cl hcl)
  rw [hrs]

/-- C3 (amended).  When at least one paragraph survives stripping, the file is
the header lines followed by the paragraphs *separated* by blank lines and a
single final newline: the trailing whitespace is stripped, so no blank line
follows the last paragraph. -/
theorem c3_text_file_format (a : Article) (site_slug : String)
    (hws : writeParas a ≠ []) :
    write_text_article a site_slug =
      String.mk (joinNlL
        ((headerLines a site_slug ++ sepBlank (writeParas a)).map String.data) ++
        ['\n']) :=
  write_text_article_eq a site_slug hws

/-- C3 counterexample: at a one-paragraph article the produced file is *not*
the claimed byte sequence (title, blank, Site, Published, URL, blank, then
each paragraph followed by a blank line): the claimed format ends
"...\nP\n\n" but the writer rstrips, producing "...\nP\n". -/
theorem c3_counterexample :
    write_text_article ⟨"http://x", "T", some ⟨2025, 6, 1⟩, ["P"]⟩ "wmur" ≠
      claimedFileContent ⟨"http://x", "T", some ⟨2025, 6, 1⟩, ["P"]⟩ "wmur" := by
  decide

/-- Witness for the amended C3 at the same article. -/
theorem c3_text_file_format_witness :
    write_text_article ⟨"http://x", "T", some ⟨2025, 6, 1⟩, ["P"]⟩ "wmur" =
      "T\n\nSite: WMUR\nPublished: 2025-06-01\nURL: http://x\n\nP\n" := by
  have h := c3_text_file_format ⟨"http://x", "T", some ⟨2025, 6, 1⟩, ["P"]⟩ "wmur"
    (by decide)
  rw [h]
  decide

/-! ## Claim C4: round-trip through the rewrite-stage parser -/

theorem splitNlAux_no (cur : List Char) {l : List Char} (hl : '\n' ∉ l) :
    splitNlAux cur l = [cur.reverse ++ l] := by
  induction l generalizing cur with
  | nil => simp [splitNlAux]
  | cons c rest ih =>
    have hc : c ≠ '\n' := fun he => hl (he ▸ List.mem_cons_self _ _)
    have hr : '\n' ∉ rest := fun hm => hl (List.mem_cons_of_mem _ hm)
    rw [splitNlAux, if_neg hc, ih _ hr]
    simp

theorem splitNlAux_br (cur : List Char) {l : List Char} (rest : List Char)
    (hl : '\n' ∉ l) :
    splitNlAux cur (l ++ '\n' :: rest) = (cur.reverse ++ l) :: splitNlAux [] rest := by
  induction l generalizing cur with
  | nil => simp [splitNlAux]
  | cons c l2 ih =>
    have hc : c ≠ '\n' := fun he => hl (he ▸ List.mem_cons_self _ _)
    have hr : '\n' ∉ l2 := fun hm => hl (List.mem_cons_of_mem _ hm)
    rw [List.cons_append, splitNlAux, if_neg hc, ih _ hr]
    simp

theorem splitNl_join {L : List (List Char)} (hL : L ≠ [])
    (hnl : ∀ l ∈ L, '\n' ∉ l) :
    splitNl (joinNlL L ++ ['\n']) = L ++ [[]] := by
  induction L with
  | nil => exact absurd rfl hL
  | cons x L2 ih =>
    cases L2 with
    | nil =>
      show splitNlAux [] (x ++ '\n' :: []) = [x, []]
      rw [splitNlAux_br [] [] (hnl x (List.mem_cons_self _ _))]
      simp [splitNlAux]
    | cons y L3 =>
      show splitNlAux [] ((x ++ '\n' :: joinNlL (y :: L3)) ++ ['\n']) = x :: ((y :: L3) ++ [[]])
      rw [List.append_assoc, List.cons_append,
        splitNlAux_br [] _ (hnl x (List.mem_cons_self _ _))]
      have := ih (by simp) (fun l hl => hnl l (List.mem_cons_of_mem _ hl))
      rw [show splitNlAux [] (joinNlL (y :: L3) ++ ['\n']) = splitNl (joinNlL (y :: L3) ++ ['\n']) from rfl,
        this]
      simp

theorem pySplitlines_join {L : List String} (hL : L ≠ [])
    (hnl : ∀ l ∈ L, '\n' ∉ l.data) :
    pySplitlines (String.mk (joinNlL (L.map String.data) ++ ['\n'])) = L := by
  have hsplit : splitNl (joinNlL (L.map String.data) ++ ['\n']) =
      L.map String.data ++ [[]] :=
    splitNl_join (by simpa using hL)
      (fun l hl => by
        obtain ⟨s, hs, rfl⟩ := List.mem_map.mp hl
        exact hnl s hs)
  cases hd : joinNlL (L.map String.data) ++ ['\n'] with
  | nil => simp at hd
  | cons c cs =>
    show pySplitlines (String.mk (c :: cs)) = L
    show (let parts := splitNl (c :: cs);
          let parts := if parts.getLast? = some [] then parts.dropLast else parts;
          parts.map String.mk) = L
    rw [← hd, hsplit]
    have hcond : (List.map String.data L ++ [[]]).getLast? = some [] := by
      rw [getLast_append_right _ (by simp)]; rfl
    show List.map String.mk
        (if (List.map String.data L ++ [[]]).getLast? = some []
         then (List.map String.data L ++ [[]]).dropLast
         else List.map String.data L ++ [[]]) = L
    rw [if_pos hcond, List.dropLast_concat]
    rw [List.map_map]
    have : (fun s => String.mk (String.data s)) = (id : String → String) := by
      funext s; cases s; rfl
    rw [show String.mk ∘ String.data = (fun s => String.mk (String.data s)) from rfl,
      this, List.map_id]

theorem charToNatOfNat {n : Nat} (h : n < 55296) : (Char.ofNat n).toNat = n := by
  unfold Char.ofNat
  rw [dif_pos (Or.inl h : Nat.isValidChar n)]
  show (Char.ofNatAux n _).val.toNat = n
  unfold Char.ofNatAux
  exact BitVec.toNat_ofNatLt _ _

theorem charEqOfToNat {c₁ c₂ : Char} (h : c₁.toNat = c₂.toNat) : c₁ = c₂ := by
  rw [← Char.ofNat_toNat c₁, ← Char.ofNat_toNat c₂, h]

theorem digitChar_digit (k : Nat) : isDigitC (digitChar k) := by
  unfold digitChar
  set j := k % 10 with hj
  have hlt : j < 10 := hj ▸ Nat.mod_lt _ (by norm_num)
  interval_cases j <;> decide

theorem digit_not_space {c : Char} (h : isDigitC c) : ¬ pySpace c := by
  intro hs
  simp only [isDigitC, Bool.and_eq_true, decide_eq_true_eq] at h
  have h1 : 48 ≤ c.toNat := h.1
  have h2 : c.toNat ≤ 57 := h.2
  simp only [pySpace, Bool.or_eq_true, decide_eq_true_eq] at hs
  rcases hs with ((((hx | hx) | hx) | hx) | hx) | hx
  all_goals first
    | (rw [hx] at h1 h2; omega)
    | (have h3 := congrArg Char.toNat hx; simp at h3; omega)
    | omega

theorem natDigsAux_digits (fuel : Nat) : ∀ n, ∀ c ∈ natDigsAux fuel n, isDigitC c := by
  induction fuel with
  | zero => intro n c hc; simp [natDigsAux] at hc
  | succ f ih =>
    intro n c hc
    cases n with
    | zero => simp [natDigsAux] at hc
    | succ m =>
      rw [natDigsAux] at hc
      rcases List.mem_append.mp hc with h | h
      · exact ih _ c h
      · simp at h; rw [h]; exact digitChar_digit _

theorem natRepr_digits (n : Nat) : ∀ c ∈ natRepr n, isDigitC c := by
  intro c hc
  unfold natRepr at hc
  by_cases h : n = 0
  · rw [if_pos h] at hc; simp at hc; rw [hc]; decide
  · rw [if_neg h] at hc; exact natDigsAux_digits _ _ _ hc

theorem natRepr_ne (n : Nat) : natRepr n ≠ [] := by
  unfold natRepr
  by_cases h : n = 0
  · rw [if_pos h]; simp
  · rw [if_neg h]
    unfold natDigs
    cases n with
    | zero => exact absurd rfl h
    | succ m => rw [natDigsAux]; simp

theorem padNum_digits (w n : Nat) : ∀ c ∈ padNum w n, isDigitC c := by
  intro c hc
  unfold padNum at hc
  rcases List.mem_append.mp hc with h | h
  · rw [List.eq_of_mem_replicate h]; decide
  · exact natRepr_digits _ _ h

theorem padNum_ne (w n : Nat) : padNum w n ≠ [] := by
  unfold padNum
  intro h
  exact natRepr_ne n (List.append_eq_nil.mp h).2

theorem isoformat_chars (d : PyDate) :
    ∀ c ∈ (isoformat d).data, isDigitC c ∨ c = '-' := by
  intro c hc
  unfold isoformat at hc
  rw [stringMkData] at hc
  rcases List.mem_append.mp hc with h | h
  · rcases List.mem_append.mp h with h2 | h2
    · rcases List.mem_append.mp h2 with h3 | h3
      · rcases List.mem_append.mp h3 with h4 | h4
        · exact Or.inl (padNum_digits _ _ _ h4)
        · simp at h4; exact Or.inr h4
      · exact Or.inl (padNum_digits _ _ _ h3)
    · simp at h2; exact Or.inr h2
  · exact Or.inl (padNum_digits _ _ _ h)

theorem isoformat_not_space {d : PyDate} {c : Char}
    (h : c ∈ (isoformat d).data) : ¬ pySpace c := by
  rcases isoformat_chars d c h with h2 | h2
  · exact digit_not_space h2
  · rw [h2]; decide

theorem isoformat_ne (d : PyDate) : (isoformat d).data ≠ [] := by
  unfold isoformat
  rw [stringMkData]
  intro h
  exact padNum_ne 4 d.year (List.append_eq_nil.mp
    (List.append_eq_nil.mp (List.append_eq_nil.mp (List.append_eq_nil.mp h).1).1).1).1

theorem isoformat_no_nl (d : PyDate) : '\n' ∉ (isoformat d).data := by
  intro h
  exact isoformat_not_space h (by decide)

theorem headMem {α : Type} {l : List α} {c : α} (h : l.head? = some c) : c ∈ l := by
  cases l with
  | nil => simp at h
  | cons x xs => simp at h; rw [h]; exact List.mem_cons_self _ _

theorem getLastMem {α : Type} {l : List α} {c : α} (h : l.getLast? = some c) :
    c ∈ l := by
  obtain ⟨l2, rfl⟩ := getLastSnoc h
  simp

theorem upperChar_nl {c : Char} (h : upperChar c = '\n') : c = '\n' := by
  unfold upperChar at h
  by_cases hc : 'a' ≤ c ∧ c ≤ 'z'
  · rw [if_pos hc] at h
    exfalso
    have h1 : 97 ≤ c.toNat := hc.1
    have h2 : c.toNat ≤ 122 := hc.2
    have := congrArg Char.toNat h
    rw [show ('\n' : Char).toNat = 10 from rfl] at this
    rw [charToNatOfNat (by omega)] at this
    omega
  · rw [if_neg hc] at h; exact h

theorem pyUpper_no_nl {s : String} (h : '\n' ∉ s.data) :
    '\n' ∉ (pyUpper s).data := by
  intro hm
  unfold pyUpper at hm
  rw [stringMkData] at hm
  obtain ⟨c, hc, hce⟩ := List.mem_map.mp hm
  exact h (upperChar_nl hce ▸ hc)

theorem containsSub_single_no {c : Char} {cs : List Char} (h : c ∉ cs) :
    containsSub cs [c] = false := by
  induction cs with
  | nil => rfl
  | cons x xs ih =>
    have hx : c ≠ x := fun he => h (he ▸ List.mem_cons_self _ _)
    have hr : c ∉ xs := fun hm => h (List.mem_cons_of_mem _ hm)
    show (prefOf [c] (x :: xs) || containsSub xs [c]) = false
    rw [ih hr]
    simp [prefOf, hx]

theorem afterFirst_append {sep : Char} {l : List Char} (r : List Char)
    (hl : sep ∉ l) : afterFirst sep (l ++ sep :: r) = some r := by
  induction l with
  | nil => simp [afterFirst]
  | cons c l2 ih =>
    have hc : c ≠ sep := fun he => hl (he ▸ List.mem_cons_self _ _)
    have hr : sep ∉ l2 := fun hm => hl (List.mem_cons_of_mem _ hm)
    rw [List.cons_append, afterFirst, if_neg hc, ih hr]

theorem prefOf_self_append (p t : List Char) : prefOf p (p ++ t) = true := by
  induction p with
  | nil => rfl
  | cons c p2 ih => simp [prefOf, ih]

theorem prefOf_false_head {p : List Char} {a b : Char} {pr rest : List Char}
    (hp : p = a :: pr) (hab : a ≠ b) : prefOf p (b :: rest) = false := by
  rw [hp]
  simp [prefOf, hab]

theorem stripL_pref {p : List Char} (x : List Char) (hpn : p ≠ [])
    (hph : ∀ c r, p = c :: r → ¬ pySpace c)
    (hpl : ∀ c, p.getLast? = some c → ¬ pySpace c) :
    ∃ y, stripL (p ++ x) = p ++ y := by
  obtain ⟨c0, r0, rfl⟩ : ∃ c0 r0, p = c0 :: r0 := by
    cases p with
    | nil => exact absurd rfl hpn
    | cons a b => exact ⟨a, b, rfl⟩
  have hc0 : ¬ pySpace c0 := hph c0 r0 rfl
  unfold stripL lstripL
  rw [List.cons_append, List.dropWhile_cons_of_neg (by simpa using hc0)]
  rw [← List.cons_append]
  obtain ⟨cl, hcl⟩ : ∃ cl, (c0 :: r0).getLast? = some cl :=
    ⟨(c0 :: r0).getLast (by simp), List.getLast?_eq_getLast _ _⟩
  cases hrx : rstripL x with
  | nil =>
    refine ⟨[], ?_⟩
    rw [rstripL_append_nil hrx, rstripL_eq_self hcl (hpl cl hcl), List.append_nil]
  | cons z zs =>
    exact ⟨z :: zs, rstripL_append_cons hrx⟩

theorem parseLine_eq (st : ParsedArticle) (line : String) :
    parseLine st line =
      (if pyStrip line = "" then st
       else if st.title = none ∧ ¬ pyIn ":" (pyStrip line) then
         { st with title := some (pyStrip line) }
       else if pyStartswith (pyLower (pyStrip line)) "site:" then
         { st with siteName := some (pyStrip (pySplit1Last (pyStrip line) ':')) }
       else if pyStartswith (pyLower (pyStrip line)) "published:" then
         { st with published := some (pyStrip (pySplit1Last (pyStrip line) ':')) }
       else if pyStartswith (pyLower (pyStrip line)) "url:" then
         { st with url := some (pyStrip (pySplit1Last (pyStrip line) ':')) }
       else { st with body := st.body ++ [line] }) := rfl

theorem parseLine_blank (st : ParsedArticle) : parseLine st "" = st := rfl

theorem parseLine_title (st : ParsedArticle) (l : String) (h0 : st.title = none)
    (h1 : pyStrip l = l) (h2 : l ≠ "") (h3 : ':' ∉ l.data) :
    parseLine st l = { st with title := some l } := by
  rw [parseLine_eq, h1, if_neg h2,
    if_pos ⟨h0, by rw [show pyIn ":" l = false from containsSub_single_no h3]; simp⟩]

theorem pySplit1_eq {s : String} {t : List Char}
    (h : afterFirst ':' s.data = some t) : pySplit1Last s ':' = String.mk t := by
  unfold pySplit1Last
  rw [h]

theorem stripSpaceStripped {u : String} (hu1 : u ≠ "") (hu2 : pyStrip u = u) :
    pyStrip (String.mk (' ' :: u.data)) = u := by
  apply stringDataEq
  show stripL (' ' :: u.data) = u.data
  have hud : stripL u.data = u.data := congrArg String.data hu2
  obtain ⟨c0, r0, hc0r⟩ : ∃ c0 r0, u.data = c0 :: r0 := by
    cases hx : u.data with
    | nil => exact absurd (stringDataEq hx) hu1
    | cons a b => exact ⟨a, b, rfl⟩
  have hc0 : ¬ pySpace c0 := stripL_head (hc0r ▸ hud)
  obtain ⟨cl, hcl⟩ : ∃ cl, u.data.getLast? = some cl := by
    rw [hc0r]
    exact ⟨(c0 :: r0).getLast (by simp), List.getLast?_eq_getLast _ _⟩
  have hclns : ¬ pySpace cl := stripL_last (hud.symm ▸ hcl)
  unfold stripL lstripL
  rw [List.dropWhile_cons_of_pos (by decide), hc0r,
    List.dropWhile_cons_of_neg (by simpa using hc0), ← hc0r,
    rstripL_eq_self hcl hclns]

theorem stripKeepsStripped {u : String} (hu1 : u ≠ "") (hu2 : pyStrip u = u)
    (pre : String) (hpn : pre.data ≠ [])
    (hph : ∀ c r, pre.data = c :: r → ¬ pySpace c) :
    pyStrip (pre ++ u) = pre ++ u := by
  apply stringDataEq
  show stripL ((pre ++ u).data) = (pre ++ u).data
  rw [stringAppData]
  have hud : stripL u.data = u.data := congrArg String.data hu2
  obtain ⟨c0, r0, hc0r⟩ : ∃ c0 r0, pre.data = c0 :: r0 := by
    cases hx : pre.data with
    | nil => exact absurd hx hpn
    | cons a b => exact ⟨a, b, rfl⟩
  obtain ⟨cl, hcl⟩ : ∃ cl, u.data.getLast? = some cl := by
    cases hx : u.data with
    | nil => exact absurd (stringDataEq hx) hu1
    | cons a b => exact ⟨(a :: b).getLast (by simp), List.getLast?_eq_getLast _ _⟩
  have hclns : ¬ pySpace cl := stripL_last (hud.symm ▸ hcl)
  unfold stripL lstripL
  rw [hc0r, List.cons_append,
    List.dropWhile_cons_of_neg (by simpa using hph c0 r0 hc0r),
    ← List.cons_append, ← hc0r]
  exact rstripL_eq_self
    (by rw [getLast_append_right _ (fun hx => hu1 (stringDataEq hx)), hcl]) hclns

theorem parseLine_pub (st : ParsedArticle) (d : PyDate) (h0 : st.title ≠ none) :
    parseLine st ("Published: " ++ isoformat d) =
      { st with published := some (isoformat d) } := by
  have hiso1 : isoformat d ≠ "" := fun h => isoformat_ne d (congrArg String.data h)
  have hiso2 : pyStrip (isoformat d) = isoformat d := by
    apply stringDataEq
    show stripL (isoformat d).data = (isoformat d).data
    obtain ⟨c0, r0, hc0r⟩ : ∃ c0 r0, (isoformat d).data = c0 :: r0 := by
      cases hx : (isoformat d).data with
      | nil => exact absurd hx (isoformat_ne d)
      | cons a b => exact ⟨a, b, rfl⟩
    obtain ⟨cl, hcl⟩ : ∃ cl, (isoformat d).data.getLast? = some cl := by
      rw [hc0r]; exact ⟨(c0 :: r0).getLast (by simp), List.getLast?_eq_getLast _ _⟩
    unfold stripL lstripL
    rw [hc0r, List.dropWhile_cons_of_neg
      (by simpa using isoformat_not_space (hc0r ▸ List.mem_cons_self c0 r0)), ← hc0r]
    exact rstripL_eq_self hcl (isoformat_not_space (getLastMem hcl))
  have hstrip : pyStrip ("Published: " ++ isoformat d) = "Published: " ++ isoformat d :=
    stripKeepsStripped hiso1 hiso2 "Published: " (by decide)
      (fun c r h => by injection h with h1 _; rw [← h1]; decide)
  have hdata : ("Published: " ++ isoformat d).data =
      "Published".data ++ ':' :: (' ' :: (isoformat d).data) := by
    rw [stringAppData]; rfl
  have hlow : pyLower ("Published: " ++ isoformat d) =
      String.mk ("published: ".data ++ lowerL (isoformat d).data) := by
    apply stringDataEq
    show lowerL (("Published: " ++ isoformat d).data) = _
    rw [stringAppData]
    unfold lowerL
    rw [List.map_append]
    rfl
  rw [parseLine_eq, hstrip]
  rw [if_neg (show ¬ ("Published: " ++ isoformat d) = "" from fun h => by
    have := congrArg String.data h
    rw [hdata] at this
    simp at this)]
  rw [if_neg (fun hand => h0 hand.1)]
  rw [if_neg (show ¬ pyStartswith (pyLower ("Published: " ++ isoformat d)) "site:" = true from by
    rw [hlow]
    show prefOf "site:".data ("published: ".data ++ lowerL (isoformat d).data) = true → False
    rw [show ("published: ".data ++ lowerL (isoformat d).data) =
      'p' :: ("ublished: ".data ++ lowerL (isoformat d).data) from rfl]
    rw [prefOf_false_head rfl (by decide)]
    simp)]
  rw [if_pos (show pyStartswith (pyLower ("Published: " ++ isoformat d)) "published:" = true from by
    rw [hlow]
    show prefOf "published:".data ("published: ".data ++ lowerL (isoformat d).data) = true
    rw [show ("published: ".data ++ lowerL (isoformat d).data) =
      "published:".data ++ ([' '] ++ lowerL (isoformat d).data) from by simp]
    exact prefOf_self_append _ _)]
  rw [pySplit1_eq (show afterFirst ':' ("Published: " ++ isoformat d).data =
      some (' ' :: (isoformat d).data) from by
    rw [hdata]
    exact afterFirst_append _ (by decide))]
  rw [stripSpaceStripped hiso1 hiso2]

theorem parseLine_url (st : ParsedArticle) (u : String) (h0 : st.title ≠ none)
    (hu1 : u ≠ "") (hu2 : pyStrip u = u) :
    parseLine st ("URL: " ++ u) = { st with url := some u } := by
  have hstrip : pyStrip ("URL: " ++ u) = "URL: " ++ u :=
    stripKeepsStripped hu1 hu2 "URL: " (by decide)
      (fun c r h => by injection h with h1 _; rw [← h1]; decide)
  have hdata : ("URL: " ++ u).data = "URL".data ++ ':' :: (' ' :: u.data) := by
    rw [stringAppData]; rfl
  have hlow : pyLower ("URL: " ++ u) =
      String.mk ("url: ".data ++ lowerL u.data) := by
    apply stringDataEq
    show lowerL (("URL: " ++ u).data) = _
    rw [stringAppData]
    unfold lowerL
    rw [List.map_append]
    rfl
  rw [parseLine_eq, hstrip]
  rw [if_neg (show ¬ ("URL: " ++ u) = "" from fun h => by
    have := congrArg String.data h
    rw [hdata] at this
    simp at this)]
  rw [if_neg (fun hand => h0 hand.1)]
  rw [if_neg (show ¬ pyStartswith (pyLower ("URL: " ++ u)) "site:" = true from by
    rw [hlow]
    show prefOf "site:".data ("url: ".data ++ lowerL u.data) = true → False
    rw [show ("url: ".data ++ lowerL u.data) =
      'u' :: ("rl: ".data ++ lowerL u.data) from rfl]
    rw [prefOf_false_head rfl (by decide)]
    simp)]
  rw [if_neg (show ¬ pyStartswith (pyLower ("URL: " ++ u)) "published:" = true from by
    rw [hlow]
    show prefOf "published:".data ("url: ".data ++ lowerL u.data) = true → False
    rw [show ("url: ".data ++ lowerL u.data) =
      'u' :: ("rl: ".data ++ lowerL u.data) from rfl]
    rw [prefOf_false_head rfl (by decide)]
    simp)]
  rw [if_pos (show pyStartswith (pyLower ("URL: " ++ u)) "url:" = true from by
    rw [hlow]
    show prefOf "url:".data ("url: ".data ++ lowerL u.data) = true
    rw [show ("url: ".data ++ lowerL u.data) =
      "url:".data ++ ([' '] ++ lowerL u.data) from by simp]
    exact prefOf_self_append _ _)]
  rw [pySplit1_eq (show afterFirst ':' ("URL: " ++ u).data =
      some (' ' :: u.data) from by
    rw [hdata]
    exact afterFirst_append _ (by decide))]
  rw [stripSpaceStripped hu1 hu2]

theorem parseLine_keep (st : ParsedArticle) (line : String) (h0 : st.title ≠ none)
    (hpub : pyStartswith (pyLower (pyStrip line)) "published:" = false)
    (hurl : pyStartswith (pyLower (pyStrip line)) "url:" = false) :
    (parseLine st line).title = st.title ∧ (parseLine st line).url = st.url ∧
    (parseLine st line).published = st.published := by
  rw [parseLine_eq]
  by_cases h1 : pyStrip line = ""
  · rw [if_pos h1]
    exact ⟨rfl, rfl, rfl⟩
  · rw [if_neg h1, if_neg (fun hand => h0 hand.1)]
    by_cases h2 : pyStartswith (pyLower (pyStrip line)) "site:" = true
    · rw [if_pos h2]
      exact ⟨rfl, rfl, rfl⟩
    · rw [if_neg h2, if_neg (by rw [hpub]; simp), if_neg (by rw [hurl]; simp)]
      exact ⟨rfl, rfl, rfl⟩

theorem foldl_keep (ls : List String) (st : ParsedArticle) (h0 : st.title ≠ none)
    (hl : ∀ l ∈ ls, pyStartswith (pyLower (pyStrip l)) "published:" = false ∧
                    pyStartswith (pyLower (pyStrip l)) "url:" = false) :
    (ls.foldl parseLine st).title = st.title ∧
    (ls.foldl parseLine st).url = st.url ∧
    (ls.foldl parseLine st).published = st.published := by
  induction ls generalizing st with
  | nil => exact ⟨rfl, rfl, rfl⟩
  | cons l ls ih =>
    have hmem := hl l (List.mem_cons_self _ _)
    have hk := parseLine_keep st l h0 hmem.1 hmem.2
    have h0x : (parseLine st l).title ≠ none := by rw [hk.1]; exact h0
    have hrest := ih (parseLine st l) h0x (fun x hx => hl x (List.mem_cons_of_mem _ hx))
    exact ⟨hrest.1.trans hk.1, hrest.2.1.trans hk.2.1, hrest.2.2.trans hk.2.2⟩

theorem writeParas_stripped {a : Article} {p : String} (hp : p ∈ writeParas a) :
    pyStrip p = p := by
  unfold writeParas at hp
  have hne : ¬ (p = "") := by simpa using List.of_mem_filter hp
  obtain ⟨q, _, hq⟩ := List.mem_map.mp (List.mem_of_mem_filter hp)
  have hdq : p.data = stripL q.data := by rw [← hq]; rfl
  apply stringDataEq
  show stripL p.data = p.data
  obtain ⟨c0, r0, hc0r⟩ : ∃ c0 r0, p.data = c0 :: r0 := by
    cases hx : p.data with
    | nil => exact absurd (stringDataEq hx) hne
    | cons x y => exact ⟨x, y, rfl⟩
  have hh : ¬ pySpace c0 := stripL_head (hdq.symm.trans hc0r)
  obtain ⟨cl, hcl⟩ : ∃ cl, p.data.getLast? = some cl := by
    rw [hc0r]
    exact ⟨(c0 :: r0).getLast (by simp), List.getLast?_eq_getLast _ _⟩
  have hlast : ¬ pySpace cl := stripL_last (by rw [← hdq]; exact hcl)
  unfold stripL lstripL
  rw [hc0r, List.dropWhile_cons_of_neg (by simpa using hh), ← hc0r]
  exact rstripL_eq_self hcl hlast

theorem sepBlank_mem {ps : List String} {l : String} (h : l ∈ sepBlank ps) :
    l ∈ ps ∨ l = "" := by
  induction ps with
  | nil => simp [sepBlank] at h
  | cons p ps ih =>
    cases ps with
    | nil =>
      simp [sepBlank] at h
      exact Or.inl (by simp [h])
    | cons q qs =>
      rw [show sepBlank (p :: q :: qs) = p :: "" :: sepBlank (q :: qs) from rfl] at h
      rcases List.mem_cons.mp h with h1 | h2
      · exact Or.inl (h1 ▸ List.mem_cons_self _ _)
      rcases List.mem_cons.mp h2 with h3 | h4
      · exact Or.inr h3
      rcases ih h4 with h5 | h6
      · exact Or.inl (List.mem_cons_of_mem _ h5)
      · exact Or.inr h6

theorem parseLine_site (st : ParsedArticle) (X : String) (h0 : st.title ≠ none) :
    ∃ v, parseLine st ("Site: " ++ X) = { st with siteName := v } := by
  obtain ⟨y, hy⟩ := stripL_pref (p := "Site:".data) (' ' :: X.data) (by decide)
    (fun c r h => by injection h with h1 _; rw [← h1]; decide)
    (fun c h => by
      rw [show ("Site:".data).getLast? = some ':' from by decide] at h
      injection h with h1
      rw [← h1]
      decide)
  have hst : pyStrip ("Site: " ++ X) = String.mk ("Site:".data ++ y) := by
    apply stringDataEq
    show stripL (("Site: " ++ X).data) = "Site:".data ++ y
    rw [show ("Site: " ++ X).data = "Site:".data ++ (' ' :: X.data) from by
      rw [stringAppData]; rfl]
    exact hy
  refine ⟨pyStrip (pySplit1Last (String.mk ("Site:".data ++ y)) ':'), ?_⟩
  rw [parseLine_eq, hst]
  rw [if_neg (show ¬ String.mk ("Site:".data ++ y) = "" from
    stringNeData (by simp))]
  rw [if_neg (fun hand => h0 hand.1)]
  rw [if_pos (show pyStartswith (pyLower (String.mk ("Site:".data ++ y))) "site:" = true from by
    show prefOf "site:".data (lowerL ("Site:".data ++ y)) = true
    rw [show lowerL ("Site:".data ++ y) = "site:".data ++ lowerL y from by
      unfold lowerL
      rw [List.map_append]
      rfl]
    exact prefOf_self_append _ _)]

theorem noNlApp {x y : String} (hx : '\n' ∉ x.data) (hy : '\n' ∉ y.data) :
    '\n' ∉ (x ++ y).data := by
  rw [stringAppData]
  intro h
  rcases List.mem_append.mp h with h1 | h2
  · exact hx h1
  · exact hy h2

theorem effTitle_no_nl {a : Article} (h : '\n' ∉ a.title.data) :
    '\n' ∉ (effTitle a).data := by
  unfold effTitle
  by_cases ht : a.title = ""
  · rw [if_pos ht]; decide
  · rw [if_neg ht]; exact h

theorem headerLines_no_nl {a : Article} {site_slug : String}
    (ht3 : '\n' ∉ a.title.data) (hu2 : '\n' ∉ a.url.data)
    (hsl : '\n' ∉ site_slug.data) :
    ∀ l ∈ headerLines a site_slug, '\n' ∉ l.data := by
  intro l hl
  unfold headerLines at hl
  have hsite : '\n' ∉ ("Site: " ++ pyUpper site_slug).data :=
    noNlApp (by decide) (pyUpper_no_nl hsl)
  have hurl : '\n' ∉ ("URL: " ++ a.url).data := noNlApp (by decide) hu2
  cases hda : a.date with
  | none =>
    rw [hda] at hl
    simp only [List.cons_append, List.nil_append, List.mem_cons,
      List.not_mem_nil, or_false] at hl
    rcases hl with rfl | rfl | rfl | rfl | rfl
    · exact effTitle_no_nl ht3
    · decide
    · exact hsite
    · exact hurl
    · decide
  | some d =>
    rw [hda] at hl
    simp only [List.cons_append, List.nil_append, List.mem_cons,
      List.not_mem_nil, or_false] at hl
    rcases hl with rfl | rfl | rfl | rfl | rfl | rfl
    · exact effTitle_no_nl ht3
    · decide
    · exact hsite
    · exact noNlApp (by decide) (isoformat_no_nl d)
    · exact hurl
    · decide

/-- C4 (amended).  The rewrite-stage parser recovers the title, URL and
published date from a written article file, *provided* the title is nonempty,
already stripped, and contains no colon and no newline; the URL is nonempty,
stripped and newline-free; the slug is newline-free; at least one paragraph
survives stripping; and no surviving paragraph contains a newline or
lowercases to a line starting with "published:" or "url:".  (The unamended
claim is false: a title containing a colon is not recovered.) -/
theorem c4_round_trip (a : Article) (site_slug : String)
    (ht0 : a.title ≠ "") (ht1 : pyStrip a.title = a.title)
    (ht2 : ':' ∉ a.title.data) (ht3 : '\n' ∉ a.title.data)
    (hu0 : a.url ≠ "") (hu1 : pyStrip a.url = a.url) (hu2 : '\n' ∉ a.url.data)
    (hsl : '\n' ∉ site_slug.data)
    (hws : writeParas a ≠ [])
    (hpnl : ∀ p ∈ writeParas a, '\n' ∉ p.data)
    (hpx : ∀ p ∈ writeParas a,
      pyStartswith (pyLower p) "published:" = false ∧
      pyStartswith (pyLower p) "url:" = false) :
    (parse_article_file (write_text_article a site_slug)).title = some a.title ∧
    (parse_article_file (write_text_article a site_slug)).url = some a.url ∧
    (parse_article_file (write_text_article a site_slug)).published =
      a.date.map isoformat := by
  have hT : effTitle a = a.title := by unfold effTitle; rw [if_neg ht0]
  have hL : pySplitlines (write_text_article a site_slug) =
      headerLines a site_slug ++ sepBlank (writeParas a) := by
    rw [write_text_article_eq a site_slug hws]
    apply pySplitlines_join
    · simp [headerLines]
    · intro l hl
      rcases List.mem_append.mp hl with h1 | h2
      · exact headerLines_no_nl ht3 hu2 hsl l h1
      · rcases sepBlank_mem h2 with h3 | h3
        · exact hpnl l h3
        · rw [h3]; decide
  have hsep : ∀ l ∈ sepBlank (writeParas a),
      pyStartswith (pyLower (pyStrip l)) "published:" = false ∧
      pyStartswith (pyLower (pyStrip l)) "url:" = false := by
    intro l hl
    rcases sepBlank_mem hl with h3 | h3
    · rw [writeParas_stripped h3]
      exact hpx l h3
    · rw [h3]
      exact ⟨by decide, by decide⟩
  unfold parse_article_file
  rw [hL, List.foldl_append]
  have h1 : parseLine ⟨none, none, none, none, []⟩ a.title =
      ⟨some a.title, none, none, none, []⟩ := by
    rw [parseLine_title _ _ rfl ht1 ht0 ht2]
  obtain ⟨v, hv⟩ :=
    parseLine_site ⟨some a.title, none, none, none, []⟩ (pyUpper site_slug)
      (by simp)
  have hv2 : parseLine ⟨some a.title, none, none, none, []⟩
      ("Site: " ++ pyUpper site_slug) = ⟨some a.title, none, none, v, []⟩ := by
    rw [hv]
  cases hda : a.date with
  | some d =>
    rw [show headerLines a site_slug =
        [effTitle a, "", "Site: " ++ pyUpper site_slug,
         "Published: " ++ isoformat d, "URL: " ++ a.url, ""] from by
      unfold headerLines
      rw [hda]
      rfl]
    simp only [List.foldl_cons, List.foldl_nil]
    rw [hT, h1,
      show parseLine (⟨some a.title, none, none, none, []⟩ : ParsedArticle) "" =
        ⟨some a.title, none, none, none, []⟩ from parseLine_blank _, hv2]
    have h4 : parseLine ⟨some a.title, none, none, v, []⟩
        ("Published: " ++ isoformat d) =
        ⟨some a.title, none, some (isoformat d), v, []⟩ := by
      rw [parseLine_pub _ d (by simp)]
    have h5 : parseLine ⟨some a.title, none, some (isoformat d), v, []⟩
        ("URL: " ++ a.url) =
        ⟨some a.title, some a.url, some (isoformat d), v, []⟩ := by
      rw [parseLine_url _ a.url (by simp) hu0 hu1]
    rw [h4, h5,
      show parseLine
          (⟨some a.title, some a.url, some (isoformat d), v, []⟩ : ParsedArticle) "" =
        ⟨some a.title, some a.url, some (isoformat d), v, []⟩ from
        parseLine_blank _]
    obtain ⟨k1, k2, k3⟩ := foldl_keep (sepBlank (writeParas a))
      ⟨some a.title, some a.url, some (isoformat d), v, []⟩ (by simp) hsep
    exact ⟨k1, k2, k3⟩
  | none =>
    rw [show headerLines a site_slug =
        [effTitle a, "", "Site: " ++ pyUpper site_slug,
         "URL: " ++ a.url, ""] from by
      unfold headerLines
      rw [hda]
      rfl]
    simp only [List.foldl_cons, List.foldl_nil]
    rw [hT, h1,
      show parseLine (⟨some a.title, none, none, none, []⟩ : ParsedArticle) "" =
        ⟨some a.title, none, none, none, []⟩ from parseLine_blank _, hv2]
    have h5 : parseLine ⟨some a.title, none, none, v, []⟩
        ("URL: " ++ a.url) = ⟨some a.title, some a.url, none, v, []⟩ := by
      rw [parseLine_url _ a.url (by simp) hu0 hu1]
    rw [h5,
      show parseLine
          (⟨some a.title, some a.url, none, v, []⟩ : ParsedArticle) "" =
        ⟨some a.title, some a.url, none, v, []⟩ from parseLine_blank _]
    obtain ⟨k1, k2, k3⟩ := foldl_keep (sepBlank (writeParas a))
      ⟨some a.title, some a.url, none, v, []⟩ (by simp) hsep
    exact ⟨k1, k2, k3⟩

/-- C4 counterexample: a title containing a colon is *not* recovered by the
parser — the title line "Breaking: Fire" is taken for a metadata line (it
contains ":"), so the first colon-free line, here the paragraph, becomes the
parsed title. -/
theorem c4_counterexample :
    (parse_article_file (write_text_article
      ⟨"http://x", "Breaking: Fire", some ⟨2025, 6, 1⟩, ["Hello world"]⟩
      "wmur")).title = some "Hello world" := by
  decide

/-- Witness for the amended C4 at a concrete colon-free article. -/
theorem c4_round_trip_witness :
    (parse_article_file (write_text_article
      ⟨"http://x", "Tornado hits town", some ⟨2025, 6, 1⟩, ["Hello world"]⟩
      "wmur")).title = some "Tornado hits town" ∧
    (parse_article_file (write_text_article
      ⟨"http://x", "Tornado hits town", some ⟨2025, 6, 1⟩, ["Hello world"]⟩
      "wmur")).url = some "http://x" ∧
    (parse_article_file (write_text_article
      ⟨"http://x", "Tornado hits town", some ⟨2025, 6, 1⟩, ["Hello world"]⟩
      "wmur")).published = some "2025-06-01" := by
  have h := c4_round_trip
    ⟨"http://x", "Tornado hits town", some ⟨2025, 6, 1⟩, ["Hello world"]⟩ "wmur"
    (by decide) (by decide) (by decide) (by decide)
    (by decide) (by decide) (by decide) (by decide) (by decide)
    (by decide) (by decide)
  exact ⟨h.1, h.2.1, h.2.2⟩

/-! ## Claim C1: the exact-date filter -/

theorem wmur_loop_date (env : Env) (d : PyDate) (urls : List String) :
    ∀ a ∈ Wmur.scrapeLoop env d urls, a.date = some d := by
  induction urls with
  | nil => intro a ha; simp [Wmur.scrapeLoop] at ha
  | cons u rest ih =>
    intro a ha
    unfold Wmur.scrapeLoop at ha
    split at ha
    · exact ih a ha
    · exact ih a ha
    · split at ha
      · next hd =>
        rcases List.mem_cons.mp ha with rfl | hm
        · exact hd
        · exact ih a hm
      · exact ih a ha

theorem wmur_scrape_date {env : Env} {d : PyDate} {arts : List Article}
    (h : Wmur.scrape env d = .ok arts) : ∀ a ∈ arts, a.date = some d := by
  unfold Wmur.scrape at h
  split at h
  · simp at h
  · next urls heq =>
    injection h with h2
    exact h2 ▸ wmur_loop_date env d urls

theorem bloxRow_date {iso3 : Bool} {stops : List String} {base : String}
    {hp : String → List String} {r : List (String × Json)} {d : PyDate}
    {a : Article} (h : bloxRow iso3 stops base hp r d = .ok (some a)) :
    a.date = some d := by
  simp only [bloxRow] at h
  split at h
  · next s hstv =>
    split at h
    · simp at h
    · next hse =>
      split at h
      · simp at h
      · next pub hparse =>
        split at h
        · simp at h
        · next hpd =>
          split at h
          · simp at h
          · next raw hjor =>
            split at h
            · simp at h
            · next htr =>
              split at h
              · simp at h
              · next ps hclean =>
                split at h
                · simp at h
                · next hpe =>
                  injection h with h2
                  injection h2 with h3
                  rw [← h3]
                  show some pub = some d
                  rw [not_not.mp hpd]
  · simp at h

theorem bloxRows_date {iso3 : Bool} {stops : List String} {base : String}
    {hp : String → List String} {d : PyDate} {rows : List Json}
    {arts : List Article} (h : bloxRows iso3 stops base hp d rows = .ok arts) :
    ∀ a ∈ arts, a.date = some d := by
  induction rows generalizing arts with
  | nil =>
    injection h with h2
    intro a ha
    rw [← h2] at ha
    simp at ha
  | cons row rest ih =>
    intro a ha
    unfold bloxRows at h
    split at h
    · split at h
      · simp at h
      · exact ih h a ha
      · next a0 heq =>
        split at h
        · simp at h
        · next arts2 heq2 =>
          injection h with h2
          rw [← h2] at ha
          rcases List.mem_cons.mp ha with rfl | hm
          · exact bloxRow_date heq
          · exact ih heq2 a hm
    · simp at h

theorem bloxScrape_date {iso3 : Bool} {stops : List String} {base : String}
    {resp : Except String Json} {hp : String → List String} {d : PyDate}
    {arts : List Article} (h : bloxScrape iso3 stops base resp hp d = .ok arts) :
    ∀ a ∈ arts, a.date = some d := by
  unfold bloxScrape at h
  split at h
  · injection h with h2
    intro a ha
    rw [← h2] at ha
    simp at ha
  · split at h
    · split at h
      · exact bloxRows_date h
      · simp at h
    · simp at h

theorem wcax_article_date {env : Env} {url : String} {fb : PyDate} {art : Article}
    (h : Wcax.scrape_article env url fb = .ok (some art)) :
    art.date = some ((urlDateMatch url).getD fb) := by
  simp only [Wcax.scrape_article] at h
  split at h
  · simp at h
  · split at h
    · simp at h
    · split at h
      · simp at h
      · injection h with h2
        injection h2 with h3
        rw [← h3]

theorem wcax_urlLoop_mem (d : PyDate) (anchors : List String) :
    ∀ seen acc, (∀ u ∈ acc, urlDateMatch u = some d) →
      ∀ u ∈ Wcax.urlLoop d seen acc anchors, urlDateMatch u = some d := by
  induction anchors with
  | nil => intro seen acc hacc u hu; exact hacc u hu
  | cons href rest ih =>
    intro seen acc hacc u hu
    simp only [Wcax.urlLoop] at hu
    split at hu
    · exact ih _ _ hacc u hu
    · set href2 := if pyStartswith href "/" = true then Wcax.BASE_URL ++ href else href
      split at hu
      · exact ih _ _ hacc u hu
      · split at hu
        · exact ih _ _ hacc u hu
        · next url_date heq =>
          split at hu
          · exact ih _ _ hacc u hu
          · next hne =>
            split at hu
            · exact ih _ _ hacc u hu
            · have hacc2 : ∀ v ∈ acc ++ [href2], urlDateMatch v = some d := by
                intro v hv
                rcases List.mem_append.mp hv with h1 | h2
                · exact hacc v h1
                · rw [List.mem_singleton.mp h2, heq, not_not.mp hne]
              split at hu
              · exact hacc2 u hu
              · exact ih _ _ hacc2 u hu

theorem wcax_loop_date (env : Env) (d : PyDate) (urls : List String)
    (hu : ∀ u ∈ urls, urlDateMatch u = some d) :
    ∀ a ∈ Wcax.scrapeLoop env d urls, a.date = some d := by
  induction urls with
  | nil => intro a ha; simp [Wcax.scrapeLoop] at ha
  | cons u rest ih =>
    intro a ha
    have htail : ∀ v ∈ rest, urlDateMatch v = some d :=
      fun v hv => hu v (List.mem_cons_of_mem _ hv)
    unfold Wcax.scrapeLoop at ha
    split at ha
    · exact ih htail a ha
    · exact ih htail a ha
    · next art heq =>
      rcases List.mem_cons.mp ha with rfl | hm
      · have hd := wcax_article_date heq
        rw [hu u (List.mem_cons_self _ _)] at hd
        simpa using hd
      · exact ih htail a hm

theorem wcax_scrape_date {env : Env} {d : PyDate} {arts : List Article}
    (h : Wcax.scrape env d = .ok arts) : ∀ a ∈ arts, a.date = some d := by
  unfold Wcax.scrape at h
  split at h
  · simp at h
  · next urls heq =>
    injection h with h2
    unfold Wcax.get_urls_for_date at heq
    split at heq
    · simp at heq
    · injection heq with h3
      refine h2 ▸ wcax_loop_date env d urls ?_
      exact h3 ▸ wcax_urlLoop_mem d _ _ _ (by intro u hu; simp at hu)

theorem vtdigger_article_date {env : Env} {url : String} {fb : PyDate}
    {art : Article} {dd : PyDate} (hud : urlDateMatch url = some dd)
    (h : Vtdigger.scrape_article env url fb = .ok (some art)) :
    art.date = some dd := by
  simp only [Vtdigger.scrape_article, hud] at h
  split at h
  · simp at h
  · split at h
    · simp at h
    · split at h
      · simp at h
      · split at h
        · simp at h
        · next ps heq =>
          injection h with h2
          injection h2 with h3
          rw [← h3]

theorem vtdigger_urlLoop_mem (d : PyDate) (anchors : List String) :
    ∀ seen acc, (∀ u ∈ acc, urlDateMatch u = some d) →
      ∀ u ∈ Vtdigger.urlLoop d seen acc anchors, urlDateMatch u = some d := by
  induction anchors with
  | nil => intro seen acc hacc u hu; exact hacc u hu
  | cons href rest ih =>
    intro seen acc hacc u hu
    simp only [Vtdigger.urlLoop] at hu
    split at hu
    · exact ih _ _ hacc u hu
    · set href2 := if pyStartswith href "/" = true then Vtdigger.BASE_URL ++ href else href
      split at hu
      · exact ih _ _ hacc u hu
      · split at hu
        · exact ih _ _ hacc u hu
        · next url_date heq =>
          split at hu
          · exact ih _ _ hacc u hu
          · next hne =>
            split at hu
            · exact ih _ _ hacc u hu
            · have hacc2 : ∀ v ∈ acc ++ [href2], urlDateMatch v = some d := by
                intro v hv
                rcases List.mem_append.mp hv with h1 | h2
                · exact hacc v h1
                · rw [List.mem_singleton.mp h2, heq, not_not.mp hne]
              split at hu
              · exact hacc2 u hu
              · exact ih _ _ hacc2 u hu

theorem vtdigger_loop_date (env : Env) (d : PyDate) (urls : List String)
    (hu : ∀ u ∈ urls, urlDateMatch u = some d) :
    ∀ a ∈ Vtdigger.scrapeLoop env d urls, a.date = some d := by
  induction urls with
  | nil => intro a ha; simp [Vtdigger.scrapeLoop] at ha
  | cons u rest ih =>
    intro a ha
    have htail : ∀ v ∈ rest, urlDateMatch v = some d :=
      fun v hv => hu v (List.mem_cons_of_mem _ hv)
    unfold Vtdigger.scrapeLoop at ha
    split at ha
    · exact ih htail a ha
    · exact ih htail a ha
    · next art heq =>
      rcases List.mem_cons.mp ha with rfl | hm
      · exact vtdigger_article_date (hu u (List.mem_cons_self _ _)) heq
      · exact ih htail a hm

theorem vtdigger_scrape_date {env : Env} {d : PyDate} {arts : List Article}
    (h : Vtdigger.scrape env d = .ok arts) : ∀ a ∈ arts, a.date = some d := by
  unfold Vtdigger.scrape at h
  split at h
  · simp at h
  · next urls heq =>
    injection h with h2
    unfold Vtdigger.get_urls_for_date at heq
    split at heq
    · simp at heq
    · injection heq with h3
      refine h2 ▸ vtdigger_loop_date env d urls ?_
      exact h3 ▸ vtdigger_urlLoop_mem d _ _ _ (by intro u hu; simp at hu)

theorem mk_article_date {env : Env} {url : String} {fb : PyDate} {art : Article}
    {pg : Page} {dd : PyDate} (hpg : env.page url = .ok pg)
    (htd : Mykeenenow.textDate pg = some dd)
    (h : Mykeenenow.scrape_article env url fb = .ok art) : art.date = some dd := by
  simp only [Mykeenenow.scrape_article, hpg] at h
  injection h with h2
  rw [← h2]
  unfold Mykeenenow.textDate at htd
  split at htd
  · next m heq =>
    show some _ = some dd
    simp only [heq, htd]
  · simp at htd

theorem mk_checkLoop_mem (env : Env) (d : PyDate) (cands : List String) :
    ∀ valid scanned, (∀ u ∈ valid, ∃ pg, env.page u = .ok pg ∧
        Mykeenenow.textDate pg = some d) →
      ∀ u ∈ (Mykeenenow.checkLoop env d valid scanned cands).1,
        ∃ pg, env.page u = .ok pg ∧ Mykeenenow.textDate pg = some d := by
  induction cands with
  | nil => intro valid scanned hv u hu; exact hv u hu
  | cons c rest ih =>
    intro valid scanned hv u hu
    unfold Mykeenenow.checkLoop at hu
    split at hu
    · exact hv u hu
    · split at hu
      · exact ih _ _ hv u hu
      · next pg heq =>
        split at hu
        · next htd =>
          refine ih _ _ ?_ u hu
          intro v hv2
          rcases List.mem_append.mp hv2 with h1 | h2
          · exact hv v h1
          · exact ⟨pg, by rw [List.mem_singleton.mp h2]; exact heq, htd⟩
        · exact ih _ _ hv u hu

theorem mk_loop_date (env : Env) (d : PyDate) (urls : List String)
    (hu : ∀ u ∈ urls, ∃ pg, env.page u = .ok pg ∧
      Mykeenenow.textDate pg = some d) :
    ∀ a ∈ Mykeenenow.scrapeLoop env d urls, a.date = some d := by
  induction urls with
  | nil => intro a ha; simp [Mykeenenow.scrapeLoop] at ha
  | cons u rest ih =>
    intro a ha
    have htail : ∀ v ∈ rest, ∃ pg, env.page v = .ok pg ∧
        Mykeenenow.textDate pg = some d :=
      fun v hv => hu v (List.mem_cons_of_mem _ hv)
    unfold Mykeenenow.scrapeLoop at ha
    split at ha
    · exact ih htail a ha
    · next art heq =>
      rcases List.mem_cons.mp ha with rfl | hm
      · obtain ⟨pg, hpg, htd⟩ := hu u (List.mem_cons_self _ _)
        exact mk_article_date hpg htd heq
      · exact ih htail a hm

theorem mk_scrape_date {env : Env} {d : PyDate} {arts : List Article}
    (h : Mykeenenow.scrape env d = .ok arts) : ∀ a ∈ arts, a.date = some d := by
  unfold Mykeenenow.scrape at h
  split at h
  · simp at h
  · next urls n heq =>
    injection h with h2
    unfold Mykeenenow.get_urls_for_date at heq
    split at heq
    · simp at heq
    · next pg hpage =>
      injection heq with h3
      refine h2 ▸ mk_loop_date env d urls ?_
      intro u hu
      refine mk_checkLoop_mem env d (Mykeenenow.candLoop [] [] pg.anchors) [] 0
        (by intro v hv; simp at hv) u ?_
      rw [h3]
      exact hu

/-- C1.  For every configured adapter and every target date, every article in
a successful scrape result carries exactly the target date: WMUR filters
explicitly, WCAX/VTDigger only keep URLs whose embedded date equals the
target, MyKeeneNow only keeps candidates whose page text dates to the target
(and re-derives the same date deterministically when scraping), and the two
BLOX JSON adapters skip every row whose start time is not the target. -/
theorem c1_exact_date_filter (env : Env) (d : PyDate)
    (p : String × (Env → PyDate → Except String (List Article)))
    (hmem : p ∈ AVAILABLE_SCRAPERS) (arts : List Article)
    (h : p.2 env d = .ok arts) : ∀ a ∈ arts, a.date = some d := by
  simp only [AVAILABLE_SCRAPERS, List.mem_cons, List.not_mem_nil, or_false] at hmem
  rcases hmem with rfl | rfl | rfl | rfl | rfl | rfl
  · exact wmur_scrape_date h
  · exact wcax_scrape_date h
  · exact vtdigger_scrape_date h
  · exact mk_scrape_date h
  · exact bloxScrape_date h
  · exact bloxScrape_date h

/-! ## Concrete run fixtures

Small concrete environments used to exercise the adapters on closed inputs:
a run where every site finds one matching article (`envA`), a WMUR run whose
article body yields no paragraphs (`envC`), a MyKeeneNow listing with 61
candidates none of which match (`envB`), and a run where every request
fails (`envF`). -/

def d0 : PyDate := ⟨2025, 6, 5⟩

def pgEmpty : Page :=
  { anchors := [], ogTitle := none, twTitle := none, h1 := none, text := "",
    paragraphs := [], metaSection := none, catLink := none }

def wmurListPg : Page :=
  { pgEmpty with anchors := ["/article/local-story"] }

def wmurArtPg : Page :=
  { pgEmpty with ogTitle := some "Local Story", text := "June 5, 2025",
                 paragraphs := ["Body text here."] }

def wcaxListPg : Page :=
  { pgEmpty with anchors := ["/2025/06/05/story-a/"] }

def wcaxArtPg : Page :=
  { pgEmpty with h1 := some "Storm Update", metaSection := some "Vermont",
                 paragraphs := ["A paragraph."] }

def vtdListPg : Page :=
  { pgEmpty with anchors := ["/2025/06/05/vt-story/"] }

def vtdArtPg : Page :=
  { pgEmpty with h1 := some "Legislature passes bill",
                 paragraphs := ["Vermont news text."] }

def mkListPg : Page :=
  { pgEmpty with anchors := ["/news/keene-story"] }

def mkArtPg : Page :=
  { pgEmpty with h1 := some "Keene Story", text := "June 5, 2025",
                 paragraphs := ["Keene news."] }

def keeneRespA : Json :=
  .obj [("rows", .arr [.obj
    [("starttime", .obj [("iso8601", .str "2025-06-05T12:00:00")]),
     ("title", .str "Sentinel Story"),
     ("url", .str "/local/sentinel-story"),
     ("content", .str "<p>Keene body</p>")]])]

def reformerRespA : Json :=
  .obj [("rows", .arr [.obj
    [("starttime", .str "2025-06-05T08:00:00"),
     ("title", .str "Reformer Story"),
     ("url", .str "/local/reformer-story"),
     ("content", .str "<p>Reformer body</p>")]])]

def envA : Env :=
  { page := fun u =>
      if u = Wmur.LOCAL_NEWS_URL then .ok wmurListPg
      else if u = "https://www.wmur.com/article/local-story" then .ok wmurArtPg
      else if u = Wcax.NEWS_URL then .ok wcaxListPg
      else if u = "https://www.wcax.com/2025/06/05/story-a/" then .ok wcaxArtPg
      else if u = Vtdigger.BASE_URL then .ok vtdListPg
      else if u = "https://vtdigger.org/2025/06/05/vt-story/" then .ok vtdArtPg
      else if u = Mykeenenow.NEWS_URL then .ok mkListPg
      else if u = "https://mykeenenow.com/news/keene-story" then .ok mkArtPg
      else .error "404",
    htmlPs := fun s =>
      if s = "<p>Keene body</p>" then ["Keene body"]
      else if s = "<p>Reformer body</p>" then ["Reformer body"]
      else [],
    keeneResp := .ok keeneRespA,
    reformerResp := .ok reformerRespA }

/-- Witness for C1: the one article of a concrete WMUR run, whose date the
theorem forces to the target 2025-06-05. -/
theorem c1_exact_date_filter_witness :
    (⟨"https://www.wmur.com/article/local-story", "Local Story",
      some ⟨2025, 6, 5⟩, ["Body text here."]⟩ : Article).date =
      some (⟨2025, 6, 5⟩ : PyDate) :=
  c1_exact_date_filter envA d0 ("wmur", Wmur.scrape)
    (List.mem_cons_self _ _)
    [⟨"https://www.wmur.com/article/local-story", "Local Story",
      some ⟨2025, 6, 5⟩, ["Body text here."]⟩]
    (by rfl) _ (List.mem_cons_self _ _)

/-! ## Claim C2: no zero-paragraph article -/

theorem bloxRow_paras {iso3 : Bool} {stops : List String} {base : String}
    {hp : String → List String} {r : List (String × Json)} {d : PyDate}
    {a : Article} (h : bloxRow iso3 stops base hp r d = .ok (some a)) :
    a.paragraphs ≠ [] := by
  simp only [bloxRow] at h
  split at h
  · next s hstv =>
    split at h
    · simp at h
    · next hse =>
      split at h
      · simp at h
      · next pub hparse =>
        split at h
        · simp at h
        · next hpd =>
          split at h
          · simp at h
          · next raw hjor =>
            split at h
            · simp at h
            · next htr =>
              split at h
              · simp at h
              · next ps hclean =>
                split at h
                · simp at h
                · next hpe =>
                  injection h with h2
                  injection h2 with h3
                  rw [← h3]
                  exact hpe
  · simp at h

theorem bloxRows_paras {iso3 : Bool} {stops : List String} {base : String}
    {hp : String → List String} {d : PyDate} {rows : List Json}
    {arts : List Article} (h : bloxRows iso3 stops base hp d rows = .ok arts) :
    ∀ a ∈ arts, a.paragraphs ≠ [] := by
  induction rows generalizing arts with
  | nil =>
    injection h with h2
    intro a ha
    rw [← h2] at ha
    simp at ha
  | cons row rest ih =>
    intro a ha
    unfold bloxRows at h
    split at h
    · split at h
      · simp at h
      · exact ih h a ha
      · next a0 heq =>
        split at h
        · simp at h
        · next arts2 heq2 =>
          injection h with h2
          rw [← h2] at ha
          rcases List.mem_cons.mp ha with rfl | hm
          · exact bloxRow_paras heq
          · exact ih heq2 a hm
    · simp at h

theorem bloxScrape_paras {iso3 : Bool} {stops : List String} {base : String}
    {resp : Except String Json} {hp : String → List String} {d : PyDate}
    {arts : List Article} (h : bloxScrape iso3 stops base resp hp d = .ok arts) :
    ∀ a ∈ arts, a.paragraphs ≠ [] := by
  unfold bloxScrape at h
  split at h
  · injection h with h2
    intro a ha
    rw [← h2] at ha
    simp at ha
  · split at h
    · split at h
      · exact bloxRows_paras h
      · simp at h
    · simp at h

/-- C2 (amended).  The two JSON-API adapters never return a zero-paragraph
article: a row whose cleaned body is empty is skipped.  (The HTML adapters do
return zero-paragraph articles — see the counterexample.) -/
theorem c2_nonempty_paragraphs (resp : Except String Json)
    (hp : String → List String) (d : PyDate) (arts : List Article) :
    (Keenesentinel.scrape resp hp d = .ok arts → ∀ a ∈ arts, a.paragraphs ≠ []) ∧
    (Reformer.scrape resp hp d = .ok arts → ∀ a ∈ arts, a.paragraphs ≠ []) :=
  ⟨fun h => bloxScrape_paras h, fun h => bloxScrape_paras h⟩

def wmurEmptyListPg : Page :=
  { pgEmpty with anchors := ["/article/empty-story"] }

def wmurEmptyArtPg : Page :=
  { pgEmpty with ogTitle := some "Empty Story" }

def envC : Env :=
  { page := fun u =>
      if u = Wmur.LOCAL_NEWS_URL then .ok wmurEmptyListPg
      else if u = "https://www.wmur.com/article/empty-story" then .ok wmurEmptyArtPg
      else .error "404",
    htmlPs := fun _ => [],
    keeneResp := .error "down",
    reformerResp := .error "down" }

/-- C2 counterexample: a WMUR run returns an article with *zero* paragraphs —
`scrape` filters on the date only, not on emptiness of the body, so the
zero-paragraph record reaches the Archive Writer. -/
theorem c2_counterexample :
    Wmur.scrape envC d0 = .ok
      [⟨"https://www.wmur.com/article/empty-story", "Empty Story", some d0, []⟩] :=
  rfl

/-- Witness for the amended C2 at a concrete Keene Sentinel run. -/
theorem c2_nonempty_paragraphs_witness :
    (⟨"https://www.keenesentinel.com/local/sentinel-story", "Sentinel Story",
      some ⟨2025, 6, 5⟩, ["Keene body"]⟩ : Article).paragraphs ≠ [] :=
  (c2_nonempty_paragraphs envA.keeneResp envA.htmlPs d0
    [⟨"https://www.keenesentinel.com/local/sentinel-story", "Sentinel Story",
      some ⟨2025, 6, 5⟩, ["Keene body"]⟩]).1
    (by rfl) _ (List.mem_cons_self _ _)

/-! ## Claim C8: driver behaviour on a listing-page fetch failure -/

def envF : Env :=
  { page := fun _ => .error "boom",
    htmlPs := fun _ => [],
    keeneResp := .error "boom",
    reformerResp := .error "boom" }

/-- C8 counterexample: with every request failing, the driver's per-site log
output is empty everywhere — the bare `except: pass` swallows the failures
*without logging them* and the two JSON adapters catch their own request
errors; no log line is emitted by the driver loop for the failing sites. -/
theorem c8_counterexample :
    driverRun envF d0 =
      [("wmur", (.error "boom", [])), ("wcax", (.error "boom", [])),
       ("vtdigger", (.error "boom", [])), ("mykeenenow", (.error "boom", [])),
       ("keenesentinel", (.ok [], [])), ("reformer", (.ok [], []))] := rfl

/-- C8 (amended).  If the WMUR listing-page fetch raises, that site's scrape
fails for the run and the driver proceeds through all six configured sites
without raising — but it logs nothing: the failure is swallowed by a bare
`except: pass`. -/
theorem c8_driver_swallows_errors (env : Env) (d : PyDate) (e : String)
    (h : env.page Wmur.LOCAL_NEWS_URL = .error e) :
    (driverRun env d).length = 6 ∧
    (driverRun env d).head? = some ("wmur", (.error e, [])) := by
  refine ⟨by simp [driverRun, AVAILABLE_SCRAPERS], ?_⟩
  have hs : Wmur.scrape env d = .error e := by
    unfold Wmur.scrape Wmur.get_candidate_urls
    rw [h]
  unfold driverRun AVAILABLE_SCRAPERS
  simp only [List.map_cons, List.head?_cons]
  unfold driverStep
  rw [hs]

/-- Witness for the amended C8 at the all-failing environment. -/
theorem c8_driver_swallows_errors_witness :
    (driverRun envF d0).length = 6 ∧
    (driverRun envF d0).head? = some ("wmur", (.error "boom", [])) :=
  c8_driver_swallows_errors envF d0 "boom" rfl

/-! ## Claim C9: the 60-candidate cap -/

theorem wmur_candLoop_cap (anchors : List String) :
    ∀ seen acc, acc.length < 60 → (Wmur.candLoop seen acc anchors).length ≤ 60 := by
  induction anchors with
  | nil => intro seen acc hl; exact Nat.le_of_lt hl
  | cons href rest ih =>
    intro seen acc hl
    simp only [Wmur.candLoop]
    split
    · exact ih _ _ hl
    · set href2 := if pyStartswith href "/" = true then Wmur.BASE_URL ++ href else href
      split
      · exact ih _ _ hl
      · split
        · exact ih _ _ hl
        · split
          · exact ih _ _ hl
          · split
            · exact ih _ _ hl
            · split
              · next h60 =>
                replace h60 : 60 ≤ (acc ++ [href2]).length := h60
                simp only [List.length_append, List.length_cons,
                  List.length_nil] at h60 ⊢
                omega
              · next h60 =>
                replace h60 : ¬ 60 ≤ (acc ++ [href2]).length := h60
                refine ih _ _ ?_
                simp only [List.length_append, List.length_cons,
                  List.length_nil] at h60 ⊢
                omega

theorem wcax_urlLoop_cap (d : PyDate) (anchors : List String) :
    ∀ seen acc, acc.length < 60 →
      (Wcax.urlLoop d seen acc anchors).length ≤ 60 := by
  induction anchors with
  | nil => intro seen acc hl; exact Nat.le_of_lt hl
  | cons href rest ih =>
    intro seen acc hl
    simp only [Wcax.urlLoop]
    split
    · exact ih _ _ hl
    · set href2 := if pyStartswith href "/" = true then Wcax.BASE_URL ++ href else href
      split
      · exact ih _ _ hl
      · split
        · exact ih _ _ hl
        · split
          · exact ih _ _ hl
          · split
            · exact ih _ _ hl
            · split
              · next h60 =>
                replace h60 : 60 ≤ (acc ++ [href2]).length := h60
                simp only [List.length_append, List.length_cons,
                  List.length_nil] at h60 ⊢
                omega
              · next h60 =>
                replace h60 : ¬ 60 ≤ (acc ++ [href2]).length := h60
                refine ih _ _ ?_
                simp only [List.length_append, List.length_cons,
                  List.length_nil] at h60 ⊢
                omega

theorem vtdigger_urlLoop_cap (d : PyDate) (anchors : List String) :
    ∀ seen acc, acc.length < 60 →
      (Vtdigger.urlLoop d seen acc anchors).length ≤ 60 := by
  induction anchors with
  | nil => intro seen acc hl; exact Nat.le_of_lt hl
  | cons href rest ih =>
    intro seen acc hl
    simp only [Vtdigger.urlLoop]
    split
    · exact ih _ _ hl
    · set href2 := if pyStartswith href "/" = true then Vtdigger.BASE_URL ++ href else href
      split
      · exact ih _ _ hl
      · split
        · exact ih _ _ hl
        · split
          · exact ih _ _ hl
          · split
            · exact ih _ _ hl
            · split
              · next h60 =>
                replace h60 : 60 ≤ (acc ++ [href2]).length := h60
                simp only [List.length_append, List.length_cons,
                  List.length_nil] at h60 ⊢
                omega
              · next h60 =>
                replace h60 : ¬ 60 ≤ (acc ++ [href2]).length := h60
                refine ih _ _ ?_
                simp only [List.length_append, List.length_cons,
                  List.length_nil] at h60 ⊢
                omega

theorem mk_checkLoop_cap (env : Env) (d : PyDate) (cands : List String) :
    ∀ valid scanned, valid.length ≤ 60 →
      ((Mykeenenow.checkLoop env d valid scanned cands).1).length ≤ 60 := by
  induction cands with
  | nil => intro valid scanned hv; exact hv
  | cons c rest ih =>
    intro valid scanned hv
    unfold Mykeenenow.checkLoop
    split
    · exact hv
    · next h60 =>
      replace h60 : ¬ 60 ≤ valid.length := h60
      split
      · exact ih _ _ hv
      · split
        · refine ih _ _ ?_
          simp only [List.length_append, List.length_cons, List.length_nil]
          omega
        · exact ih _ _ hv

/-- C9 (amended).  URL discovery returns at most 60 URLs for every adapter —
but on MyKeeneNow's slow path the number of candidates *scanned* (each one a
page fetch) is not capped: only the number of matches is (see the
counterexample). -/
theorem c9_candidate_cap (env : Env) (d : PyDate) :
    (∀ urls, Wmur.get_candidate_urls env = .ok urls → urls.length ≤ 60) ∧
    (∀ urls, Wcax.get_urls_for_date env d = .ok urls → urls.length ≤ 60) ∧
    (∀ urls, Vtdigger.get_urls_for_date env d = .ok urls → urls.length ≤ 60) ∧
    (∀ urls n, Mykeenenow.get_urls_for_date env d = .ok (urls, n) →
      urls.length ≤ 60) := by
  refine ⟨?_, ?_, ?_, ?_⟩
  · intro urls h
    unfold Wmur.get_candidate_urls at h
    split at h
    · simp at h
    · injection h with h2
      exact h2 ▸ wmur_candLoop_cap _ _ _ (by decide)
  · intro urls h
    unfold Wcax.get_urls_for_date at h
    split at h
    · simp at h
    · injection h with h2
      exact h2 ▸ wcax_urlLoop_cap d _ _ _ (by decide)
  · intro urls h
    unfold Vtdigger.get_urls_for_date at h
    split at h
    · simp at h
    · injection h with h2
      exact h2 ▸ vtdigger_urlLoop_cap d _ _ _ (by decide)
  · intro urls n h
    unfold Mykeenenow.get_urls_for_date at h
    split at h
    · simp at h
    · next pg hpage =>
      injection h with h2
      have hc := mk_checkLoop_cap env d (Mykeenenow.candLoop [] [] pg.anchors)
        [] 0 (by decide)
      rw [h2] at hc
      exact hc

def mkListBPg : Page :=
  { pgEmpty with anchors := (List.range 61).map (fun i => "/news/a" ++ natReprS i) }

def envB : Env :=
  { page := fun u =>
      if u = Mykeenenow.NEWS_URL then .ok mkListBPg else .ok pgEmpty,
    htmlPs := fun _ => [],
    keeneResp := .error "down",
    reformerResp := .error "down" }

set_option maxRecDepth 40000 in
/-- C9 counterexample: with 61 distinct `/news/` candidates none of which
dates to the target, MyKeeneNow's date-check loop fetches *61* candidate
pages — the claimed cap of 60 on candidates scanned does not exist (the break
fires only when sixty candidates have already MATCHED). -/
theorem c9_counterexample :
    Mykeenenow.get_urls_for_date envB d0 = .ok ([], 61) ∧ 60 < 61 :=
  ⟨rfl, by decide⟩

/-- Witness for the amended C9 at a concrete run of all four discovery
steps. -/
theorem c9_candidate_cap_witness :
    (["https://www.wmur.com/article/local-story"] : List String).length ≤ 60 ∧
    (["https://www.wcax.com/2025/06/05/story-a/"] : List String).length ≤ 60 ∧
    (["https://vtdigger.org/2025/06/05/vt-story/"] : List String).length ≤ 60 ∧
    (["https://mykeenenow.com/news/keene-story"] : List String).length ≤ 60 :=
  ⟨(c9_candidate_cap envA d0).1 _ (by rfl),
   (c9_candidate_cap envA d0).2.1 _ (by rfl),
   (c9_candidate_cap envA d0).2.2.1 _ (by rfl),
   (c9_candidate_cap envA d0).2.2.2 _ 1 (by rfl)⟩

/-! ## Claim C10: the JSON adapters and request failures -/

/-- C10 counterexample: `scrape` *can* raise for a reachable API — a response
that decodes to a JSON array (not an object) reaches
`data.get("rows", [])` outside the try/except and raises `AttributeError`,
which propagates out of the adapter. -/
theorem c10_counterexample :
    Keenesentinel.scrape (.ok (.arr [])) (fun _ => []) d0 =
      .error "AttributeError: response JSON has no attribute get" := rfl

/-- C10 (amended).  For both JSON adapters a *failure of the API request
itself* (network error, timeout, non-2xx raised by `raise_for_status`, or a
body that fails JSON decoding — all modelled as a failed response) is caught
inside the adapter and yields the empty article list; only a *successful*
request with unexpected JSON shape can raise past the adapter. -/
theorem c10_request_failure_safe (e : String) (hp : String → List String)
    (d : PyDate) :
    Keenesentinel.scrape (.error e) hp d = .ok [] ∧
    Reformer.scrape (.error e) hp d = .ok [] :=
  ⟨rfl, rfl⟩

/-! ## Claim C7: the US date parser -/

theorem ciPref_of_lowerL (pre rest : List Char) :
    ciPref (lowerL pre) (pre ++ rest) = some rest := by
  induction pre with
  | nil => rfl
  | cons c p ih =>
    show ciPref (lowerChar c :: lowerL p) (c :: (p ++ rest)) = some rest
    unfold ciPref
    rw [if_pos rfl]
    exact ih

theorem ciPref_some_split {pat : List Char} : ∀ {cs r : List Char},
    ciPref pat cs = some r → ∃ pre, cs = pre ++ r ∧ lowerL pre = pat := by
  induction pat with
  | nil =>
    intro cs r h
    injection h with h2
    exact ⟨[], by rw [h2]; rfl, rfl⟩
  | cons p ps ih =>
    intro cs r h
    cases cs with
    | nil => simp [ciPref] at h
    | cons c cs2 =>
      unfold ciPref at h
      split at h
      · next hl =>
        obtain ⟨pre, h1, h2⟩ := ih h
        refine ⟨c :: pre, by rw [List.cons_append, h1], ?_⟩
        show lowerChar c :: lowerL pre = p :: ps
        rw [hl, h2]
      · simp at h

theorem prefix_append_cases {p a x : List Char} (h : p <+: a ++ x) :
    p <+: a ∨ a <+: p := by
  induction a generalizing p with
  | nil => exact Or.inr (List.nil_prefix)
  | cons c a2 ih =>
    cases p with
    | nil => exact Or.inl (List.nil_prefix)
    | cons q p2 =>
      rw [List.cons_append, List.cons_prefix_cons] at h
      obtain ⟨rfl, h2⟩ := h
      rcases ih h2 with h3 | h3
      · exact Or.inl (List.cons_prefix_cons.mpr ⟨rfl, h3⟩)
      · exact Or.inr (List.cons_prefix_cons.mpr ⟨rfl, h3⟩)

theorem ciPref_none_lower {pat nd rest : List Char}
    (h1 : ¬ pat <+: lowerL nd) (h2 : ¬ lowerL nd <+: pat) :
    ciPref pat (nd ++ rest) = none := by
  cases hc : ciPref pat (nd ++ rest) with
  | none => rfl
  | some r =>
    obtain ⟨pre, hsplit, hlow⟩ := ciPref_some_split hc
    have hpre : pat <+: lowerL (nd ++ rest) := by
      rw [← hlow]
      exact List.IsPrefix.map lowerChar ⟨r, hsplit.symm⟩
    rw [show lowerL (nd ++ rest) = lowerL nd ++ lowerL rest from
      List.map_append _ _ _] at hpre
    rcases prefix_append_cases hpre with h3 | h3
    · exact absurd h3 h1
    · exact absurd h3 h2

theorem matchMonth_go_nil (cs : List Char) (i : Nat) :
    matchMonth.go cs i [] = none := rfl

theorem matchMonth_go_cons (cs : List Char) (i : Nat) (n : String)
    (rest : List String) :
    matchMonth.go cs i (n :: rest) =
      (match ciPref n.data cs with
       | some r => some (i, r)
       | none => matchMonth.go cs (i + 1) rest) := rfl

theorem matchMonth_go_complete {name : String} {r : List Char} :
    ∀ (l : List String) (k i : Nat), i < l.length →
      lowerL name.data = (l.getD i "").data →
      (∀ j, j < i → ciPref ((l.getD j "").data) (name.data ++ r) = none) →
      matchMonth.go (name.data ++ r) k l = some (k + i, r) := by
  intro l
  induction l with
  | nil => intro k i hi; simp at hi
  | cons n rest ih =>
    intro k i hi hname hprev
    rw [matchMonth_go_cons]
    cases i with
    | zero =>
      rw [show ciPref n.data (name.data ++ r) = some r from by
        rw [show n.data = lowerL name.data from hname.symm]
        exact ciPref_of_lowerL _ _]
      simp
    | succ i2 =>
      rw [show ciPref n.data (name.data ++ r) = none from
        hprev 0 (Nat.succ_pos i2)]
      have := ih (k + 1) i2 (by simpa using hi) hname
        (fun j hj => hprev (j + 1) (by omega))
      rw [this, show k + 1 + i2 = k + (i2 + 1) from by omega]

theorem matchMonth_complete {L : List String} (name : String) {r : List Char}
    {i : Nat} (hi : i < L.length)
    (hname : lowerL name.data = (L.getD i "").data)
    (hprev : ∀ j, j < i → ciPref ((L.getD j "").data) (name.data ++ r) = none) :
    matchMonth L (name.data ++ r) = some (i + 1, r) := by
  unfold matchMonth
  rw [matchMonth_go_complete L 1 i hi hname hprev, Nat.add_comm]

theorem strptimeUS_fail {names : List String} {cs r : List Char} {m : Nat}
    {c : Char} (hm : matchMonth names cs = some (m, c :: r))
    (hc : ¬ pySpace c) : strptimeUS names cs = none := by
  have hsk : skipWs1 (c :: r) = none := by
    show (if pySpace c = true then some (r.dropWhile pySpace) else none) = none
    rw [if_neg (by simpa using hc)]
  unfold strptimeUS
  simp only [hm, hsk]

theorem dropWhile_digits (n : Nat) (X : List Char) :
    (natRepr n ++ X).dropWhile pySpace = natRepr n ++ X := by
  cases hx : natRepr n with
  | nil => exact absurd hx (natRepr_ne n)
  | cons c cs =>
    rw [List.cons_append, List.dropWhile_cons_of_neg]
    simpa using digit_not_space
      (natRepr_digits n c (by rw [hx]; exact List.mem_cons_self _ _))

theorem dropWhile_digits2 (n : Nat) :
    (natRepr n).dropWhile pySpace = natRepr n := by
  have := dropWhile_digits n []
  simpa using this

theorem parseDay_repr (d : Nat) (r : List Char) (h1 : 1 ≤ d) (h2 : d ≤ 31) :
    parseDay (natRepr d ++ ',' :: r) = some (d, ',' :: r) := by
  interval_cases d <;> rfl

theorem natDigsAux_zero (fuel : Nat) : natDigsAux fuel 0 = [] := by
  cases fuel <;> rfl

theorem natDigsAux_pos {fuel n : Nat} (hf : 0 < fuel) (hn : 0 < n) :
    natDigsAux fuel n = natDigsAux (fuel - 1) (n / 10) ++ [digitChar (n % 10)] := by
  cases fuel with
  | zero => omega
  | succ f =>
    cases n with
    | zero => omega
    | succ m => rfl

theorem digitVal_digitChar (k : Nat) : digitVal (digitChar k) = k % 10 := by
  unfold digitVal digitChar
  rw [charToNatOfNat (by omega)]
  omega

theorem digitsVal_append_single (xs : List Char) (c : Char) :
    digitsVal (xs ++ [c]) = digitsVal xs * 10 + digitVal c := by
  unfold digitsVal
  rw [List.foldl_append]
  rfl

theorem digitsVal_natDigsAux : ∀ fuel n, n ≤ fuel →
    digitsVal (natDigsAux fuel n) = n := by
  intro fuel
  induction fuel with
  | zero =>
    intro n hn
    interval_cases n
    rfl
  | succ f ih =>
    intro n hn
    cases n with
    | zero => rw [natDigsAux_zero]; rfl
    | succ m =>
      rw [natDigsAux_pos (Nat.succ_pos f) (Nat.succ_pos m)]
      rw [digitsVal_append_single, digitVal_digitChar]
      have hdiv : (m + 1) / 10 ≤ f := by
        have := Nat.div_lt_self (Nat.succ_pos m) (by omega : 1 < 10)
        omega
      rw [show Nat.succ f - 1 = f from rfl, ih _ hdiv]
      omega

theorem digitsVal_natRepr {n : Nat} (hn : 0 < n) : digitsVal (natRepr n) = n := by
  unfold natRepr natDigs
  rw [if_neg (by omega)]
  exact digitsVal_natDigsAux n n (Nat.le_refl n)

theorem natRepr_year4 {y : Nat} (h1 : 1000 ≤ y) (h2 : y ≤ 9999) :
    natRepr y = [digitChar (y / 1000 % 10), digitChar (y / 100 % 10),
                 digitChar (y / 10 % 10), digitChar (y % 10)] := by
  unfold natRepr natDigs
  rw [if_neg (by omega)]
  rw [natDigsAux_pos (by omega) (by omega)]
  rw [natDigsAux_pos (by omega) (by omega : 0 < y / 10)]
  rw [show y / 10 / 10 = y / 100 from by omega]
  rw [natDigsAux_pos (by omega) (by omega : 0 < y / 100)]
  rw [show y / 100 / 10 = y / 1000 from by omega]
  rw [natDigsAux_pos (by omega) (by omega : 0 < y / 1000)]
  rw [show y / 1000 / 10 = 0 from by omega, natDigsAux_zero]
  simp

theorem parse4Digits_year {y : Nat} (h1 : 1000 ≤ y) (h2 : y ≤ 9999) :
    parse4Digits (natRepr y) = some (y, []) := by
  rw [natRepr_year4 h1 h2]
  show (if (isDigitC (digitChar (y / 1000 % 10)) && isDigitC (digitChar (y / 100 % 10)) &&
          isDigitC (digitChar (y / 10 % 10)) && isDigitC (digitChar (y % 10))) = true
        then some (digitsVal [digitChar (y / 1000 % 10), digitChar (y / 100 % 10),
          digitChar (y / 10 % 10), digitChar (y % 10)], ([] : List Char))
        else none) = some (y, [])
  rw [if_pos (by simp [digitChar_digit])]
  have hv := digitsVal_natRepr (show 0 < y from by omega)
  rw [natRepr_year4 h1 h2] at hv
  rw [hv]

theorem strptimeUS_complete {names : List String} {cs r1 : List Char}
    {m d y : Nat} (hm : matchMonth names cs = some (m, r1))
    (hr1 : r1 = ' ' :: (natRepr d ++ (',' :: (' ' :: natRepr y))))
    (h1 : 1 ≤ d) (h31 : d ≤ 31) (hy1 : 1000 ≤ y) (hy2 : y ≤ 9999)
    (hval : dateValid y m d = true) :
    strptimeUS names cs = some ⟨y, m, d⟩ := by
  have hskip1 : skipWs1 (' ' :: (natRepr d ++ (',' :: (' ' :: natRepr y)))) =
      some (natRepr d ++ (',' :: (' ' :: natRepr y))) := by
    show (if pySpace ' ' = true
          then some ((natRepr d ++ (',' :: (' ' :: natRepr y))).dropWhile pySpace)
          else none) = _
    rw [if_pos (by decide), dropWhile_digits]
  have hday := parseDay_repr d (' ' :: natRepr y) h1 h31
  have hskip2 : skipWs1 (' ' :: natRepr y) = some (natRepr y) := by
    show (if pySpace ' ' = true then some ((natRepr y).dropWhile pySpace)
          else none) = _
    rw [if_pos (by decide), dropWhile_digits2]
  have h4 := parse4Digits_year hy1 hy2
  unfold strptimeUS
  rw [hr1] at hm
  simp only [hm, hskip1, hday, hskip2, h4]
  unfold mkPyDate
  rw [if_pos hval]
  simp

/-- Abbreviation for the character tail `" D, YYYY"` minus its leading space,
shared by the date-parser lemmas. -/
def usTail (d y : Nat) : List Char := natRepr d ++ (',' :: (' ' :: natRepr y))

theorem prefOf_lower {pat : List Char} : ∀ {cs : List Char},
    prefOf pat cs = true → prefOf (lowerL pat) (lowerL cs) = true := by
  induction pat with
  | nil => intro cs _; rfl
  | cons p ps ih =>
    intro cs h
    cases cs with
    | nil => simp [prefOf] at h
    | cons c cs2 =>
      rw [show prefOf (p :: ps) (c :: cs2) =
        (decide (p = c) && prefOf ps cs2) from rfl] at h
      simp only [Bool.and_eq_true, decide_eq_true_eq] at h
      obtain ⟨rfl, h2⟩ := h
      show (decide (lowerChar p = lowerChar p) && prefOf (lowerL ps) (lowerL cs2)) = true
      simp [ih h2]

theorem containsSub_lower {cs pat : List Char} (h : containsSub cs pat = true) :
    containsSub (lowerL cs) (lowerL pat) = true := by
  induction cs with
  | nil =>
    cases pat with
    | nil => rfl
    | cons a b => simp [containsSub] at h
  | cons c cs2 ih =>
    show (prefOf (lowerL pat) (lowerChar c :: lowerL cs2) ||
      containsSub (lowerL cs2) (lowerL pat)) = true
    have h2 : (prefOf pat (c :: cs2) || containsSub cs2 pat) = true := h
    cases h3 : prefOf pat (c :: cs2) with
    | true =>
      have h4 := prefOf_lower h3
      rw [show lowerL (c :: cs2) = lowerChar c :: lowerL cs2 from rfl] at h4
      rw [h4]
      rfl
    | false =>
      rw [h3] at h2
      simp only [Bool.false_or] at h2
      rw [ih h2]
      simp

theorem containsSub_cons_false {c : Char} {cs pat : List Char}
    (h1 : prefOf pat (c :: cs) = false) (h2 : containsSub cs pat = false) :
    containsSub (c :: cs) pat = false := by
  show (prefOf pat (c :: cs) || containsSub cs pat) = false
  rw [h1, h2]
  rfl

theorem containsSub_false_of_head_notin {p0 : Char} {ps X : List Char}
    (h : p0 ∉ X) : containsSub X (p0 :: ps) = false := by
  induction X with
  | nil => rfl
  | cons x xs ih =>
    refine containsSub_cons_false ?_ (ih (fun hm => h (List.mem_cons_of_mem _ hm)))
    have hx : p0 ≠ x := fun he => h (he ▸ List.mem_cons_self _ _)
    show (decide (p0 = x) && prefOf ps xs) = false
    simp [hx]

theorem containsSub_false_all {X pat : List Char} :
    ∀ pre : List Char,
      (∀ i, i < pre.length → prefOf pat (pre.drop i ++ X) = false) →
      containsSub X pat = false → containsSub (pre ++ X) pat = false := by
  intro pre
  induction pre with
  | nil => intro _ h; exact h
  | cons c pre2 ih =>
    intro hwin hX
    rw [List.cons_append]
    refine containsSub_cons_false ?_
      (ih (fun i hi => hwin (i + 1) (by simpa using hi)) hX)
    have := hwin 0 (by simp)
    simpa using this

theorem replaceLAux_no_occur {pat repl : List Char} : ∀ fuel cs, cs.length ≤ fuel →
    containsSub cs pat = false → replaceLAux pat repl fuel cs = cs := by
  intro fuel
  induction fuel with
  | zero => intro cs _ _; rfl
  | succ f ih =>
    intro cs hl hc
    cases cs with
    | nil => rfl
    | cons c rest =>
      have hor : (prefOf pat (c :: rest) || containsSub rest pat) = false := hc
      have hpr : prefOf pat (c :: rest) = false := by
        cases hp : prefOf pat (c :: rest)
        · rfl
        · rw [hp] at hor; simp at hor
      have hrest : containsSub rest pat = false := by
        cases hr : containsSub rest pat
        · rfl
        · rw [hr] at hor; simp at hor
      show (if pat ≠ [] ∧ prefOf pat (c :: rest) = true
            then repl ++ replaceLAux pat repl f ((c :: rest).drop pat.length)
            else c :: replaceLAux pat repl f rest) = c :: rest
      rw [if_neg (fun hand => by rw [hpr] at hand; exact absurd hand.2 (by simp))]
      rw [ih rest (by simpa using Nat.le_of_succ_le_succ hl) hrest]

theorem stringEta (s : String) : String.mk s.data = s := by
  cases s
  rfl

theorem pyReplace_no_occur {s pat repl : String}
    (h : containsSub s.data pat.data = false) : pyReplace s pat repl = s := by
  unfold pyReplace replaceL
  rw [replaceLAux_no_occur s.data.length s.data (Nat.le_refl _) h]

theorem septFix_id {s : String}
    (h : containsSub (lowerL s.data) "sept ".data = false) : septFix s = s := by
  have hmk : ∀ pat : String, lowerL pat.data = "sept ".data →
      containsSub s.data pat.data = false := by
    intro pat hp
    cases hc : containsSub s.data pat.data
    · rfl
    · have h2 := containsSub_lower hc
      rw [hp] at h2
      rw [h] at h2
      simp at h2
  unfold septFix
  rw [pyReplace_no_occur (hmk "Sept " (by decide)),
    pyReplace_no_occur (hmk "SEPT " (by decide))]

theorem replaceL_head {pat repl X : List Char} (hp : pat ≠ [])
    (hX : containsSub X pat = false) :
    replaceL pat repl (pat ++ X) = repl ++ X := by
  obtain ⟨p, ps, rfl⟩ : ∃ p ps, pat = p :: ps := by
    cases pat with
    | nil => exact absurd rfl hp
    | cons a b => exact ⟨a, b, rfl⟩
  show replaceLAux (p :: ps) repl (((p :: ps) ++ X).length) ((p :: ps) ++ X) =
    repl ++ X
  rw [List.cons_append]
  show (if (p :: ps) ≠ [] ∧ prefOf (p :: ps) (p :: (ps ++ X)) = true
        then repl ++ replaceLAux (p :: ps) repl ((ps ++ X).length)
          ((p :: (ps ++ X)).drop (p :: ps).length)
        else p :: replaceLAux (p :: ps) repl ((ps ++ X).length) (ps ++ X)) =
    repl ++ X
  rw [if_pos ⟨by simp, by rw [← List.cons_append]; exact prefOf_self_append _ _⟩]
  rw [show ((p :: (ps ++ X)).drop (p :: ps).length) = X from by
    rw [← List.cons_append]
    exact List.drop_left _ _]
  rw [replaceLAux_no_occur _ X (by simp) hX]

theorem pySpace_lowerChar {c : Char} (h : pySpace c = true) :
    pySpace (lowerChar c) = true := by
  have hcc : lowerChar c = c := by
    unfold lowerChar
    rw [if_neg]
    intro hand
    obtain ⟨h1, _⟩ := hand
    simp only [pySpace, Bool.or_eq_true, decide_eq_true_eq] at h
    rcases h with ((((rfl | rfl) | rfl) | rfl) | h2) | h2
    · exact absurd h1 (by decide)
    · exact absurd h1 (by decide)
    · exact absurd h1 (by decide)
    · exact absurd h1 (by decide)
    · have hc2 := charEqOfToNat (show c.toNat = ('\x0b' : Char).toNat from by rw [h2]; rfl)
      rw [hc2] at h1
      exact absurd h1 (by decide)
    · have hc2 := charEqOfToNat (show c.toNat = ('\x0c' : Char).toNat from by rw [h2]; rfl)
      rw [hc2] at h1
      exact absurd h1 (by decide)
  rw [hcc]
  exact h

theorem lowerChar_digit {c : Char} (h : isDigitC c) : lowerChar c = c := by
  unfold lowerChar
  rw [if_neg]
  intro hand
  obtain ⟨h1, _⟩ := hand
  simp only [isDigitC, Bool.and_eq_true, decide_eq_true_eq] at h
  exact absurd (le_trans h1 h.2) (by decide)

theorem noS_lower_tail (d y : Nat) : 's' ∉ lowerL (usTail d y) := by
  intro hm
  obtain ⟨x, hx, hlx⟩ := List.mem_map.mp hm
  unfold usTail at hx
  rcases List.mem_append.mp hx with h | h
  · rw [lowerChar_digit (natRepr_digits d x h)] at hlx
    exact absurd (natRepr_digits d x h) (by rw [hlx]; decide)
  · rcases List.mem_cons.mp h with rfl | h2
    · exact absurd hlx (by decide)
    · rcases List.mem_cons.mp h2 with rfl | h3
      · exact absurd hlx (by decide)
      · rw [lowerChar_digit (natRepr_digits y x h3)] at hlx
        exact absurd (natRepr_digits y x h3) (by rw [hlx]; decide)

theorem noS_tail (d y : Nat) : 'S' ∉ usTail d y := by
  intro hm
  unfold usTail at hm
  rcases List.mem_append.mp hm with h | h
  · exact absurd (natRepr_digits d 'S' h) (by decide)
  · rcases List.mem_cons.mp h with h2 | h2
    · exact absurd h2 (by decide)
    · rcases List.mem_cons.mp h2 with h3 | h3
      · exact absurd h3 (by decide)
      · exact absurd (natRepr_digits y 'S' h3) (by decide)

theorem inputData (name : String) (d y : Nat) :
    (name ++ " " ++ natReprS d ++ ", " ++ natReprS y).data =
      name.data ++ (' ' :: usTail d y) := by
  rw [stringAppData, stringAppData, stringAppData, stringAppData]
  show name.data ++ [' '] ++ natRepr d ++ [',', ' '] ++ natRepr y = _
  unfold usTail
  simp [List.append_assoc]

theorem daysInMonth_le31 (y m : Nat) : daysInMonth y m ≤ 31 := by
  unfold daysInMonth
  split
  · split <;> omega
  · split <;> omega

theorem dateValid_of {y m d : Nat} (hm1 : 1 ≤ m) (hm2 : m ≤ 12) (h1 : 1 ≤ d)
    (hdm : d ≤ daysInMonth y m) (hy1 : 1 ≤ y) (hy2 : y ≤ 9999) :
    dateValid y m d = true := by
  unfold dateValid
  simp only [Bool.and_eq_true, decide_eq_true_eq]
  exact ⟨⟨⟨⟨⟨hy1, hy2⟩, hm1⟩, hm2⟩, h1⟩, hdm⟩

theorem septFix_sept (X : String) (hS : 'S' ∉ X.data) :
    septFix ("Sept " ++ X) = "Sep " ++ X := by
  have hX : containsSub X.data "Sept ".data = false :=
    containsSub_false_of_head_notin hS
  have hX2 : containsSub X.data "SEPT ".data = false :=
    containsSub_false_of_head_notin hS
  unfold septFix
  have hinner : pyReplace ("Sept " ++ X) "Sept " "Sep " = "Sep " ++ X := by
    unfold pyReplace
    rw [show ("Sept " ++ X).data = "Sept ".data ++ X.data from stringAppData _ _]
    rw [replaceL_head (by decide) hX]
    apply stringDataEq
    show "Sep ".data ++ X.data = ("Sep " ++ X).data
    rw [stringAppData]
  rw [hinner]
  have houter : containsSub ("Sep " ++ X).data "SEPT ".data = false := by
    rw [show ("Sep " ++ X).data = 'S' :: 'e' :: 'p' :: ' ' :: X.data from by
      rw [stringAppData]; rfl]
    exact containsSub_cons_false rfl (containsSub_cons_false rfl
      (containsSub_cons_false rfl (containsSub_cons_false rfl hX2)))
  exact pyReplace_no_occur houter

theorem septFix_id_input {name : String} {d y : Nat} {ln : List Char}
    (hname : lowerL name.data = ln)
    (hwin : ∀ j, j < (ln ++ [' ']).length →
      prefOf "sept ".data (((ln ++ [' ']).drop j) ++ lowerL (usTail d y)) = false) :
    septFix (name ++ " " ++ natReprS d ++ ", " ++ natReprS y) =
      name ++ " " ++ natReprS d ++ ", " ++ natReprS y := by
  apply septFix_id
  rw [inputData]
  show containsSub (lowerL (name.data ++ (' ' :: usTail d y))) "sept ".data = false
  rw [show lowerL (name.data ++ (' ' :: usTail d y)) =
      lowerL name.data ++ (' ' :: lowerL (usTail d y)) from by
    unfold lowerL
    rw [List.map_append]
    rfl]
  rw [hname]
  rw [show ln ++ (' ' :: lowerL (usTail d y)) =
      (ln ++ [' ']) ++ lowerL (usTail d y) from by simp]
  exact containsSub_false_all _ hwin
    (containsSub_false_of_head_notin (noS_lower_tail d y))

theorem parse_via_abbrev {name : String} {d y i : Nat}
    (hi : i < monthAbbrevs.length)
    (hname : lowerL name.data = (monthAbbrevs.getD i "").data)
    (hprev : ∀ j, j < i → ciPref ((monthAbbrevs.getD j "").data)
      (name.data ++ (' ' :: usTail d y)) = none)
    (hfix : septFix (name ++ " " ++ natReprS d ++ ", " ++ natReprS y) =
      name ++ " " ++ natReprS d ++ ", " ++ natReprS y)
    (h1 : 1 ≤ d) (h31 : d ≤ 31) (hy1 : 1000 ≤ y) (hy2 : y ≤ 9999)
    (hval : dateValid y (i + 1) d = true) :
    parse_us_date_string (name ++ " " ++ natReprS d ++ ", " ++ natReprS y) =
      some ⟨y, i + 1, d⟩ := by
  have hm : matchMonth monthAbbrevs (name.data ++ (' ' :: usTail d y)) =
      some (i + 1, ' ' :: usTail d y) :=
    matchMonth_complete name hi hname hprev
  have hst : strptimeUS monthAbbrevs (name.data ++ (' ' :: usTail d y)) =
      some ⟨y, i + 1, d⟩ :=
    strptimeUS_complete hm rfl h1 h31 hy1 hy2 hval
  simp only [parse_us_date_string]
  rw [hfix, inputData]
  simp only [hst]

theorem parse_via_full (suf : String) {name : String} {d y i : Nat}
    (hiF : i < monthFulls.length) (hiA : i < monthAbbrevs.length)
    (hsplit : (monthFulls.getD i "").data = (monthAbbrevs.getD i "").data ++ suf.data)
    (hsufne : suf.data ≠ [])
    (hns : ∀ c cs, suf.data = c :: cs → pySpace c = false)
    (hname : lowerL name.data = (monthFulls.getD i "").data)
    (hprevA : ∀ j, j < i → ciPref ((monthAbbrevs.getD j "").data)
      (name.data ++ (' ' :: usTail d y)) = none)
    (hprevF : ∀ j, j < i → ciPref ((monthFulls.getD j "").data)
      (name.data ++ (' ' :: usTail d y)) = none)
    (hfix : septFix (name ++ " " ++ natReprS d ++ ", " ++ natReprS y) =
      name ++ " " ++ natReprS d ++ ", " ++ natReprS y)
    (h1 : 1 ≤ d) (h31 : d ≤ 31) (hy1 : 1000 ≤ y) (hy2 : y ≤ 9999)
    (hval : dateValid y (i + 1) d = true) :
    parse_us_date_string (name ++ " " ++ natReprS d ++ ", " ++ natReprS y) =
      some ⟨y, i + 1, d⟩ := by
  have hsplit2 : lowerL name.data = (monthAbbrevs.getD i "").data ++ suf.data := by
    rw [hname, hsplit]
  obtain ⟨a, b, hab, hla, hlb⟩ :
      ∃ a b, name.data = a ++ b ∧ lowerL a = (monthAbbrevs.getD i "").data ∧
        lowerL b = suf.data := by
    have := List.map_eq_append_iff.mp hsplit2
    obtain ⟨a, b, h3, h4, h5⟩ := this
    exact ⟨a, b, h3, h4, h5⟩
  have hmA : matchMonth monthAbbrevs (name.data ++ (' ' :: usTail d y)) =
      some (i + 1, b ++ (' ' :: usTail d y)) := by
    rw [hab, List.append_assoc]
    refine matchMonth_complete (String.mk a) hiA hla ?_
    intro j hj
    rw [show (String.mk a).data ++ (b ++ (' ' :: usTail d y)) =
        name.data ++ (' ' :: usTail d y) from by
      show a ++ (b ++ (' ' :: usTail d y)) = _
      rw [hab, List.append_assoc]]
    exact hprevA j hj
  obtain ⟨c0, cs0, hbc⟩ : ∃ c0 cs0, b = c0 :: cs0 := by
    cases hb : b with
    | nil =>
      rw [hb] at hlb
      exact absurd hlb.symm hsufne
    | cons x xs => exact ⟨x, xs, rfl⟩
  have hcns : ¬ pySpace c0 := by
    intro hsp
    have hs1 := pySpace_lowerChar hsp
    have hs2 := hns (lowerChar c0) (lowerL cs0) (by rw [← hlb, hbc]; rfl)
    rw [hs2] at hs1
    exact absurd hs1 (by simp)
  have hfailA : strptimeUS monthAbbrevs (name.data ++ (' ' :: usTail d y)) = none := by
    rw [hbc, List.cons_append] at hmA
    exact strptimeUS_fail hmA hcns
  have hmF : matchMonth monthFulls (name.data ++ (' ' :: usTail d y)) =
      some (i + 1, ' ' :: usTail d y) :=
    matchMonth_complete name hiF hname hprevF
  have hstF : strptimeUS monthFulls (name.data ++ (' ' :: usTail d y)) =
      some ⟨y, i + 1, d⟩ :=
    strptimeUS_complete hmF rfl h1 h31 hy1 hy2 hval
  simp only [parse_us_date_string]
  rw [hfix, inputData]
  simp only [hfailA, hstF]

theorem septFix_SEPT (X : String) (hS : 'S' ∉ X.data) :
    septFix ("SEPT " ++ X) = "Sep " ++ X := by
  unfold septFix
  have h1 : containsSub ("SEPT " ++ X).data "Sept ".data = false := by
    rw [show ("SEPT " ++ X).data = 'S' :: 'E' :: 'P' :: 'T' :: ' ' :: X.data from by
      rw [stringAppData]; rfl]
    exact containsSub_cons_false rfl (containsSub_cons_false rfl
      (containsSub_cons_false rfl (containsSub_cons_false rfl
        (containsSub_cons_false rfl (containsSub_false_of_head_notin hS)))))
  rw [pyReplace_no_occur h1]
  unfold pyReplace
  rw [show ("SEPT " ++ X).data = "SEPT ".data ++ X.data from stringAppData _ _]
  rw [replaceL_head (by decide) (containsSub_false_of_head_notin hS)]
  apply stringDataEq
  show "Sep ".data ++ X.data = ("Sep " ++ X).data
  rw [stringAppData]

theorem parse_sept_route {pre : String} {d y : Nat}
    (hfix : septFix (pre ++ " " ++ natReprS d ++ ", " ++ natReprS y) =
      "Sep " ++ String.mk (usTail d y))
    (h1 : 1 ≤ d) (h30 : d ≤ 30) (hy1 : 1000 ≤ y) (hy2 : y ≤ 9999) :
    parse_us_date_string (pre ++ " " ++ natReprS d ++ ", " ++ natReprS y) =
      some ⟨y, 9, d⟩ := by
  simp only [parse_us_date_string]
  rw [hfix]
  rw [show ("Sep " ++ String.mk (usTail d y)).data =
      "Sep".data ++ (' ' :: usTail d y) from by rw [stringAppData]; rfl]
  have hm : matchMonth monthAbbrevs ("Sep".data ++ (' ' :: usTail d y)) =
      some (9, ' ' :: usTail d y) :=
    matchMonth_complete (i := 8) "Sep" (by decide) (by decide)
      (by intro j hj; interval_cases j <;> rfl)
  have hval : dateValid y 9 d = true :=
    dateValid_of (by omega) (by omega) h1
      (by rw [show daysInMonth y 9 = 30 from rfl]; exact h30) (by omega) hy2
  have hst := strptimeUS_complete hm rfl h1 (by omega) hy1 hy2 hval
  simp only [hst]

/-- C7 (amended).  The date parser is complete for `"<Month> <D>, <YYYY>"`
strings: for a month name in *any* letter casing whose lowercase form is one
of the twelve standard abbreviations or full names, a day within the month
and a four-digit year, it returns exactly the corresponding calendar date;
the four-letter "Sept" abbreviation is additionally accepted, but *only* in
the two casings `"Sept"`/`"SEPT"` that the literal normalization replaces
(see the counterexample: lowercase `"sept"` is rejected, although the
parser accepts every other month name case-insensitively).  Non-matching
strings yield the `none` sentinel by construction — the parser is a total
function into `Option`, the source's try/except around the `ValueError` is
the `mkPyDate`/`none` branch. -/
theorem c7_us_date_parse :
    (∀ (name : String) (i d y : Nat), i < 12 →
      (lowerL name.data = (monthAbbrevs.getD i "").data ∨
       lowerL name.data = (monthFulls.getD i "").data) →
      1 ≤ d → d ≤ daysInMonth y (i + 1) → 1000 ≤ y → y ≤ 9999 →
      parse_us_date_string (name ++ " " ++ natReprS d ++ ", " ++ natReprS y) =
        some ⟨y, i + 1, d⟩) ∧
    (∀ pre : String, pre = "Sept" ∨ pre = "SEPT" → ∀ d y : Nat,
      1 ≤ d → d ≤ 30 → 1000 ≤ y → y ≤ 9999 →
      parse_us_date_string (pre ++ " " ++ natReprS d ++ ", " ++ natReprS y) =
        some ⟨y, 9, d⟩) := by
  constructor
  · intro name i d y hi hname h1 hdm hy1 hy2
    have h31 : d ≤ 31 := le_trans hdm (daysInMonth_le31 y (i + 1))
    have hval : dateValid y (i + 1) d = true :=
      dateValid_of (by omega) (by omega) h1 hdm (by omega) hy2
    interval_cases i <;> rcases hname with h | h
    · exact parse_via_abbrev (by decide) h (fun j hj => absurd hj (by omega))
        (septFix_id_input h (by intro j hj; have hj2 : j < 4 := hj; interval_cases j <;> rfl))
        h1 h31 hy1 hy2 hval
    · exact parse_via_full ("uary") (by decide) (by decide) rfl (by decide)
        (fun c cs hcs => by injection hcs with hc _; rw [← hc]; decide)
        h (fun j hj => absurd hj (by omega)) (fun j hj => absurd hj (by omega))
        (septFix_id_input h (by intro j hj; have hj2 : j < 8 := hj; interval_cases j <;> rfl))
        h1 h31 hy1 hy2 hval
    · exact parse_via_abbrev (by decide) h
        (by intro j hj; interval_cases j <;>
          exact ciPref_none_lower (by rw [h]; decide) (by rw [h]; decide))
        (septFix_id_input h (by intro j hj; have hj2 : j < 4 := hj; interval_cases j <;> rfl))
        h1 h31 hy1 hy2 hval
    · exact parse_via_full ("ruary") (by decide) (by decide) rfl (by decide)
        (fun c cs hcs => by injection hcs with hc _; rw [← hc]; decide)
        h
        (by intro j hj; interval_cases j <;>
          exact ciPref_none_lower (by rw [h]; decide) (by rw [h]; decide))
        (by intro j hj; interval_cases j <;>
          exact ciPref_none_lower (by rw [h]; decide) (by rw [h]; decide))
        (septFix_id_input h (by intro j hj; have hj2 : j < 9 := hj; interval_cases j <;> rfl))
        h1 h31 hy1 hy2 hval
    · exact parse_via_abbrev (by decide) h
        (by intro j hj; interval_cases j <;>
          exact ciPref_none_lower (by rw [h]; decide) (by rw [h]; decide))
        (septFix_id_input h (by intro j hj; have hj2 : j < 4 := hj; interval_cases j <;> rfl))
        h1 h31 hy1 hy2 hval
    · exact parse_via_full ("ch") (by decide) (by decide) rfl (by decide)
        (fun c cs hcs => by injection hcs with hc _; rw [← hc]; decide)
        h
        (by intro j hj; interval_cases j <;>
          exact ciPref_none_lower (by rw [h]; decide) (by rw [h]; decide))
        (by intro j hj; interval_cases j <;>
          exact ciPref_none_lower (by rw [h]; decide) (by rw [h]; decide))
        (septFix_id_input h (by intro j hj; have hj2 : j < 6 := hj; interval_cases j <;> rfl))
        h1 h31 hy1 hy2 hval
    · exact parse_via_abbrev (by decide) h
        (by intro j hj; interval_cases j <;>
          exact ciPref_none_lower (by rw [h]; decide) (by rw [h]; decide))
        (septFix_id_input h (by intro j hj; have hj2 : j < 4 := hj; interval_cases j <;> rfl))
        h1 h31 hy1 hy2 hval
    · exact parse_via_full ("il") (by decide) (by decide) rfl (by decide)
        (fun c cs hcs => by injection hcs with hc _; rw [← hc]; decide)
        h
        (by intro j hj; interval_cases j <;>
          exact ciPref_none_lower (by rw [h]; decide) (by rw [h]; decide))
        (by intro j hj; interval_cases j <;>
          exact ciPref_none_lower (by rw [h]; decide) (by rw [h]; decide))
        (septFix_id_input h (by intro j hj; have hj2 : j < 6 := hj; interval_cases j <;> rfl))
        h1 h31 hy1 hy2 hval
    · exact parse_via_abbrev (by decide) h
        (by intro j hj; interval_cases j <;>
          exact ciPref_none_lower (by rw [h]; decide) (by rw [h]; decide))
        (septFix_id_input h (by intro j hj; have hj2 : j < 4 := hj; interval_cases j <;> rfl))
        h1 h31 hy1 hy2 hval
    · exact parse_via_abbrev (by decide) (by rw [h]; decide)
        (by intro j hj; interval_cases j <;>
          exact ciPref_none_lower (by rw [h]; decide) (by rw [h]; decide))
        (septFix_id_input h (by intro j hj; have hj2 : j < 4 := hj; interval_cases j <;> rfl))
        h1 h31 hy1 hy2 hval
    · exact parse_via_abbrev (by decide) h
        (by intro j hj; interval_cases j <;>
          exact ciPref_none_lower (by rw [h]; decide) (by rw [h]; decide))
        (septFix_id_input h (by intro j hj; have hj2 : j < 4 := hj; interval_cases j <;> rfl))
        h1 h31 hy1 hy2 hval
    · exact parse_via_full ("e") (by decide) (by decide) rfl (by decide)
        (fun c cs hcs => by injection hcs with hc _; rw [← hc]; decide)
        h
        (by intro j hj; interval_cases j <;>
          exact ciPref_none_lower (by rw [h]; decide) (by rw [h]; decide))
        (by intro j hj; interval_cases j <;>
          exact ciPref_none_lower (by rw [h]; decide) (by rw [h]; decide))
        (septFix_id_input h (by intro j hj; have hj2 : j < 5 := hj; interval_cases j <;> rfl))
        h1 h31 hy1 hy2 hval
    · exact parse_via_abbrev (by decide) h
        (by intro j hj; interval_cases j <;>
          exact ciPref_none_lower (by rw [h]; decide) (by rw [h]; decide))
        (septFix_id_input h (by intro j hj; have hj2 : j < 4 := hj; interval_cases j <;> rfl))
        h1 h31 hy1 hy2 hval
    · exact parse_via_full ("y") (by decide) (by decide) rfl (by decide)
        (fun c cs hcs => by injection hcs with hc _; rw [← hc]; decide)
        h
        (by intro j hj; interval_cases j <;>
          exact ciPref_none_lower (by rw [h]; decide) (by rw [h]; decide))
        (by intro j hj; interval_cases j <;>
          exact ciPref_none_lower (by rw [h]; decide) (by rw [h]; decide))
        (septFix_id_input h (by intro j hj; have hj2 : j < 5 := hj; interval_cases j <;> rfl))
        h1 h31 hy1 hy2 hval
    · exact parse_via_abbrev (by decide) h
        (by intro j hj; interval_cases j <;>
          exact ciPref_none_lower (by rw [h]; decide) (by rw [h]; decide))
        (septFix_id_input h (by intro j hj; have hj2 : j < 4 := hj; interval_cases j <;> rfl))
        h1 h31 hy1 hy2 hval
    · exact parse_via_full ("ust") (by decide) (by decide) rfl (by decide)
        (fun c cs hcs => by injection hcs with hc _; rw [← hc]; decide)
        h
        (by intro j hj; interval_cases j <;>
          exact ciPref_none_lower (by rw [h]; decide) (by rw [h]; decide))
        (by intro j hj; interval_cases j <;>
          exact ciPref_none_lower (by rw [h]; decide) (by rw [h]; decide))
        (septFix_id_input h (by intro j hj; have hj2 : j < 7 := hj; interval_cases j <;> rfl))
        h1 h31 hy1 hy2 hval
    · exact parse_via_abbrev (by decide) h
        (by intro j hj; interval_cases j <;>
          exact ciPref_none_lower (by rw [h]; decide) (by rw [h]; decide))
        (septFix_id_input h (by intro j hj; have hj2 : j < 4 := hj; interval_cases j <;> rfl))
        h1 h31 hy1 hy2 hval
    · exact parse_via_full ("tember") (by decide) (by decide) rfl (by decide)
        (fun c cs hcs => by injection hcs with hc _; rw [← hc]; decide)
        h
        (by intro j hj; interval_cases j <;>
          exact ciPref_none_lower (by rw [h]; decide) (by rw [h]; decide))
        (by intro j hj; interval_cases j <;>
          exact ciPref_none_lower (by rw [h]; decide) (by rw [h]; decide))
        (septFix_id_input h (by intro j hj; have hj2 : j < 10 := hj; interval_cases j <;> rfl))
        h1 h31 hy1 hy2 hval
    · exact parse_via_abbrev (by decide) h
        (by intro j hj; interval_cases j <;>
          exact ciPref_none_lower (by rw [h]; decide) (by rw [h]; decide))
        (septFix_id_input h (by intro j hj; have hj2 : j < 4 := hj; interval_cases j <;> rfl))
        h1 h31 hy1 hy2 hval
    · exact parse_via_full ("ober") (by decide) (by decide) rfl (by decide)
        (fun c cs hcs => by injection hcs with hc _; rw [← hc]; decide)
        h
        (by intro j hj; interval_cases j <;>
          exact ciPref_none_lower (by rw [h]; decide) (by rw [h]; decide))
        (by intro j hj; interval_cases j <;>
          exact ciPref_none_lower (by rw [h]; decide) (by rw [h]; decide))
        (septFix_id_input h (by intro j hj; have hj2 : j < 8 := hj; interval_cases j <;> rfl))
        h1 h31 hy1 hy2 hval
    · exact parse_via_abbrev (by decide) h
        (by intro j hj; interval_cases j <;>
          exact ciPref_none_lower (by rw [h]; decide) (by rw [h]; decide))
        (septFix_id_input h (by intro j hj; have hj2 : j < 4 := hj; interval_cases j <;> rfl))
        h1 h31 hy1 hy2 hval
    · exact parse_via_full ("ember") (by decide) (by decide) rfl (by decide)
        (fun c cs hcs => by injection hcs with hc _; rw [← hc]; decide)
        h
        (by intro j hj; interval_cases j <;>
          exact ciPref_none_lower (by rw [h]; decide) (by rw [h]; decide))
        (by intro j hj; interval_cases j <;>
          exact ciPref_none_lower (by rw [h]; decide) (by rw [h]; decide))
        (septFix_id_input h (by intro j hj; have hj2 : j < 9 := hj; interval_cases j <;> rfl))
        h1 h31 hy1 hy2 hval
    · exact parse_via_abbrev (by decide) h
        (by intro j hj; interval_cases j <;>
          exact ciPref_none_lower (by rw [h]; decide) (by rw [h]; decide))
        (septFix_id_input h (by intro j hj; have hj2 : j < 4 := hj; interval_cases j <;> rfl))
        h1 h31 hy1 hy2 hval
    · exact parse_via_full ("ember") (by decide) (by decide) rfl (by decide)
        (fun c cs hcs => by injection hcs with hc _; rw [← hc]; decide)
        h
        (by intro j hj; interval_cases j <;>
          exact ciPref_none_lower (by rw [h]; decide) (by rw [h]; decide))
        (by intro j hj; interval_cases j <;>
          exact ciPref_none_lower (by rw [h]; decide) (by rw [h]; decide))
        (septFix_id_input h (by intro j hj; have hj2 : j < 9 := hj; interval_cases j <;> rfl))
        h1 h31 hy1 hy2 hval
  · intro pre hpre d y h1 h30 hy1 hy2
    rcases hpre with rfl | rfl
    · refine parse_sept_route ?_ h1 h30 hy1 hy2
      rw [show ("Sept" ++ " " ++ natReprS d ++ ", " ++ natReprS y : String) =
          "Sept " ++ String.mk (usTail d y) from by
        apply stringDataEq
        rw [inputData, stringAppData]
        rfl]
      exact septFix_sept _ (noS_tail d y)
    · refine parse_sept_route ?_ h1 h30 hy1 hy2
      rw [show ("SEPT" ++ " " ++ natReprS d ++ ", " ++ natReprS y : String) =
          "SEPT " ++ String.mk (usTail d y) from by
        apply stringDataEq
        rw [inputData, stringAppData]
        rfl]
      exact septFix_SEPT _ (noS_tail d y)

/-- C7 counterexample: the parser accepts month names case-insensitively
(CPython `strptime` compiles an IGNORECASE pattern), so `"sept 5, 2025"` is a
`"<Month> <D>, <YYYY>"` string with the Sept abbreviation — but the literal
normalization replaces only `"Sept "` and `"SEPT "`, so this string is
rejected instead of parsing to 2025-09-05. -/
theorem c7_counterexample : parse_us_date_string "sept 5, 2025" = none := rfl

/-- Witness for the amended C7 at a full month name and a SEPT date. -/
theorem c7_us_date_parse_witness :
    parse_us_date_string ("January" ++ " " ++ natReprS 31 ++ ", " ++ natReprS 1999) =
      some ⟨1999, 1, 31⟩ ∧
    parse_us_date_string ("SEPT" ++ " " ++ natReprS 30 ++ ", " ++ natReprS 2025) =
      some ⟨2025, 9, 30⟩ :=
  ⟨c7_us_date_parse.1 "January" 0 31 1999 (by decide) (Or.inr (by decide))
    (by decide) (by decide) (by decide) (by decide),
   c7_us_date_parse.2 "SEPT" (Or.inr rfl) 30 2025 (by decide) (by decide)
    (by decide) (by decide)⟩
